import Mathlib

/-! # Captain: search subsystem

A shallow embedding of the search code of `src/Captain/engine.cpp` (`shouldStop`,
`threeFoldRep`, `uciUpdate`, `quiesceSearch`, `alphaBetaSearch`, `rootSearch`) and of the
older member template `alphaBetaSearch` of `src/Captain/engine.hpp`.

* The engine object is an explicit `State` record that every function threads through.
* The collaborators that are not part of the source files (board, move generator,
  evaluator, transposition table, hashing, move orderer) are the fields of `Env`; the
  clock and the controller thread are the two oracles of `Ambient`. Every general theorem
  quantifies over them.
* The recursive functions take a recursion budget (`fuel`) and end in a `Res`: a returned
  value, the `Timeout` exception, a call through a null table pointer, or an exhausted
  budget. `Eval` values are unbounded integers.
-/

namespace Captain

/-! ## Data model -/

/-- A `board::Move` token; `0` is the null move. -/
abbrev Move := Nat

/-- The constant `negInf` of `engine.hpp`. -/
def negInf : Int := -500000

/-- The constant `posInf` of `engine.hpp`. -/
def posInf : Int := 500000

/-- The bound kinds `TTable::PV`, `TTable::ALL`, `TTable::CUT`. -/
inductive NodeType where
  | PV
  | ALL
  | CUT
deriving DecidableEq, Repr

/-- The fields of a table slot that the search reads. -/
structure TTEntry where
  key : Nat
  depth : Int
  eval : Int
  bestMove : Move
  nodeType : NodeType
  age : Nat
deriving DecidableEq, Repr

/-- The record `SearchSettings` of `engine.hpp`; durations are whole milliseconds. -/
structure SearchSettings where
  maxDepth : Nat
  maxNodes : Nat
  movestogo : Nat
  infiniteSearch : Bool
  ponder : Bool
  maxTime : Int
  wmsec : Int
  bmsec : Int
  winc : Int
  binc : Int
deriving DecidableEq, Repr

/-- An entry of a move list: `movegen::ScoredMove`, with fields `m` and `score`. -/
structure ScoredMove where
  m : Move
  score : Int
deriving DecidableEq, Repr

/-- One line written to `engine_out`. -/
inductive Output where
  | info (depth : Nat) (score : Int) (time : Int) (nodes : Nat) (nps : Int) (pv : List Move)
  | periodic (depth : Nat) (nodes : Nat) (nps : Int)
  | bestmove (m : Option Move)
deriving DecidableEq, Repr

/-- What the search observes of the world around it: `now n` is the time since
`searchStart`, in milliseconds, returned by the `n`-th observation when that is a reading
of the steady clock; `ctrlClear n` tells whether the controller thread has cleared the
`searching` flag by the `n`-th observation. -/
structure Ambient where
  now : Nat → Int
  ctrlClear : Nat → Bool

/-- The collaborators of the search of `engine.cpp`. `Pos` is `board::QBB`, `TT` the
contents of the transposition table and `MO` the state of a `movegen::MoveOrder`
iterator. -/
structure Env (Pos TT MO : Type) extends Ambient where
  get50 : Pos → Nat
  isWhiteToPlay : Pos → Bool
  isInCheck : Pos → Bool
  makeMove : Pos → Move → Pos
  doNullMove : Pos → Pos
  genMoves : Pos → List Move
  genCaptures : Pos → List Move
  genQuiets : Pos → List Move
  evaluate : Pos → Int
  mvvlva : Pos → Move → Int
  getCaptureValue : Pos → Move → Int
  see : Pos → Move → Int
  slot : TT → Nat → TTEntry
  store : TT → Nat → Int → Int → Move → NodeType → Nat → TT
  tryStore : TT → Nat → Int → Int → Move → NodeType → Nat → TT
  incrementalUpdate : TT → Move → Pos → Pos → Nat
  nullUpdate : TT → Pos → Nat
  moInit : Option TT → Pos → Nat → MO
  moNext : MO → Option TT → Pos → Option (Move × MO)

/-- The data members of `Engine` that the search reads or writes, together with the
`searching` flag, the number of clock and flag observations made so far (`tick`) and the
lines written to `engine_out`. `tt` is `none` for a null table pointer. The stacks
`prevPos` and `prevMoves` grow at the end of the list. -/
structure State (TT : Type) where
  settings : SearchSettings
  moveTime : Int
  nodes : Nat
  hash : Nat
  currIDdepth : Nat
  engineW : Bool
  tt : Option TT
  prevPos : List Nat
  prevMoves : List Move
  initialPos : Nat
  initialMove : Nat
  searching : Bool
  tick : Nat
  lastUpdate : Int
  rootMoves : List ScoredMove
  MainPV : List Move
  eval : Int
  out : List Output

/-- How a call of a search function ends: it returns a value, it is left by the `Timeout`
exception (the state is the one reached after the destructors of the frames left so far
have run), it calls a member function through a null table pointer, or the recursion
budget of the model is used up. -/
inductive Res (σ α : Type) where
  | ok (a : α) (s : σ)
  | timeout (s : σ)
  | nullTT
  | noFuel

variable {Pos TT MO : Type}

/-! ## Time control -/

/-- The function `Engine::elapsed`: one reading of the clock. -/
def elapsed (w : Ambient) (s : State TT) : Int × State TT :=
  (w.now s.tick, { s with tick := s.tick + 1 })

/-- The function `Engine::shouldStop` (engine.cpp 155-163). Each call of `elapsed()` is a separate
reading of the clock, made only where the short-circuit operators evaluate it. -/
def shouldStop (w : Ambient) (s : State TT) : Bool × State TT :=
  if s.settings.ponder then (false, s)
  else
    let r1 : Bool × State TT :=
      if !s.settings.infiniteSearch then
        let e1 := elapsed w s
        if e1.1 > s.moveTime then (true, e1.2)
        else
          let e2 := elapsed w e1.2
          (decide (e2.1 > s.settings.maxTime), e2.2)
      else (false, s)
    if r1.1 then (true, r1.2)
    else if r1.2.nodes > s.settings.maxNodes then (true, r1.2)
    else
      let e3 := elapsed w r1.2
      (decide (e3.1 > s.settings.maxTime), e3.2)

/-- The statement `searchFlags::searching.clear()`. -/
def clearSearching (s : State TT) : State TT :=
  { s with searching := false }

/-- The test `searchFlags::searching.test()`: the flag is set when the search has not
cleared it and the controller has not cleared it either. -/
def testSearching (w : Ambient) (s : State TT) : Bool × State TT :=
  let f := s.searching && !w.ctrlClear s.tick
  (f, { s with searching := f, tick := s.tick + 1 })

/-- The statement `if (shouldStop()) searchFlags::searching.clear();`. -/
def pollStop (w : Ambient) (s : State TT) : State TT :=
  let r := shouldStop w s
  if r.1 then clearSearching r.2 else r.2

/-- The function `Engine::uciUpdate` (engine.cpp 141-153): at most one telemetry line every two
seconds. -/
def uciUpdate (w : Ambient) (s : State TT) : State TT :=
  let t1 := elapsed w s
  if (t1.1 - s.lastUpdate).tdiv 1000 ≥ 2 then
    let t2 := elapsed w t1.2
    let s2 : State TT := { t2.2 with lastUpdate := t2.1 }
    let t3 := elapsed w s2
    let seconds := t3.1.tdiv 1000
    if seconds > 0 then
      { t3.2 with out := t3.2.out ++
          [Output.periodic t3.2.currIDdepth t3.2.nodes ((t3.2.nodes : Int).tdiv seconds)] }
    else t3.2
  else t1.2

/-! ## History stacks -/

/-- Modelled from the spec: `StoreInfo` is declared in a header that is not among the source
files. Its constructor pushes the value on the stack (spec 4.2, `push`). -/
def pushPos (s : State TT) : State TT :=
  { s with prevPos := s.prevPos ++ [s.hash] }

/-- Modelled from the spec: the destructor of a `StoreInfo` on `prevPos` releases the entry
acquired at construction (spec 4.2, `pop`). -/
def popPos (s : State TT) : State TT :=
  { s with prevPos := s.prevPos.dropLast }

/-- Modelled from the spec: the constructor of a `StoreInfo` on `prevMoves` (spec 4.2,
`pushMove`). -/
def pushMove (m : Move) (s : State TT) : State TT :=
  { s with prevMoves := s.prevMoves ++ [m] }

/-- Modelled from the spec: the destructor of a `StoreInfo` on `prevMoves` (spec 4.2,
`popMove`). -/
def popMove (s : State TT) : State TT :=
  { s with prevMoves := s.prevMoves.dropLast }

/-- The end of the scope of a `StoreInfo` on `prevPos`: the destructor runs when the scope
is left by a return and when it is left by the exception. -/
def scopePos {α : Type} : Res (State TT) α → Res (State TT) α
  | Res.ok a s => Res.ok a (popPos s)
  | Res.timeout s => Res.timeout (popPos s)
  | Res.nullTT => Res.nullTT
  | Res.noFuel => Res.noFuel

/-- The loop of `Engine::threeFoldRep` (engine.cpp 133-137): `i` runs from the top of the
stack downwards in steps of two while `i >= 0`. -/
def threeFoldRepLoop (prevPos : List Nat) (currHash : Nat) : Nat → Int → Nat → Nat
  | 0, _, cnt => cnt
  | steps + 1, i, cnt =>
    if i ≥ 0 then
      threeFoldRepLoop prevPos currHash steps (i - 2)
        (if prevPos[i.toNat]? = some currHash then cnt + 1 else cnt)
    else cnt

/-- The function `Engine::threeFoldRep` (engine.cpp 129-139). `prevPos.back()` needs a non-empty stack;
for the empty stack the model answers `false`. -/
def threeFoldRep (prevPos : List Nat) : Bool :=
  match prevPos.getLast? with
  | none => false
  | some currHash =>
    decide (threeFoldRepLoop prevPos currHash prevPos.length ((prevPos.length : Int) - 1) 0 ≥ 3)

/-! ## Move lists -/

/-- The moves a generator call appends to a `Movelist<ScoredMove>`. The score of a fresh
entry is never read before it is assigned; the model sets it to `0`. -/
def asScored (ms : List Move) : List ScoredMove :=
  ms.map (fun m => ScoredMove.mk m 0)

/-- The first loop of `quiesceSearch` (engine.cpp 348-353): the entries below
`captureIterations` get their MVV/LVA score. -/
def scoreCaptures (env : Env Pos TT MO) (b : Pos) (captureIterations : Nat) :
    Nat → List ScoredMove → List ScoredMove
  | _, [] => []
  | i, x :: xs =>
    (if i < captureIterations then ScoredMove.mk x.m (env.mvvlva b x.m) else x) ::
      scoreCaptures env b captureIterations (i + 1) xs

/-- The scan of `std::max_element`: `best` is replaced only by a strictly larger entry, so
the first largest entry wins. Modelled from the spec: entries compare by `score`
(spec 3, ScoredMove). -/
def maxElementAux : Nat → Int → Nat → List ScoredMove → Nat
  | best, _, _, [] => best
  | best, bestScore, j, x :: xs =>
    if bestScore < x.score then maxElementAux j x.score (j + 1) xs
    else maxElementAux best bestScore (j + 1) xs

/-- The index returned by `std::max_element(ml.begin() + i, ml.end())`. -/
def maxElement (ml : List ScoredMove) (i : Nat) : Nat :=
  match ml.drop i with
  | [] => i
  | x :: xs => maxElementAux i x.score (i + 1) xs

/-- The library call `std::iter_swap` on two positions of the list. -/
def iterSwap (ml : List ScoredMove) (i j : Nat) : List ScoredMove :=
  match ml[i]?, ml[j]? with
  | some a, some b => (ml.set i b).set j a
  | _, _ => ml

/-- The head of the body of the second loop of `quiesceSearch` (engine.cpp 357-379): the
selection step, delta pruning and SEE pruning. The result is the move list after the step
and whether the iteration ends with `continue`. -/
def qPrune (env : Env Pos TT MO) (b : Pos) (check : Bool) (standpat alpha : Int)
    (captureIterations i : Nat) (ml : List ScoredMove) : List ScoredMove × Bool :=
  let ml1 := if i + 1 < captureIterations then iterSwap ml i (maxElement ml i) else ml
  if i < captureIterations then
    match ml1[i]? with
    | none => (ml1, false)
    | some x =>
      if !check && env.getCaptureValue b x.m + 200 + standpat ≤ alpha then (ml1, true)
      else if x.score < 0 then
        let sc := env.see b x.m
        let ml2 := ml1.set i (ScoredMove.mk x.m sc)
        if sc < 0 then
          (if check && i + 1 == captureIterations then ml2 ++ asScored (env.genQuiets b)
            else ml2, true)
        else (ml2, false)
      else (ml1, false)
  else (ml1, false)

/-! ## Transposition table probes -/

/-- The table probe of `quiesceSearch` (engine.cpp 289-302): the value returned early, if
any. -/
def ttProbeQ (env : Env Pos TT MO) (s : State TT) (alpha beta depth : Int) : Option Int :=
  match s.tt with
  | none => none
  | some t =>
    let e := env.slot t s.hash
    if e.key = s.hash ∧ e.depth > depth then
      if e.nodeType = NodeType.PV then some e.eval
      else if e.nodeType = NodeType.ALL ∧ e.eval < alpha then some e.eval
      else if e.nodeType = NodeType.CUT ∧ e.eval > beta then some e.eval
      else none
    else none

/-- The table probe of `alphaBetaSearch` (engine.cpp 440-471). -/
def ttProbeAB (env : Env Pos TT MO) (s : State TT) (alpha beta depth : Int) : Option Int :=
  match s.tt with
  | none => none
  | some t =>
    let e := env.slot t s.hash
    if e.key = s.hash ∧ e.depth > depth then
      if e.nodeType = NodeType.ALL ∧ e.eval < alpha then some e.eval
      else if e.nodeType = NodeType.CUT ∧ e.eval > beta then some e.eval
      else none
    else none

/-- The statement `++nodes` on a `std::size_t`. -/
def incNodes (s : State TT) : State TT :=
  { s with nodes := (s.nodes + 1) % 2 ^ 64 }

/-- The statement `hash ^= delta`. -/
def xorHash (delta : Nat) (s : State TT) : State TT :=
  { s with hash := s.hash ^^^ delta }

/-- The statement `hash = oldhash`. -/
def setHash (h : Nat) (s : State TT) : State TT :=
  { s with hash := h }

/-- The table write at a beta cutoff (engine.cpp 542-543). -/
def ttStoreCut (env : Env Pos TT MO) (depth besteval : Int) (m : Move) (s : State TT) :
    State TT :=
  match s.tt with
  | none => s
  | some t =>
    { s with tt := some (env.tryStore t s.hash depth besteval m NodeType.CUT s.initialPos) }

/-- The table write at the end of a node (engine.cpp 566-583). -/
def ttStoreEnd (env : Env Pos TT MO) (depth besteval : Int) (topMove : Move)
    (nodeType : NodeType) (s : State TT) : State TT :=
  match s.tt with
  | none => s
  | some t =>
    if nodeType = NodeType.PV then
      { s with tt := some (env.store t s.hash depth besteval topMove nodeType s.initialPos) }
    else
      { s with tt := some (env.tryStore t s.hash depth besteval topMove nodeType s.initialPos) }

/-! ## The search -/

mutual

/-- The function `Engine::quiesceSearch` (engine.cpp 277-399), with a recursion budget. -/
def quiesceSearch (env : Env Pos TT MO) :
    Nat → Pos → Int → Int → Int → State TT → Res (State TT) Int
  | 0, _, _, _, _, _ => Res.noFuel
  | fuel + 1, b, alpha, beta, depth, s0 =>
    let s1 := pushPos s0
    scopePos (
      if threeFoldRep s1.prevPos then Res.ok 0 s1
      else if env.get50 b = 50 then Res.ok 0 s1
      else
        let s2 := incNodes (pollStop env.toAmbient s1)
        match ttProbeQ env s2 alpha beta depth with
        | some e => Res.ok e s2
        | none =>
          let ml := asScored (env.genCaptures b)
          let captureIterations := ml.length
          let check := env.isInCheck b
          let standpat := if check then negInf else env.evaluate b
          if !check && decide (standpat ≥ beta) then Res.ok standpat s2
          else
            let alpha1 := if !check && decide (standpat ≥ alpha) then standpat else alpha
            if !check && ml.isEmpty then
              if (ml ++ asScored (env.genQuiets b)).isEmpty then Res.ok 0 s2
              else Res.ok standpat s2
            else if check && ml.isEmpty && (ml ++ asScored (env.genQuiets b)).isEmpty then
              Res.ok negInf s2
            else
              let ml1 := if check && ml.isEmpty then ml ++ asScored (env.genQuiets b) else ml
              quiesceLoop env fuel b beta depth check standpat captureIterations 0
                (scoreCaptures env b captureIterations 0 ml1) alpha1 standpat s2)

/-- The second loop of `quiesceSearch` (engine.cpp 355-398), from index `i` on. The loop
ends when `i` reaches the size of the list; `i` never exceeds it. Every way out of the
scope of `recordMove` runs its destructor (`popMove`). -/
def quiesceLoop (env : Env Pos TT MO) :
    Nat → Pos → Int → Int → Bool → Int → Nat → Nat → List ScoredMove → Int → Int →
      State TT → Res (State TT) Int
  | 0, _, _, _, _, _, _, _, _, _, _, _ => Res.noFuel
  | fuel + 1, b, beta, depth, check, standpat, captureIterations, i, ml, alpha, currEval, s =>
    if i ≥ ml.length then Res.ok currEval s
    else
      let p := qPrune env b check standpat alpha captureIterations i ml
      if p.2 then
        quiesceLoop env fuel b beta depth check standpat captureIterations (i + 1) p.1 alpha
          currEval s
      else
        match p.1[i]? with
        | none => Res.ok currEval s
        | some x =>
          let t := testSearching env.toAmbient s
          if !t.1 then Res.timeout t.2
          else
            let oldhash := t.2.hash
            let bcopy := env.makeMove b x.m
            let s1 := pushMove x.m t.2
            match s1.tt with
            | none => Res.nullTT
            | some tbl =>
              let s2 := xorHash (env.incrementalUpdate tbl x.m b bcopy) s1
              match quiesceSearch env fuel bcopy (-beta) (-alpha) (depth - 1) s2 with
              | Res.ok v s3 =>
                let currEval1 := max currEval (-v)
                let s4 := setHash oldhash s3
                let alpha1 := max currEval1 alpha
                if alpha1 ≥ beta then Res.ok currEval1 (popMove s4)
                else
                  let ml1 :=
                    if check && i + 1 == captureIterations then
                      p.1 ++ asScored (env.genQuiets b)
                    else p.1
                  quiesceLoop env fuel b beta depth check standpat captureIterations
                    (i + 1) ml1 alpha1 currEval1 (popMove s4)
              | Res.timeout s3 => Res.timeout (popMove s3)
              | Res.nullTT => Res.nullTT
              | Res.noFuel => Res.noFuel

end

/-- The value of a quiescence search handed back through `alphaBetaSearch`, whose `pv`
argument is left as it is. -/
def withPV {σ : Type} (pv : List Move) : Res σ Int → Res σ (Int × List Move)
  | Res.ok v s => Res.ok (v, pv) s
  | Res.timeout s => Res.timeout s
  | Res.nullTT => Res.nullTT
  | Res.noFuel => Res.noFuel

mutual

/-- The function `Engine::alphaBetaSearch` (engine.cpp 401-585), with a recursion budget. The reference
argument `pv` is an argument and a component of the returned pair. -/
def alphaBetaSearch (env : Env Pos TT MO) :
    Nat → Pos → List Move → Int → Int → Int → Bool → State TT →
      Res (State TT) (Int × List Move)
  | 0, _, _, _, _, _, _, _ => Res.noFuel
  | fuel + 1, b, pv, alpha, beta, depth, nullBranch, s0 =>
    if depth ≤ 0 then withPV pv (quiesceSearch env fuel b alpha beta depth s0)
    else
      let s1 := uciUpdate env.toAmbient (pollStop env.toAmbient s0)
      if env.get50 b = 50 then Res.ok (0, pv) s1
      else
        let s2 := pushPos s1
        scopePos (
          if threeFoldRep s2.prevPos then Res.ok (0, pv) s2
          else
            let s3 := incNodes s2
            match ttProbeAB env s3 alpha beta depth with
            | some e => Res.ok (e, pv) s3
            | none =>
              if !nullBranch && !env.isInCheck b then
                let oldhash := s3.hash
                match s3.tt with
                | none => Res.nullTT
                | some tbl =>
                  let s4 := xorHash (env.nullUpdate tbl b) s3
                  let bnull := env.doNullMove b
                  let s5 := pushMove 0 s4
                  match alphaBetaSearch env fuel bnull [] (-beta) (-beta + 1) (depth - 3)
                      true s5 with
                  | Res.ok r s6 =>
                    let nulleval := -r.1
                    let s7 := setHash oldhash s6
                    if nulleval ≥ beta then Res.ok (nulleval, pv) (popMove s7)
                    else
                      abLoop env fuel b depth nullBranch beta
                        (env.moInit (popMove s7).tt b (popMove s7).hash) 0 alpha negInf
                        NodeType.ALL 0 pv [] (popMove s7)
                  | Res.timeout s6 => Res.timeout (popMove s6)
                  | Res.nullTT => Res.nullTT
                  | Res.noFuel => Res.noFuel
              else
                abLoop env fuel b depth nullBranch beta (env.moInit s3.tt b s3.hash) 0 alpha
                  negInf NodeType.ALL 0 pv [] s3)

/-- The main loop of `alphaBetaSearch` and the code after it (engine.cpp 511-584), from
the call of `moves.next` for move number `i` on. -/
def abLoop (env : Env Pos TT MO) :
    Nat → Pos → Int → Bool → Int → MO → Nat → Int → Int → NodeType → Move → List Move →
      List Move → State TT → Res (State TT) (Int × List Move)
  | 0, _, _, _, _, _, _, _, _, _, _, _, _, _ => Res.noFuel
  | fuel + 1, b, depth, nullBranch, beta, moves, i, alpha, besteval, nodeType, topMove, pv,
      pvChild, s =>
    match env.moNext moves s.tt b with
    | none =>
      if i = 0 then Res.ok (if env.isInCheck b then negInf else 0, pv) s
      else Res.ok (besteval, pv) (ttStoreEnd env depth besteval topMove nodeType s)
    | some (nextMove, moves1) =>
      let t := testSearching env.toAmbient s
      if !t.1 then Res.timeout t.2
      else
        let oldhash := t.2.hash
        let bcopy := env.makeMove b nextMove
        let s1 := pushMove nextMove t.2
        match s1.tt with
        | none => Res.nullTT
        | some tbl =>
          let s2 := xorHash (env.incrementalUpdate tbl nextMove b bcopy) s1
          match alphaBetaSearch env fuel bcopy pvChild (-beta) (-alpha) (depth - 1)
              nullBranch s2 with
          | Res.ok r s3 =>
            let currEval := -r.1
            let besteval1 := max besteval currEval
            let s4 := setHash oldhash s3
            if besteval1 ≥ beta then
              Res.ok (besteval1, pv) (popMove (ttStoreCut env depth besteval1 nextMove s4))
            else if currEval ≥ alpha then
              abLoop env fuel b depth nullBranch beta moves1 (i + 1) currEval besteval1
                NodeType.PV nextMove (nextMove :: r.2) [] (popMove s4)
            else
              abLoop env fuel b depth nullBranch beta moves1 (i + 1) alpha besteval1
                nodeType topMove pv r.2 (popMove s4)
          | Res.timeout s3 => Res.timeout (popMove s3)
          | Res.nullTT => Res.nullTT
          | Res.noFuel => Res.noFuel

end

/-! ## The root driver -/

/-! ### Double-precision arithmetic

The budget is computed in `double`. A finite `double` is a number `mant * 2^exp`, and every
operation is the exact operation followed by rounding to the nearest number with 53
significant bits, ties to the even one. The exponent range is not modelled: every number
rounded in `moveTimeBudget` for 64-bit settings is zero or has a magnitude between `2^-70`
and `2^70`, far from the subnormal range and from overflow. -/

/-- A finite `double`: the number `mant * 2^exp`. -/
structure Dbl where
  mant : Int
  exp : Int
deriving DecidableEq, Repr

/-- The rational number a `double` stands for. -/
def Dbl.toRat (x : Dbl) : ℚ :=
  (x.mant : ℚ) * (2 : ℚ) ^ x.exp

/-- The number of binary digits of `n`, by repeated halving; the first argument bounds the
number of steps. -/
def bitLengthAux : Nat → Nat → Nat
  | 0, _ => 0
  | fuel + 1, n => if n = 0 then 0 else bitLengthAux fuel (n / 2) + 1

/-- The number of binary digits of `n`: `0` for `0`, and `k` for `2^(k-1) <= n < 2^k`. -/
def bitLength (n : Nat) : Nat :=
  bitLengthAux n n

/-- The binary exponent of the fraction `n / d`, for `n` and `d` other than `0`: the
integer `e` with `2^e <= |n| / d < 2^(e+1)`. The difference of the digit counts is `e` or
`e + 1`; one comparison tells which. -/
def binade (n : Int) (d : Nat) : Int :=
  let e0 : Int := (bitLength n.natAbs : Int) - (bitLength d : Int)
  if (if 0 ≤ e0 then 2 ^ e0.toNat * d ≤ n.natAbs else d ≤ 2 ^ (-e0).toNat * n.natAbs) then e0
  else e0 - 1

/-- The integer nearest to the fraction `n / d`, `d > 0`, ties to the even one. -/
def roundHalfEven (n : Int) (d : Nat) : Int :=
  let f := n / (d : Int)
  let r := n % (d : Int)
  if 2 * r < d then f
  else if (d : Int) < 2 * r then f + 1
  else if f % 2 = 0 then f else f + 1

/-- The `double` nearest to the fraction `n / d`, `d > 0`, ties to even: with
`2^e <= |n| / d < 2^(e+1)` the fraction is rounded to a multiple of `2^(e-52)`. -/
def roundFrac (n : Int) (d : Nat) : Dbl :=
  if n = 0 then Dbl.mk 0 0
  else
    let g := binade n d - 52
    if 0 ≤ g then Dbl.mk (roundHalfEven n (d * 2 ^ g.toNat)) g
    else Dbl.mk (roundHalfEven (n * 2 ^ (-g).toNat) d) g

/-- The `double` nearest to the number `m * 2^e`. -/
def roundDyadic (m : Int) (e : Int) : Dbl :=
  if 0 ≤ e then roundFrac (m * 2 ^ e.toNat) 1 else roundFrac m (2 ^ (-e).toNat)

/-- The conversion of an integer to `double`. -/
def Dbl.ofInt (z : Int) : Dbl :=
  roundFrac z 1

/-- The product of two `double`s. -/
def Dbl.mul (x y : Dbl) : Dbl :=
  roundDyadic (x.mant * y.mant) (x.exp + y.exp)

/-- The quotient of two `double`s, for a divisor other than zero. -/
def Dbl.div (x y : Dbl) : Dbl :=
  let k := x.exp - y.exp
  if 0 ≤ k then roundFrac (y.mant.sign * x.mant * 2 ^ k.toNat) y.mant.natAbs
  else roundFrac (y.mant.sign * x.mant) (y.mant.natAbs * 2 ^ (-k).toNat)

/-- The sum of two `double`s. -/
def Dbl.add (x y : Dbl) : Dbl :=
  let e := min x.exp y.exp
  roundDyadic (x.mant * 2 ^ (x.exp - e).toNat + y.mant * 2 ^ (y.exp - e).toNat) e

/-- Modelled from the spec: `aux::castms`, the cast of a duration to whole milliseconds,
truncates (spec 4.1, budget computation); towards zero, as the conversion of a `double`
to an integer does. -/
def castms (x : Dbl) : Int :=
  if 0 ≤ x.exp then x.mant * 2 ^ x.exp.toNat else x.mant.tdiv (2 ^ (-x.exp).toNat)

/-- The move-time budget of `rootSearch` (engine.cpp 184-194), in whole milliseconds.
`mytime / 40` and `myinc / 3` are divisions of integer durations, which truncate. The
conditional expression of line 189 has the type of `0.1 * mytime`, a duration in `double`,
so `mytime / 40` is converted to `double`; `0.1 * mytime` converts `mytime` to `double` and
multiplies by the `double` nearest to `0.1`; line 193 multiplies by the `double` nearest to
`0.95`, divides by `movestogo` converted to `double` and adds `myinc / 3` converted to
`double`. -/
def moveTimeBudget (settings : SearchSettings) (engineW : Bool) (positions : Nat) : Int :=
  let mytime := if engineW then settings.wmsec else settings.bmsec
  let myinc := if engineW then settings.winc else settings.binc
  let moveNumber := (positions + 2) / 2
  if settings.movestogo = 2 ^ 64 - 1 ∨ settings.movestogo = 0 then
    if moveNumber < 12 then castms (Dbl.ofInt (mytime.tdiv 40))
    else castms (Dbl.mul (roundFrac 1 10) (Dbl.ofInt mytime))
  else
    castms
      (Dbl.add
        (Dbl.div (Dbl.mul (roundFrac 95 100) (Dbl.ofInt mytime))
          (Dbl.ofInt (settings.movestogo : Int)))
        (Dbl.ofInt (myinc.tdiv 3)))

/-- The start of `rootSearch` (engine.cpp 171-204). The start time is time `0` of the
clock of the model. `prevPos.back()` needs a non-empty history; for the empty history the
model takes `0`. -/
def rootInit (env : Env Pos TT MO) (b : Pos) (moveHist : List Move) (posHist : List Nat)
    (s : State TT) : State TT :=
  { s with
    lastUpdate := 0
    prevMoves := moveHist
    initialMove := moveHist.length
    prevPos := posHist
    initialPos := posHist.length
    engineW := env.isWhiteToPlay b
    currIDdepth := 0
    nodes := 0
    hash := if s.tt.isSome then posHist.getLast?.getD 0 else 0
    moveTime := moveTimeBudget s.settings (env.isWhiteToPlay b) posHist.length
    rootMoves := (env.genMoves b).map (fun m => ScoredMove.mk m negInf)
    eval := negInf }

/-- The loop over the root moves of one iterative-deepening pass (engine.cpp 214-256),
from root move number `i` on; the first argument bounds the number of iterations left.
`Res.timeout` stands for both jumps to `endsearch`: the flag found clear and the caught
`Timeout`. The value is the pair of `worstCase` and `pv` at the end of the loop. -/
def rootLoop (env : Env Pos TT MO) (fuel : Nat) (b : Pos) (k : Nat) :
    Nat → Nat → Int → List Move → State TT → Res (State TT) (Int × List Move)
  | 0, _, worstCase, pv, s => Res.ok (worstCase, pv) s
  | n + 1, i, worstCase, pv, s =>
    match s.rootMoves[i]? with
    | none => Res.ok (worstCase, pv) s
    | some x =>
      let t := testSearching env.toAmbient s
      if !t.1 then Res.timeout t.2
      else
        let bcopy := env.makeMove b x.m
        let s1 := pushMove x.m t.2
        let oldhash := s1.hash
        match s1.tt with
        | none => Res.nullTT
        | some tbl =>
          let s2 := xorHash (env.incrementalUpdate tbl x.m b bcopy) s1
          match alphaBetaSearch env fuel bcopy pv negInf (-worstCase) ((k : Int) - 1) false
              s2 with
          | Res.ok r s3 =>
            let score := -r.1
            let s4 : State TT :=
              { s3 with rootMoves := s3.rootMoves.set i (ScoredMove.mk x.m score) }
            if score > worstCase then
              rootLoop env fuel b k n (i + 1) score []
                (popMove (setHash oldhash { s4 with MainPV := x.m :: r.2 }))
            else
              rootLoop env fuel b k n (i + 1) worstCase r.2 (popMove (setHash oldhash s4))
          | Res.timeout s3 => Res.timeout (popMove s3)
          | Res.nullTT => Res.nullTT
          | Res.noFuel => Res.noFuel

/-- The comparison handed to `std::stable_sort` (engine.cpp 258-260): `a > b`.
Modelled from the spec: scored moves compare by `score` (spec 4.7, sort by score
descending). -/
def scoreGe (a b : ScoredMove) : Prop := a.score ≥ b.score

instance : DecidableRel scoreGe := fun a b => inferInstanceAs (Decidable (a.score ≥ b.score))

/-- The call of `std::stable_sort` with the descending comparison: a stable sort, here the
insertion sort that puts an entry in front of the first entry that is not larger. -/
def stableSortDesc (ms : List ScoredMove) : List ScoredMove :=
  List.insertionSort scoreGe ms

/-- The function `Engine::printPV` (engine.cpp 67-76): two readings of the clock, one for `time` and
one for `nps`. -/
def printPV (w : Ambient) (s : State TT) : State TT :=
  let t1 := elapsed w s
  let t2 := elapsed w t1.2
  { t2.2 with out := t2.2.out ++
      [Output.info t2.2.currIDdepth t2.2.eval t1.1 t2.2.nodes
        ((t2.2.nodes : Int).tdiv (max (t2.1.tdiv 1000) 1)) t2.2.MainPV] }

/-- The end of a completed pass (engine.cpp 258-262). `rootMoves[0]` needs a root move;
with no root move the model leaves `eval` as it is. -/
def endIteration (env : Env Pos TT MO) (s : State TT) : State TT :=
  let sorted := stableSortDesc s.rootMoves
  printPV env.toAmbient { s with rootMoves := sorted, eval := (sorted.head?.map (fun x => x.score)).getD s.eval }

/-- One pass of the loop over `k` (engine.cpp 211-262). -/
def iteration (env : Env Pos TT MO) (fuel : Nat) (b : Pos) (k : Nat) (s : State TT) :
    Res (State TT) Unit :=
  let s1 : State TT := { s with currIDdepth := k }
  match rootLoop env fuel b k s1.rootMoves.length 0 negInf [] s1 with
  | Res.ok _ s2 => Res.ok () (endIteration env s2)
  | Res.timeout s2 => Res.timeout s2
  | Res.nullTT => Res.nullTT
  | Res.noFuel => Res.noFuel

/-- The loop `for (k = 1; k <= 128; ++k)` of `rootSearch`, from pass `k` on with `n`
passes left. -/
def deepen (env : Env Pos TT MO) (fuel : Nat) (b : Pos) : Nat → Nat → State TT →
    Res (State TT) Unit
  | 0, _, s => Res.ok () s
  | n + 1, k, s =>
    match iteration env fuel b k s with
    | Res.ok _ s1 => deepen env fuel b n (k + 1) s1
    | Res.timeout s1 => Res.timeout s1
    | Res.nullTT => Res.nullTT
    | Res.noFuel => Res.noFuel

/-- The code at the label `endsearch` (engine.cpp 264-274): the flag is cleared and
`rootMoves[0].m` is written as the best move (`none` when there is no root move). -/
def endsearch (s : State TT) : State TT :=
  { clearSearching s with
    out := s.out ++ [Output.bestmove (s.rootMoves.head?.map (fun x => x.m))] }

/-- The function `Engine::rootSearch` (engine.cpp 165-275); `fuel` is the recursion budget of every
call of `alphaBetaSearch`. The result is `none` when a call runs out of budget or goes
through a null table pointer. -/
def rootSearch (env : Env Pos TT MO) (fuel : Nat) (b : Pos) (moveHist : List Move)
    (posHist : List Nat) (s : State TT) : Option (State TT) :=
  match deepen env fuel b 128 1 (rootInit env b moveHist posHist s) with
  | Res.ok _ s1 => some (endsearch s1)
  | Res.timeout s1 => some (endsearch s1)
  | Res.nullTT => none
  | Res.noFuel => none

/-! ## The header template (engine.hpp)

`engine.hpp` holds an older search, the member template
`alphaBetaSearch<wToMove, s, prevMoveNull>(alpha, beta, depth)`, which works on the board
member `b` with `makeMove` and `unmakeMove`. Its template arguments are ordinary
arguments here and the board is threaded next to the state. -/

namespace Hpp

/-- The enumeration `SearchType` of `engine.hpp`. -/
inductive SearchType where
  | ABSearch
  | QSearch
deriving DecidableEq, Repr

/-- The fields of a table slot that the header template reads and writes; the bound kind
is the number the template compares with `0`, `1` and `2`. -/
structure Entry where
  key : Nat
  depth : Int
  eval : Int
  nodeType : Nat
deriving DecidableEq, Repr

/-- The collaborators of the header template. `sortCaptures` is the call of `std::sort`
on the captures with the comparison by capture value minus attacker value, which leaves
the order of equal entries open; `ply50 b` is `b.flags & ply50FlagMask`. -/
structure Env (Pos TT : Type) extends Ambient where
  ply50 : Pos → Nat
  evaluate : Bool → Pos → Int
  genMoves : Bool → Pos → List Move
  isCapture : Move → Bool
  getCaptureValue : Move → Int
  sortCaptures : Pos → List Move → List Move
  getHeading : Pos → Move
  makeMove : Bool → Bool → Pos → Move → Pos
  unmakeMove : Bool → Bool → Pos → Move → Pos
  isInCheck : Bool → Pos → Bool
  incrementalUpdatePre : TT → Move → Pos → Bool → Nat
  incrementalUpdatePost : TT → Move → Pos → Bool → Nat
  slot : TT → Nat → Entry
  setSlot : TT → Nat → Entry → TT

/-- The conversion `(std::int32_t)(currIDdepth - depth)`: the difference is taken in
`std::size_t` and its low 32 bits are read as a signed number. -/
def distance (currIDdepth : Nat) (depth : Int) : Int :=
  ((((currIDdepth : Int) - depth) % 2 ^ 64 + 2 ^ 31) % 2 ^ 32) - 2 ^ 31

/-- The table probe of the template (engine.hpp 159-183). -/
def ttProbe (env : Env Pos TT) (wToMove : Bool) (s : State TT) (alpha beta depth : Int) :
    Option Int :=
  match s.tt with
  | none => none
  | some t =>
    let x := env.slot t s.hash
    if x.key = s.hash ∧ x.depth > depth then
      if x.nodeType = 0 ∨ (x.nodeType = 1 ∧ x.eval < alpha) ∨ (x.nodeType = 2 ∧ x.eval > beta)
      then some (if wToMove then x.eval else -1 * x.eval)
      else none
    else none

/-- The table write of the template (engine.hpp 263-272 and 278-287), made when the table
is present and the search type is `ABSearch`. -/
def ttWrite (env : Env Pos TT) (wToMove : Bool) (st : SearchType) (depth currEval : Int)
    (nodeType : Nat) (s : State TT) : State TT :=
  match s.tt with
  | none => s
  | some t =>
    if st = SearchType.ABSearch then
      { s with tt := some (env.setSlot t s.hash
          { env.slot t s.hash with
            key := s.hash, depth := depth,
            eval := if wToMove then currEval else -1 * currEval, nodeType := nodeType }) }
    else s

/-- The macro `MAKE_MOVE_AND_UPDATE_HASH(Move, Board, Null)` (engine.hpp 39-41). -/
def makeMoveAndUpdateHash (env : Env Pos TT) (wToMove null : Bool) (m : Move) (b : Pos)
    (s : State TT) : Option (Pos × State TT) :=
  match s.tt with
  | none => none
  | some t =>
    let s1 := xorHash (env.incrementalUpdatePre t m b null) s
    let b1 := env.makeMove wToMove null b m
    some (b1, xorHash (env.incrementalUpdatePost t m b1 null) s1)

/-- The code of the template after the loop over the moves (engine.hpp 276-288). -/
def finish (env : Env Pos TT) (wToMove : Bool) (st : SearchType) (oldAlpha alpha depth
    currEval : Int) (legalMoveFound : Bool) (b : Pos) (s : State TT) :
    Res (Pos × State TT) Int :=
  let currEval1 :=
    if !legalMoveFound then
      (if env.isInCheck wToMove b then negInf + distance s.currIDdepth depth else 0)
    else currEval
  Res.ok currEval1
    (b, ttWrite env wToMove st depth currEval1 (if alpha > oldAlpha then 0 else 1) s)

mutual

/-- The member template `alphaBetaSearch` of `engine.hpp` (136-289), with a recursion
budget. -/
def alphaBetaSearch (env : Env Pos TT) :
    Nat → Bool → SearchType → Bool → Int → Int → Int → Pos → State TT →
      Res (Pos × State TT) Int
  | 0, _, _, _, _, _, _, _, _ => Res.noFuel
  | fuel + 1, wToMove, st, prevMoveNull, alpha, beta, depth, b, s0 =>
    let oldAlpha := alpha
    let s1 := pollStop env.toAmbient (incNodes s0)
    if env.ply50 b = 50 then Res.ok 0 (b, s1)
    else if st = SearchType.ABSearch ∧ depth ≤ 0 then
      alphaBetaSearch env fuel wToMove SearchType.QSearch false alpha beta (depth - 1) b s1
    else
      let checkPos := if st = SearchType.QSearch then env.evaluate wToMove b else 0
      if st = SearchType.QSearch ∧ checkPos > beta then Res.ok checkPos (b, s1)
      else
        let alpha1 := if st = SearchType.QSearch then max alpha checkPos else alpha
        match ttProbe env wToMove s1 alpha1 beta depth with
        | some e => Res.ok e (b, s1)
        | none =>
          let gen := env.genMoves wToMove b
          let moves :=
            if st = SearchType.ABSearch then List.insertionSort (fun x y => x ≥ y) gen
            else env.sortCaptures b (gen.filter env.isCapture)
          let currEval := if st = SearchType.ABSearch then negInf else alpha1
          if st = SearchType.ABSearch ∧ prevMoveNull = false then
            let m := env.getHeading b
            let oldHash := s1.hash
            match makeMoveAndUpdateHash env wToMove true m b s1 with
            | none => Res.nullTT
            | some (b1, s2) =>
              match alphaBetaSearch env fuel (!wToMove) SearchType.ABSearch true (-1 * beta)
                  (-1 * alpha1) (depth - 2) b1 s2 with
              | Res.ok v (b2, s3) =>
                let currEval1 := max currEval (-1 * v)
                let b3 := env.unmakeMove wToMove true b2 m
                let s4 := setHash oldHash s3
                let alpha2 := max alpha1 currEval1
                if alpha2 > beta then Res.ok currEval1 (b3, s4)
                else
                  searchLoop env fuel wToMove st oldAlpha beta depth checkPos moves alpha2
                    currEval1 false b3 s4
              | Res.timeout x => Res.timeout x
              | Res.nullTT => Res.nullTT
              | Res.noFuel => Res.noFuel
          else
            searchLoop env fuel wToMove st oldAlpha beta depth checkPos moves alpha1 currEval
              (decide (st ≠ SearchType.ABSearch)) b s1

/-- The loop over the moves of the template and the code after it (engine.hpp 234-288),
for the moves still to be tried. -/
def searchLoop (env : Env Pos TT) :
    Nat → Bool → SearchType → Int → Int → Int → Int → List Move → Int → Int → Bool → Pos →
      State TT → Res (Pos × State TT) Int
  | 0, _, _, _, _, _, _, _, _, _, _, _, _ => Res.noFuel
  | _ + 1, wToMove, st, oldAlpha, _, depth, _, [], alpha, currEval, legalMoveFound, b, s =>
    finish env wToMove st oldAlpha alpha depth currEval legalMoveFound b s
  | fuel + 1, wToMove, st, oldAlpha, beta, depth, checkPos, m :: rest, alpha, currEval,
      legalMoveFound, b, s =>
    let t := testSearching env.toAmbient s
    if !t.1 then
      if st = SearchType.ABSearch then Res.ok (env.evaluate wToMove b) (b, t.2)
      else Res.ok (max checkPos currEval) (b, t.2)
    else if st = SearchType.QSearch ∧ checkPos + env.getCaptureValue m < alpha then
      searchLoop env fuel wToMove st oldAlpha beta depth checkPos rest alpha currEval
        legalMoveFound b t.2
    else
      let oldHash := t.2.hash
      match makeMoveAndUpdateHash env wToMove false m b t.2 with
      | none => Res.nullTT
      | some (b1, s1) =>
        match alphaBetaSearch env fuel (!wToMove) st false (-1 * beta) (-1 * alpha)
            (depth - 1) b1 s1 with
        | Res.ok v (b2, s2) =>
          let currEval1 := max currEval (-1 * v)
          let b3 := env.unmakeMove wToMove false b2 m
          let s3 := setHash oldHash s2
          let alpha1 := max currEval1 alpha
          if alpha1 > beta then
            Res.ok currEval1 (b3, ttWrite env wToMove st depth currEval1 2 s3)
          else
            searchLoop env fuel wToMove st oldAlpha beta depth checkPos rest alpha1 currEval1
              true b3 s3
        | Res.timeout x => Res.timeout x
        | Res.nullTT => Res.nullTT
        | Res.noFuel => Res.noFuel

end

end Hpp

/-! ## The move wire format -/

/-- The collaborators of `Engine::move2uciFormat`, none of which is among the source files:
`isWhiteToPlay b` is `b.getColorToPlay() == board::Color::White`, `fromSquare` and
`toSquare` are `board::getMoveInfo` with `constants::fromMask` and `constants::toMask`,
`file`, `rank` and `file2char` are those of `aux`, `hasPromoPiece m` is
`board::getPromoPiece(m) != board::none` and `promoFlag2char` is that of `board`. -/
structure WireEnv (Pos : Type) where
  isWhiteToPlay : Pos → Bool
  fromSquare : Move → Nat
  toSquare : Move → Nat
  file : Nat → Nat
  rank : Nat → Nat
  file2char : Nat → Char
  hasPromoPiece : Move → Bool
  promoFlag2char : Move → Char

/-- The function `Engine::move2uciFormat` (engine.cpp 101-122). The two ranks are integers
and are written in decimal. -/
def move2uciFormat (w : WireEnv Pos) (b : Pos) (m : Move) : String :=
  if m = 0 then "0000"
  else
    let src := w.fromSquare m
    let dst := w.toSquare m
    let fromfile := w.file src
    let fromrank : Int := if w.isWhiteToPlay b then (w.rank src : Int) + 1
      else 7 - (w.rank src : Int) + 1
    let tofile := w.file dst
    let torank : Int := if w.isWhiteToPlay b then (w.rank dst : Int) + 1
      else 7 - (w.rank dst : Int) + 1
    let oss := String.singleton (w.file2char fromfile) ++ toString fromrank ++
      String.singleton (w.file2char tofile) ++ toString torank
    if w.hasPromoPiece m then oss ++ String.singleton (w.promoFlag2char m) else oss

/-! ## Notions used in the statements -/

/-- The data members that no statement of `quiesceSearch` and `alphaBetaSearch` assigns. -/
def fixedOf (s : State TT) :
    SearchSettings × Int × Nat × Bool × Nat × Nat × List ScoredMove × List Move × Int :=
  (s.settings, s.moveTime, s.currIDdepth, s.engineW, s.initialPos, s.initialMove,
    s.rootMoves, s.MainPV, s.eval)

/-- The outcome `r` of a call entered in state `s` leaves the history as it found it: after
a return the two stacks and the running hash, after the exception the two stacks, are those
of `s`; the members of `fixedOf` are untouched in both cases. -/
def Framed {α : Type} (s : State TT) : Res (State TT) α → Prop
  | Res.ok _ s1 =>
    s1.prevPos = s.prevPos ∧ s1.prevMoves = s.prevMoves ∧ s1.hash = s.hash ∧
      fixedOf s1 = fixedOf s
  | Res.timeout s1 =>
    s1.prevPos = s.prevPos ∧ s1.prevMoves = s.prevMoves ∧ fixedOf s1 = fixedOf s
  | Res.nullTT => True
  | Res.noFuel => True

/-- The number of indices `i` of the stack `xs` at even distance from the top whose entry is
`h`: the occurrences of `h` at plies with the same side to move as the top. -/
def sameSideOccurrences (xs : List Nat) (h : Nat) : Nat :=
  ((List.range xs.length).filter
    (fun i => decide ((xs.length - 1 - i) % 2 = 0) && decide (xs[i]? = some h))).length

/-- The state in which the null-move search of an `alphaBetaSearch` node begins, for a node
entered in state `s` with the table `tbl`: after the stop poll, the telemetry throttle, the
push of the hash, the node count, the null-move hash delta and the push of the null
move (engine.cpp 412-483). -/
def nullMoveEntry (env : Env Pos TT MO) (b : Pos) (tbl : TT) (s : State TT) : State TT :=
  pushMove 0 (xorHash (env.nullUpdate tbl b)
    (incNodes (pushPos (uciUpdate env.toAmbient (pollStop env.toAmbient s)))))

/-! ## Concrete collaborators

Positions and moves are numbers and playing move `m` in position `p` leads to position
`10 * p + m`; the null move leads to `p + 1000`. The table is a single slot. -/

/-- A game given by its move lists, checks, evaluations and 50-move counters, with a fixed
table, a clock that stands still and a controller that never stops the search. The slot
of hash `h` holds the single entry of the table; `store` and `tryStore` leave the table
as it is; the hash delta of move `m` is `m` and that of the null move is `1`. -/
def gameEnv (moves captures quiets : Nat → List Move) (check : Nat → Bool)
    (evaluate : Nat → Int) (fifty : Nat → Nat) : Env Nat TTEntry (List Move) where
  get50 := fifty
  isWhiteToPlay := fun _ => true
  isInCheck := check
  makeMove := fun p m => 10 * p + m
  doNullMove := fun p => p + 1000
  genMoves := moves
  genCaptures := captures
  genQuiets := quiets
  evaluate := evaluate
  mvvlva := fun _ _ => 0
  getCaptureValue := fun _ _ => 0
  see := fun _ _ => 0
  slot := fun t _ => t
  store := fun t _ _ _ _ _ _ => t
  tryStore := fun t _ _ _ _ _ _ => t
  incrementalUpdate := fun _ m _ _ => m
  nullUpdate := fun _ _ => 1
  moInit := fun _ p _ => moves p
  moNext := fun mo _ _ =>
    match mo with
    | [] => none
    | m :: rest => some (m, rest)
  now := fun _ => 0
  ctrlClear := fun _ => false

/-- Settings without limits on time; `maxNodes` is the only limit. -/
def plainSettings (maxNodes : Nat) : SearchSettings :=
  { maxDepth := 2 ^ 64 - 1, maxNodes := maxNodes, movestogo := 2 ^ 64 - 1,
    infiniteSearch := false, ponder := false, maxTime := 1000000,
    wmsec := 60000, bmsec := 60000, winc := 0, binc := 0 }

/-- A table entry whose key (`2 ^ 64`) is no hash. -/
def emptyEntry : TTEntry :=
  { key := 2 ^ 64, depth := 0, eval := 0, bestMove := 0, nodeType := NodeType.ALL, age := 0 }

/-- An engine in the middle of a search: running hash `5`, one position and no move on
the stacks, the flag set. -/
def midState (maxNodes : Nat) : State TTEntry :=
  { settings := plainSettings maxNodes, moveTime := 1500, nodes := 0, hash := 5,
    currIDdepth := 1, engineW := true, tt := some emptyEntry, prevPos := [5],
    prevMoves := [], initialPos := 1, initialMove := 0, searching := true, tick := 0,
    lastUpdate := 0, rootMoves := [], MainPV := [], eval := 0, out := [] }

/-- The value a call returned, if it returned. -/
def Res.value? {σ α : Type} : Res σ α → Option α
  | Res.ok a _ => some a
  | _ => none

/-- Whether a call returned. -/
def Res.isOk {σ α : Type} : Res σ α → Bool
  | Res.ok _ _ => true
  | _ => false

/-- Whether a call was left by the exception. -/
def Res.isTimeout {σ α : Type} : Res σ α → Bool
  | Res.timeout _ => true
  | _ => false

/-- The state in which a call ended, by a return or by the exception. -/
def Res.finalState? {σ α : Type} : Res σ α → Option σ
  | Res.ok _ s => some s
  | Res.timeout s => some s
  | _ => none

/-- A game for cancellation: position `1` is in check and has the single move `1`; the
position `11` it leads to is not in check and has the single capture `1`; no position has
a quiet move and every evaluation is `0`. -/
def cancelEnv : Env Nat TTEntry (List Move) :=
  gameEnv (fun p => if p = 1 then [1] else []) (fun p => if p = 11 then [1] else [])
    (fun _ => []) (fun p => decide (p = 1)) (fun _ => 0) (fun _ => 0)

/-- The state `midState 100` with the history `5, 9, 5, 9` below the running hash `5`:
after the push, `5` stands at the top and at distances two and four below it. -/
def repState : State TTEntry :=
  { midState 100 with prevPos := [5, 9, 5, 9] }

/-- A game in which every position has a 50-move counter of `50`. -/
def fiftyEnv : Env Nat TTEntry (List Move) :=
  gameEnv (fun _ => [1]) (fun _ => [1]) (fun _ => [2]) (fun _ => false) (fun _ => 7)
    (fun _ => 50)

/-- The state `midState 7` after eight nodes. -/
def busyState : State TTEntry :=
  { midState 7 with nodes := 8 }

/-- A game for the principal variation: position `1` has the moves `1` and `2`; position
`11` (after move `1`) has the moves `7` and `8`; position `12` (after move `2`) has no
move at all and is not in check. The leaves `117` and `118` have a quiet move and the
evaluations `50` and `-60`; every other evaluation is `0`. -/
def pvEnv : Env Nat TTEntry (List Move) :=
  gameEnv (fun p => if p = 1 then [1, 2] else if p = 11 then [7, 8] else [])
    (fun _ => []) (fun p => if p = 117 ∨ p = 118 then [9] else [])
    (fun _ => false) (fun p => if p = 117 then 50 else if p = 118 then -60 else 0)
    (fun _ => 0)

/-- A game with a stalemate: position `1` is not in check and has no move; it is
evaluated `100` for the side to move. After a null move (position `1001`) the other side
has a quiet move and the evaluation `-100`. -/
def stalemateEnv : Env Nat TTEntry (List Move) :=
  gameEnv (fun _ => []) (fun _ => []) (fun p => if p = 1001 then [9] else [])
    (fun _ => false) (fun p => if p = 1 then 100 else if p = 1001 then -100 else 0)
    (fun _ => 0)

/-- A game with a checkmate: position `1` is in check and has no move. -/
def mateEnv : Env Nat TTEntry (List Move) :=
  gameEnv (fun _ => []) (fun _ => []) (fun _ => []) (fun p => decide (p = 1)) (fun _ => 0)
    (fun _ => 0)

/-- Collaborators for the header template: position `1` is in check and has no move; no
other position has a move either; the null move leads from `p` to `p + 1000`; every
evaluation is `0`; the table is a single slot. -/
def hppMateEnv : Hpp.Env Nat TTEntry where
  now := fun _ => 0
  ctrlClear := fun _ => false
  ply50 := fun _ => 0
  evaluate := fun _ _ => 0
  genMoves := fun _ _ => []
  isCapture := fun _ => false
  getCaptureValue := fun _ => 0
  sortCaptures := fun _ ms => ms
  getHeading := fun _ => 0
  makeMove := fun _ null p m => if null then p + 1000 else 10 * p + m
  unmakeMove := fun _ null p _ => if null then p - 1000 else p / 10
  isInCheck := fun _ p => decide (p = 1)
  incrementalUpdatePre := fun _ m _ _ => m + 1
  incrementalUpdatePost := fun _ _ _ _ => 0
  slot := fun t _ => { key := t.key, depth := t.depth, eval := t.eval, nodeType := 1 }
  setSlot := fun t _ e => { t with key := e.key, depth := e.depth, eval := e.eval }

/-- The state `midState 1000` in iterative-deepening pass `currIDdepth`. -/
def hppState (currIDdepth : Nat) : State TTEntry :=
  { midState 1000 with currIDdepth := currIDdepth }

/-- A game for the root driver: the root position `1` has the moves `1`, `2`, `3`; the
positions `11`, `12`, `13` they lead to have the quiet move `9` and no capture, and so has
position `129`. Position `11` is evaluated `10`, position `12` is evaluated `-5` and
position `129` is evaluated `-20` for the side to move there; every other evaluation is
`0`. -/
def rootEnv : Env Nat TTEntry (List Move) :=
  gameEnv
    (fun p => if p = 1 then [1, 2, 3] else if p = 11 ∨ p = 12 ∨ p = 13 ∨ p = 129 then [9]
      else [])
    (fun _ => [])
    (fun p => if p = 11 ∨ p = 12 ∨ p = 13 ∨ p = 129 then [9] else [])
    (fun _ => false)
    (fun p => if p = 11 then 10 else if p = 12 then -5 else if p = 129 then -20 else 0)
    (fun _ => 0)

/-- The state in which the first pass of `rootSearch` on `rootEnv` ends when `maxNodes`
is `4`. -/
def afterFirstPass : State TTEntry :=
  ((iteration rootEnv 10 1 1 (rootInit rootEnv 1 [] [5] (midState 4))).finalState?).getD
    (midState 4)

/-! ## Notions used in the statements of the time control -/

/-- The truncation of a rational number of milliseconds to whole milliseconds, towards
zero, as `std::chrono::duration_cast` does it. -/
def truncQ (q : ℚ) : Int :=
  if 0 ≤ q then ⌊q⌋ else ⌈q⌉

/-- The number a square of 0-based rank `r` is rendered as: `r + 1` when White is to
move, `8 - r` when Black is to move. -/
def shownRank (white : Bool) (r : Nat) : Nat :=
  if white then r + 1 else 8 - r

/-! ## The code after the table probe -/

/-- The part of `quiesceSearch` after the table probe (engine.cpp 305-398): move
generation, stand-pat, the terminal tests and the loop, for a node whose state after the
node count is `s2`. -/
def quiesceMoves (env : Env Pos TT MO) (fuel : Nat) (b : Pos) (alpha beta depth : Int)
    (s2 : State TT) : Res (State TT) Int :=
  let ml := asScored (env.genCaptures b)
  let captureIterations := ml.length
  let check := env.isInCheck b
  let standpat := if check then negInf else env.evaluate b
  if !check && decide (standpat ≥ beta) then Res.ok standpat s2
  else
    let alpha1 := if !check && decide (standpat ≥ alpha) then standpat else alpha
    if !check && ml.isEmpty then
      if (ml ++ asScored (env.genQuiets b)).isEmpty then Res.ok 0 s2
      else Res.ok standpat s2
    else if check && ml.isEmpty && (ml ++ asScored (env.genQuiets b)).isEmpty then
      Res.ok negInf s2
    else
      let ml1 := if check && ml.isEmpty then ml ++ asScored (env.genQuiets b) else ml
      quiesceLoop env fuel b beta depth check standpat captureIterations 0
        (scoreCaptures env b captureIterations 0 ml1) alpha1 standpat s2

/-- The part of `alphaBetaSearch` after the table probe (engine.cpp 473-584): the null-move
search and the main loop, for a node whose state after the node count is `s3`. -/
def abMoves (env : Env Pos TT MO) (fuel : Nat) (b : Pos) (pv : List Move)
    (alpha beta depth : Int) (nullBranch : Bool) (s3 : State TT) :
    Res (State TT) (Int × List Move) :=
  if !nullBranch && !env.isInCheck b then
    let oldhash := s3.hash
    match s3.tt with
    | none => Res.nullTT
    | some tbl =>
      let s4 := xorHash (env.nullUpdate tbl b) s3
      let bnull := env.doNullMove b
      let s5 := pushMove 0 s4
      match alphaBetaSearch env fuel bnull [] (-beta) (-beta + 1) (depth - 3) true s5 with
      | Res.ok r s6 =>
        let nulleval := -r.1
        let s7 := setHash oldhash s6
        if nulleval ≥ beta then Res.ok (nulleval, pv) (popMove s7)
        else
          abLoop env fuel b depth nullBranch beta
            (env.moInit (popMove s7).tt b (popMove s7).hash) 0 alpha negInf
            NodeType.ALL 0 pv [] (popMove s7)
      | Res.timeout s6 => Res.timeout (popMove s6)
      | Res.nullTT => Res.nullTT
      | Res.noFuel => Res.noFuel
  else
    abLoop env fuel b depth nullBranch beta (env.moInit s3.tt b s3.hash) 0 alpha
      negInf NodeType.ALL 0 pv [] s3

/-! ## The main loop, one iteration at a time -/

/-- The local variables of `alphaBetaSearch` that the main loop reads and writes, with the
engine state: the move orderer, the move counter `i`, `alpha`, `besteval`, `nodeType`,
`topMove`, the `pv` argument and the list `pvChild`. -/
structure LoopState (TT MO : Type) where
  moves : MO
  i : Nat
  alpha : Int
  besteval : Int
  nodeType : NodeType
  topMove : Move
  pv : List Move
  pvChild : List Move
  s : State TT

/-- How one pass through the head and the body of the main loop ends: the function is
left with the result `r` (no move is left, the flag is clear, the table pointer is null,
the child does not return, or beta is reached), or the loop goes on after the move `m`
with negated child result `currEval`. -/
inductive StepRes (TT MO : Type) where
  | stop (r : Res (State TT) (Int × List Move))
  | next (m : Move) (currEval : Int) (L : LoopState TT MO)

/-- The state in which the child search of move `m` begins, for a loop state with engine
state `s` and table `tbl`: after the flag test, the push of the move and the hash delta
(engine.cpp 513-523). -/
def childEntry (env : Env Pos TT MO) (b : Pos) (m : Move) (tbl : TT) (s : State TT) :
    State TT :=
  xorHash (env.incrementalUpdate tbl m b (env.makeMove b m))
    (pushMove m (testSearching env.toAmbient s).2)

/-- One pass through the main loop of `alphaBetaSearch` (engine.cpp 511-558) and, when
`moves.next` yields no move, the code after the loop (559-584); `fuel` is the budget of
the child search. -/
def abStep (env : Env Pos TT MO) (fuel : Nat) (b : Pos) (depth : Int) (nullBranch : Bool)
    (beta : Int) (L : LoopState TT MO) : StepRes TT MO :=
  match env.moNext L.moves L.s.tt b with
  | none =>
    if L.i = 0 then StepRes.stop (Res.ok (if env.isInCheck b then negInf else 0, L.pv) L.s)
    else
      StepRes.stop
        (Res.ok (L.besteval, L.pv) (ttStoreEnd env depth L.besteval L.topMove L.nodeType L.s))
  | some (nextMove, moves1) =>
    let t := testSearching env.toAmbient L.s
    if !t.1 then StepRes.stop (Res.timeout t.2)
    else
      let oldhash := t.2.hash
      match (pushMove nextMove t.2).tt with
      | none => StepRes.stop Res.nullTT
      | some tbl =>
        match alphaBetaSearch env fuel (env.makeMove b nextMove) L.pvChild (-beta) (-L.alpha)
            (depth - 1) nullBranch (childEntry env b nextMove tbl L.s) with
        | Res.ok r s3 =>
          let currEval := -r.1
          let besteval1 := max L.besteval currEval
          let s4 := setHash oldhash s3
          if besteval1 ≥ beta then
            StepRes.stop
              (Res.ok (besteval1, L.pv) (popMove (ttStoreCut env depth besteval1 nextMove s4)))
          else if currEval ≥ L.alpha then
            StepRes.next nextMove currEval
              { moves := moves1, i := L.i + 1, alpha := currEval, besteval := besteval1,
                nodeType := NodeType.PV, topMove := nextMove, pv := nextMove :: r.2,
                pvChild := [], s := popMove s4 }
          else
            StepRes.next nextMove currEval
              { moves := moves1, i := L.i + 1, alpha := L.alpha, besteval := besteval1,
                nodeType := L.nodeType, topMove := L.topMove, pv := L.pv, pvChild := r.2,
                s := popMove s4 }
        | Res.timeout s3 => StepRes.stop (Res.timeout (popMove s3))
        | Res.nullTT => StepRes.stop Res.nullTT
        | Res.noFuel => StepRes.stop Res.noFuel

/-- The function `abLoop` on a loop state. -/
def abLoopAt (env : Env Pos TT MO) (fuel : Nat) (b : Pos) (depth : Int) (nullBranch : Bool)
    (beta : Int) (L : LoopState TT MO) : Res (State TT) (Int × List Move) :=
  abLoop env fuel b depth nullBranch beta L.moves L.i L.alpha L.besteval L.nodeType L.topMove
    L.pv L.pvChild L.s

/-- One searched move of a node: the move, its negated child result and the alpha in force
when it was searched. -/
structure Searched where
  m : Move
  currEval : Int
  alpha : Int
deriving DecidableEq, Repr

/-- The run of the main loop from the loop state `L` with budget `fuel`, as long as the loop
goes on: the moves searched in order, the budget left and the loop state reached, at
which the next pass leaves the function (or the budget is used up). -/
def abTrace (env : Env Pos TT MO) (b : Pos) (depth : Int) (nullBranch : Bool) (beta : Int) :
    Nat → LoopState TT MO → List Searched × Nat × LoopState TT MO
  | 0, L => ([], 0, L)
  | fuel + 1, L =>
    match abStep env fuel b depth nullBranch beta L with
    | StepRes.next m e L1 =>
      let r := abTrace env b depth nullBranch beta fuel L1
      (Searched.mk m e L.alpha :: r.1, r.2.1, r.2.2)
    | StepRes.stop _ => ([], fuel + 1, L)

/-- The loop state in which the main loop of a node starts (engine.cpp 504-510), for the
engine state `s` reached after the null-move block. -/
def loopStart (env : Env Pos TT MO) (b : Pos) (alpha : Int) (pv : List Move) (s : State TT) :
    LoopState TT MO :=
  { moves := env.moInit s.tt b s.hash, i := 0, alpha := alpha, besteval := negInf,
    nodeType := NodeType.ALL, topMove := 0, pv := pv, pvChild := [], s := s }

/-- The running maximum `besteval` after the searched moves `log`: it starts at `negInf`
and takes the maximum with every negated child result. -/
def runningMax (log : List Searched) : Int :=
  log.foldl (fun acc x => max acc x.currEval) negInf

/-- The state in which the main loop of a node starts, if the node gets there
(engine.cpp 473-502): `s3` itself when the null-move block is skipped, and the state after
the null-move search, with the hash and the move stack restored, when that search returns
a value whose negation is below `beta`. -/
def loopEntry (env : Env Pos TT MO) (fuel : Nat) (b : Pos) (beta depth : Int)
    (nullBranch : Bool) (s3 : State TT) : Option (State TT) :=
  if !nullBranch && !env.isInCheck b then
    match s3.tt with
    | none => none
    | some tbl =>
      match alphaBetaSearch env fuel (env.doNullMove b) [] (-beta) (-beta + 1) (depth - 3) true
          (pushMove 0 (xorHash (env.nullUpdate tbl b) s3)) with
      | Res.ok r s6 => if -r.1 ≥ beta then none else some (popMove (setHash s3.hash s6))
      | _ => none
  else some s3

/-- What holds between the moves `log` searched so far and the loop state `L` of a node
whose main loop started in state `s0`: `besteval` is the running maximum, `i` counts the
moves, the history and the hash are those of `s0`, the running maximum stayed below `beta`
after every move, and, when no negated child result is below `negInf`, the node kind and
`topMove` tell whether some result reached the alpha in force. -/
def LoopInv (beta : Int) (s0 : State TT) (log : List Searched) (L : LoopState TT MO) : Prop :=
  L.besteval = runningMax log ∧ L.i = log.length ∧
  L.s.prevPos = s0.prevPos ∧ L.s.prevMoves = s0.prevMoves ∧ L.s.hash = s0.hash ∧
  fixedOf L.s = fixedOf s0 ∧
  (∀ j, 0 < j → j ≤ log.length → runningMax (log.take j) < beta) ∧
  ((∀ x ∈ log, negInf ≤ x.currEval) →
    ((∃ x ∈ log, x.alpha ≤ x.currEval) →
      L.nodeType = NodeType.PV ∧ L.besteval = L.alpha ∧
        ∃ x ∈ log, x.m = L.topMove ∧ x.currEval = L.besteval) ∧
    ((¬ ∃ x ∈ log, x.alpha ≤ x.currEval) →
      L.nodeType = NodeType.ALL ∧ L.topMove = 0 ∧ (log = [] ∨ L.besteval < L.alpha)))

/-- What holds in the loop over the root moves before root move number `i` is searched:
`worstCase` is at least `negInf` and at least every score assigned so far, and once it is
above `negInf` it is the score of a root move `x` before `i`, every root move before `x`
has a smaller score, and `MainPV` starts with the move of `x`. -/
def RootInv (i : Nat) (worstCase : Int) (s : State TT) : Prop :=
  negInf ≤ worstCase ∧
  (∀ j < i, ∀ y, s.rootMoves[j]? = some y → y.score ≤ worstCase) ∧
  (negInf < worstCase →
    ∃ j x, j < i ∧ s.rootMoves[j]? = some x ∧ x.score = worstCase ∧
      (∀ j1 < j, ∀ y, s.rootMoves[j1]? = some y → y.score < worstCase) ∧
      s.MainPV.head? = some x.m)

/-! ## More concrete collaborators -/

/-- A clock that reads 200 milliseconds at every reading, and a controller that never
stops the search. -/
def lateClock : Ambient :=
  { now := fun _ => 200, ctrlClear := fun _ => false }

/-- The state `midState 1000` under `go infinite` with a time limit `maxTime` of 100
milliseconds: no node searched yet, `maxNodes = 1000`. -/
def infiniteState : State TTEntry :=
  { midState 1000 with
    settings := { plainSettings 1000 with infiniteSearch := true, maxTime := 100 } }

/-- The state `midState 1000` with 30 moves to go, one second on White's clock and an
increment of 100 milliseconds. -/
def movesToGoState : State TTEntry :=
  { midState 1000 with
    settings := { plainSettings 1000 with movestogo := 30, wmsec := 1000, winc := 100 } }

/-- The state `midState 1000` with `2^62` milliseconds on White's clock and no moves to
go. -/
def bigClockState : State TTEntry :=
  { midState 1000 with settings := { plainSettings 1000 with wmsec := 2 ^ 62 } }

/-- Whether a call went through a null table pointer. -/
def Res.isNullTT {σ α : Type} : Res σ α → Bool
  | Res.nullTT => true
  | _ => false

/-- The state `midState 100` of an engine without a transposition table. -/
def noTableState : State TTEntry :=
  { midState 100 with tt := none }

/-- A game with equal root scores: the root position `1` has the moves `1`, `2`, `3`; the
positions `11`, `12`, `13` they lead to have a quiet move and no capture and are evaluated
`0`, `-5` and `0` for the side to move there. -/
def tieEnv : Env Nat TTEntry (List Move) :=
  gameEnv (fun p => if p = 1 then [1, 2, 3] else if p = 11 ∨ p = 12 ∨ p = 13 then [9] else [])
    (fun _ => [])
    (fun p => if p = 11 ∨ p = 12 ∨ p = 13 then [9] else [])
    (fun _ => false)
    (fun p => if p = 12 then -5 else 0)
    (fun _ => 0)

/-- Moves as numbers `from + 64 * to + 4096 * promotion`, squares as `8 * rank + file`,
files `0..7` as the letters `a..h`, the promotion piece `4` as the letter `q`; positions
with an even number have White to move. -/
def wireEnv : WireEnv Nat where
  isWhiteToPlay := fun b => b % 2 == 0
  fromSquare := fun m => m % 64
  toSquare := fun m => m / 64 % 64
  file := fun sq => sq % 8
  rank := fun sq => sq / 8
  file2char := fun f => Char.ofNat (97 + f)
  hasPromoPiece := fun m => m / 4096 != 0
  promoFlag2char := fun m => if m / 4096 = 4 then 'q' else 'n'

/-- The state `midState 100` with a table whose slot holds an entry of kind PV for the
running hash `5`, of depth `3` and evaluation `42`. -/
def pvEntryState : State TTEntry :=
  { midState 100 with
    tt := some { key := 5, depth := 3, eval := 42, bestMove := 0, nodeType := NodeType.PV,
                 age := 0 } }

/-- The state `midState 100` with a table whose slot holds an entry of kind ALL for the
running hash `5`, of depth `3` and evaluation `-42`. -/
def allEntryState : State TTEntry :=
  { midState 100 with
    tt := some { key := 5, depth := 3, eval := -42, bestMove := 0, nodeType := NodeType.ALL,
                 age := 0 } }

/-- The collaborators `hppMateEnv` of the header template with a table whose entries are
all of kind `0`. -/
def hppExactEnv : Hpp.Env Nat TTEntry :=
  { hppMateEnv with
    slot := fun t _ => { key := t.key, depth := t.depth, eval := t.eval, nodeType := 0 } }

/-- A game for the main loop: position `1` has the moves `1`, `2`, `3`; the positions `11`,
`12`, `13` they lead to have a quiet move and no capture and are evaluated `-10`, `5` and
`-30` for the side to move there. The table is a single slot, and `store` and `tryStore`
both overwrite it with the entry they are given. -/
def loopEnv : Env Nat TTEntry (List Move) :=
  { gameEnv (fun p => if p = 1 then [1, 2, 3] else []) (fun _ => [])
      (fun p => if p = 11 ∨ p = 12 ∨ p = 13 then [9] else []) (fun _ => false)
      (fun p => if p = 11 then -10 else if p = 12 then 5 else if p = 13 then -30 else 0)
      (fun _ => 0) with
    store := fun _ h d e m nt age =>
      { key := h, depth := d, eval := e, bestMove := m, nodeType := nt, age := age }
    tryStore := fun _ h d e m nt age =>
      { key := h, depth := d, eval := e, bestMove := m, nodeType := nt, age := age } }

/-- The table of the state in which a call ended by a return, if it did. -/
def Res.table? {α TT : Type} : Res (State TT) α → Option TT
  | Res.ok _ s => s.tt
  | _ => none

/-- The state in which the node of `midState 100` starts its main loop when the null-move
block is skipped: after the stop poll, the telemetry throttle, the push of the hash and the
node count. -/
def loopState0 : State TTEntry :=
  incNodes (pushPos (uciUpdate loopEnv.toAmbient (pollStop loopEnv.toAmbient (midState 100))))

/-- The run of the main loop of position `1` of `loopEnv` at depth `1` with the window
`(alpha, beta)` and a budget of five frames. -/
def loopRun (alpha beta : Int) : List Searched × Nat × LoopState TTEntry (List Move) :=
  abTrace loopEnv 1 1 true beta 5 (loopStart loopEnv 1 alpha [] loopState0)

/-- A game for quiescence under check: position `1` is in check, its single capture is
move `1` and it has no quiet move; the position `11` after the capture has no move and is
evaluated `300` for the side to move there. The capture has the MVV/LVA score `-8` and
the static exchange evaluation `see`. -/
def seeEnv (see : Int) : Env Nat TTEntry (List Move) :=
  { gameEnv (fun p => if p = 1 then [1] else []) (fun p => if p = 1 then [1] else [])
      (fun _ => []) (fun p => decide (p = 1)) (fun p => if p = 11 then 300 else 0)
      (fun _ => 0) with
    mvvlva := fun _ _ => -8
    see := fun _ _ => see }

/-- A game for the call tree: position `1` has the single move `1` and the position `1001`
reached from it by the null move has the single move `2`; no other position has a move, no
position is in check and every evaluation is `0`. -/
def nestEnv : Env Nat TTEntry (List Move) :=
  gameEnv (fun p => if p = 1 then [1] else if p = 1001 then [2] else []) (fun _ => [])
    (fun _ => []) (fun _ => false) (fun _ => 0) (fun _ => 0)

/-! ## The call tree of `alphaBetaSearch` -/

/-- One recursive call of `alphaBetaSearch`, as seen at the call site: the moves applied on
the way from the starting node to the called node (`none` is the null move), the `depth`
and `nullBranch` of the calling node, and the `depth` and `nullBranch` arguments of the
call. -/
structure Call where
  path : List (Option Move)
  callerDepth : Int
  callerNull : Bool
  depth : Int
  nullBranch : Bool
deriving DecidableEq, Repr

mutual

/-- The function `Engine::alphaBetaSearch` (engine.cpp 401-585) once more, returning with
its outcome the recursive calls of `alphaBetaSearch` made below the node, in the order in
which they are made: the null-move call of line 489 and the calls of line 528. `path`
holds the moves applied between the starting node and this node. -/
def alphaBetaCalls (env : Env Pos TT MO) :
    Nat → List (Option Move) → Pos → List Move → Int → Int → Int → Bool → State TT →
      Res (State TT) (Int × List Move) × List Call
  | 0, _, _, _, _, _, _, _, _ => (Res.noFuel, [])
  | fuel + 1, path, b, pv, alpha, beta, depth, nullBranch, s0 =>
    if depth ≤ 0 then (withPV pv (quiesceSearch env fuel b alpha beta depth s0), [])
    else
      let s1 := uciUpdate env.toAmbient (pollStop env.toAmbient s0)
      if env.get50 b = 50 then (Res.ok (0, pv) s1, [])
      else
        let s2 := pushPos s1
        if threeFoldRep s2.prevPos then (scopePos (Res.ok (0, pv) s2), [])
        else
          let s3 := incNodes s2
          match ttProbeAB env s3 alpha beta depth with
          | some e => (scopePos (Res.ok (e, pv) s3), [])
          | none =>
            if !nullBranch && !env.isInCheck b then
              let oldhash := s3.hash
              match s3.tt with
              | none => (scopePos Res.nullTT, [])
              | some tbl =>
                let s4 := xorHash (env.nullUpdate tbl b) s3
                let bnull := env.doNullMove b
                let s5 := pushMove 0 s4
                let call := Call.mk (path ++ [none]) depth nullBranch (depth - 3) true
                let c := alphaBetaCalls env fuel (path ++ [none]) bnull [] (-beta) (-beta + 1)
                  (depth - 3) true s5
                match c.1 with
                | Res.ok r s6 =>
                  let nulleval := -r.1
                  let s7 := setHash oldhash s6
                  if nulleval ≥ beta then
                    (scopePos (Res.ok (nulleval, pv) (popMove s7)), call :: c.2)
                  else
                    let l := abLoopCalls env fuel path b depth nullBranch beta
                      (env.moInit (popMove s7).tt b (popMove s7).hash) 0 alpha negInf
                      NodeType.ALL 0 pv [] (popMove s7)
                    (scopePos l.1, call :: c.2 ++ l.2)
                | Res.timeout s6 => (scopePos (Res.timeout (popMove s6)), call :: c.2)
                | Res.nullTT => (scopePos Res.nullTT, call :: c.2)
                | Res.noFuel => (scopePos Res.noFuel, call :: c.2)
            else
              let l := abLoopCalls env fuel path b depth nullBranch beta
                (env.moInit s3.tt b s3.hash) 0 alpha negInf NodeType.ALL 0 pv [] s3
              (scopePos l.1, l.2)

/-- The main loop of `alphaBetaSearch` (engine.cpp 511-584) once more, with the recursive
calls made from move number `i` on. -/
def abLoopCalls (env : Env Pos TT MO) :
    Nat → List (Option Move) → Pos → Int → Bool → Int → MO → Nat → Int → Int → NodeType →
      Move → List Move → List Move → State TT →
      Res (State TT) (Int × List Move) × List Call
  | 0, _, _, _, _, _, _, _, _, _, _, _, _, _, _ => (Res.noFuel, [])
  | fuel + 1, path, b, depth, nullBranch, beta, moves, i, alpha, besteval, nodeType, topMove,
      pv, pvChild, s =>
    match env.moNext moves s.tt b with
    | none =>
      if i = 0 then (Res.ok (if env.isInCheck b then negInf else 0, pv) s, [])
      else (Res.ok (besteval, pv) (ttStoreEnd env depth besteval topMove nodeType s), [])
    | some (nextMove, moves1) =>
      let t := testSearching env.toAmbient s
      if !t.1 then (Res.timeout t.2, [])
      else
        let oldhash := t.2.hash
        let bcopy := env.makeMove b nextMove
        let s1 := pushMove nextMove t.2
        match s1.tt with
        | none => (Res.nullTT, [])
        | some tbl =>
          let s2 := xorHash (env.incrementalUpdate tbl nextMove b bcopy) s1
          let call := Call.mk (path ++ [some nextMove]) depth nullBranch (depth - 1) nullBranch
          let c := alphaBetaCalls env fuel (path ++ [some nextMove]) bcopy pvChild (-beta)
            (-alpha) (depth - 1) nullBranch s2
          match c.1 with
          | Res.ok r s3 =>
            let currEval := -r.1
            let besteval1 := max besteval currEval
            let s4 := setHash oldhash s3
            if besteval1 ≥ beta then
              (Res.ok (besteval1, pv) (popMove (ttStoreCut env depth besteval1 nextMove s4)),
                call :: c.2)
            else if currEval ≥ alpha then
              let l := abLoopCalls env fuel path b depth nullBranch beta moves1 (i + 1) currEval
                besteval1 NodeType.PV nextMove (nextMove :: r.2) [] (popMove s4)
              (l.1, call :: c.2 ++ l.2)
            else
              let l := abLoopCalls env fuel path b depth nullBranch beta moves1 (i + 1) alpha
                besteval1 nodeType topMove pv r.2 (popMove s4)
              (l.1, call :: c.2 ++ l.2)
          | Res.timeout s3 => (Res.timeout (popMove s3), call :: c.2)
          | Res.nullTT => (Res.nullTT, call :: c.2)
          | Res.noFuel => (Res.noFuel, call :: c.2)

end

/-- The number of null moves on a path. -/
def nullMoves (path : List (Option Move)) : Nat :=
  path.count none

/-- What holds of a call `c` recorded below a node with `depth` whose path from the
starting node is `path`: the calling node has `depth >= 1`; the call applies the null move
from a node with `nullBranch = false`, with `depth - 3` and `nullBranch = true`, or a move,
with `depth - 1` and the `nullBranch` of the caller; the path of the call holds at most
one null move, and none when the call has `nullBranch = false`; and the depth of the call
is the depth of the node less one for every move and three for every null move applied
since. -/
def CallInv (path : List (Option Move)) (depth : Int) (c : Call) : Prop :=
  1 ≤ c.callerDepth ∧
  ((c.path.getLast? = some none ∧ c.depth = c.callerDepth - 3 ∧ c.callerNull = false ∧
      c.nullBranch = true) ∨
    (∃ m, c.path.getLast? = some (some m) ∧ c.depth = c.callerDepth - 1 ∧
      c.nullBranch = c.callerNull)) ∧
  nullMoves c.path ≤ 1 ∧ (c.nullBranch = false → nullMoves c.path = 0) ∧
  c.depth + (c.path.length : Int) + 2 * (nullMoves c.path : Int) =
    depth + (path.length : Int) + 2 * (nullMoves path : Int)

/-! # Properties -/

/-! ## The members each statement leaves alone -/

@[simp] theorem pushPos_prevPos (s : State TT) :
    (pushPos s).prevPos = s.prevPos ++ [s.hash] := rfl

@[simp] theorem pushPos_prevMoves (s : State TT) :
    (pushPos s).prevMoves = s.prevMoves := rfl

@[simp] theorem pushPos_hash (s : State TT) :
    (pushPos s).hash = s.hash := rfl

@[simp] theorem pushPos_tt (s : State TT) :
    (pushPos s).tt = s.tt := rfl

@[simp] theorem pushPos_nodes (s : State TT) :
    (pushPos s).nodes = s.nodes := rfl

@[simp] theorem pushPos_fixedOf (s : State TT) :
    fixedOf (pushPos s) = fixedOf s := rfl

@[simp] theorem popPos_prevPos (s : State TT) :
    (popPos s).prevPos = s.prevPos.dropLast := rfl

@[simp] theorem popPos_prevMoves (s : State TT) :
    (popPos s).prevMoves = s.prevMoves := rfl

@[simp] theorem popPos_hash (s : State TT) :
    (popPos s).hash = s.hash := rfl

@[simp] theorem popPos_tt (s : State TT) :
    (popPos s).tt = s.tt := rfl

@[simp] theorem popPos_nodes (s : State TT) :
    (popPos s).nodes = s.nodes := rfl

@[simp] theorem popPos_fixedOf (s : State TT) :
    fixedOf (popPos s) = fixedOf s := rfl

@[simp] theorem pushMove_prevPos (m : Move) (s : State TT) :
    (pushMove m s).prevPos = s.prevPos := rfl

@[simp] theorem pushMove_prevMoves (m : Move) (s : State TT) :
    (pushMove m s).prevMoves = s.prevMoves ++ [m] := rfl

@[simp] theorem pushMove_hash (m : Move) (s : State TT) :
    (pushMove m s).hash = s.hash := rfl

@[simp] theorem pushMove_tt (m : Move) (s : State TT) :
    (pushMove m s).tt = s.tt := rfl

@[simp] theorem pushMove_nodes (m : Move) (s : State TT) :
    (pushMove m s).nodes = s.nodes := rfl

@[simp] theorem pushMove_fixedOf (m : Move) (s : State TT) :
    fixedOf (pushMove m s) = fixedOf s := rfl

@[simp] theorem popMove_prevPos (s : State TT) :
    (popMove s).prevPos = s.prevPos := rfl

@[simp] theorem popMove_prevMoves (s : State TT) :
    (popMove s).prevMoves = s.prevMoves.dropLast := rfl

@[simp] theorem popMove_hash (s : State TT) :
    (popMove s).hash = s.hash := rfl

@[simp] theorem popMove_tt (s : State TT) :
    (popMove s).tt = s.tt := rfl

@[simp] theorem popMove_nodes (s : State TT) :
    (popMove s).nodes = s.nodes := rfl

@[simp] theorem popMove_fixedOf (s : State TT) :
    fixedOf (popMove s) = fixedOf s := rfl

@[simp] theorem xorHash_prevPos (d : Nat) (s : State TT) :
    (xorHash d s).prevPos = s.prevPos := rfl

@[simp] theorem xorHash_prevMoves (d : Nat) (s : State TT) :
    (xorHash d s).prevMoves = s.prevMoves := rfl

@[simp] theorem xorHash_hash (d : Nat) (s : State TT) :
    (xorHash d s).hash = s.hash ^^^ d := rfl

@[simp] theorem xorHash_tt (d : Nat) (s : State TT) :
    (xorHash d s).tt = s.tt := rfl

@[simp] theorem xorHash_nodes (d : Nat) (s : State TT) :
    (xorHash d s).nodes = s.nodes := rfl

@[simp] theorem xorHash_fixedOf (d : Nat) (s : State TT) :
    fixedOf (xorHash d s) = fixedOf s := rfl

@[simp] theorem setHash_prevPos (h : Nat) (s : State TT) :
    (setHash h s).prevPos = s.prevPos := rfl

@[simp] theorem setHash_prevMoves (h : Nat) (s : State TT) :
    (setHash h s).prevMoves = s.prevMoves := rfl

@[simp] theorem setHash_hash (h : Nat) (s : State TT) :
    (setHash h s).hash = h := rfl

@[simp] theorem setHash_tt (h : Nat) (s : State TT) :
    (setHash h s).tt = s.tt := rfl

@[simp] theorem setHash_nodes (h : Nat) (s : State TT) :
    (setHash h s).nodes = s.nodes := rfl

@[simp] theorem setHash_fixedOf (h : Nat) (s : State TT) :
    fixedOf (setHash h s) = fixedOf s := rfl

@[simp] theorem incNodes_prevPos (s : State TT) :
    (incNodes s).prevPos = s.prevPos := rfl

@[simp] theorem incNodes_prevMoves (s : State TT) :
    (incNodes s).prevMoves = s.prevMoves := rfl

@[simp] theorem incNodes_hash (s : State TT) :
    (incNodes s).hash = s.hash := rfl

@[simp] theorem incNodes_tt (s : State TT) :
    (incNodes s).tt = s.tt := rfl

@[simp] theorem incNodes_nodes (s : State TT) :
    (incNodes s).nodes = (s.nodes + 1) % 2 ^ 64 := rfl

@[simp] theorem incNodes_fixedOf (s : State TT) :
    fixedOf (incNodes s) = fixedOf s := rfl

@[simp] theorem clearSearching_prevPos (s : State TT) :
    (clearSearching s).prevPos = s.prevPos := rfl

@[simp] theorem clearSearching_prevMoves (s : State TT) :
    (clearSearching s).prevMoves = s.prevMoves := rfl

@[simp] theorem clearSearching_hash (s : State TT) :
    (clearSearching s).hash = s.hash := rfl

@[simp] theorem clearSearching_tt (s : State TT) :
    (clearSearching s).tt = s.tt := rfl

@[simp] theorem clearSearching_nodes (s : State TT) :
    (clearSearching s).nodes = s.nodes := rfl

@[simp] theorem clearSearching_fixedOf (s : State TT) :
    fixedOf (clearSearching s) = fixedOf s := rfl

@[simp] theorem testSearching_prevPos (w : Ambient) (s : State TT) :
    (testSearching w s).2.prevPos = s.prevPos := rfl

@[simp] theorem testSearching_prevMoves (w : Ambient) (s : State TT) :
    (testSearching w s).2.prevMoves = s.prevMoves := rfl

@[simp] theorem testSearching_hash (w : Ambient) (s : State TT) :
    (testSearching w s).2.hash = s.hash := rfl

@[simp] theorem testSearching_tt (w : Ambient) (s : State TT) :
    (testSearching w s).2.tt = s.tt := rfl

@[simp] theorem testSearching_nodes (w : Ambient) (s : State TT) :
    (testSearching w s).2.nodes = s.nodes := rfl

@[simp] theorem testSearching_fixedOf (w : Ambient) (s : State TT) :
    fixedOf (testSearching w s).2 = fixedOf s := rfl

theorem shouldStop_frame (w : Ambient) (s : State TT) :
    (shouldStop w s).2.prevPos = s.prevPos ∧ (shouldStop w s).2.prevMoves = s.prevMoves ∧
    (shouldStop w s).2.hash = s.hash ∧ (shouldStop w s).2.tt = s.tt ∧
    (shouldStop w s).2.nodes = s.nodes ∧ fixedOf (shouldStop w s).2 = fixedOf s := by
  unfold shouldStop elapsed
  dsimp only
  split_ifs <;> simp [fixedOf]

theorem pollStop_frame (w : Ambient) (s : State TT) :
    (pollStop w s).prevPos = s.prevPos ∧ (pollStop w s).prevMoves = s.prevMoves ∧
    (pollStop w s).hash = s.hash ∧ (pollStop w s).tt = s.tt ∧
    (pollStop w s).nodes = s.nodes ∧ fixedOf (pollStop w s) = fixedOf s := by
  have h := shouldStop_frame w s
  unfold pollStop
  dsimp only
  split_ifs
  · simpa using h
  · exact h

theorem uciUpdate_frame (w : Ambient) (s : State TT) :
    (uciUpdate w s).prevPos = s.prevPos ∧ (uciUpdate w s).prevMoves = s.prevMoves ∧
    (uciUpdate w s).hash = s.hash ∧ (uciUpdate w s).tt = s.tt ∧
    (uciUpdate w s).nodes = s.nodes ∧ fixedOf (uciUpdate w s) = fixedOf s := by
  unfold uciUpdate elapsed
  dsimp only
  split_ifs <;> simp [fixedOf]

@[simp] theorem pollStop_prevPos (w : Ambient) (s : State TT) :
    (pollStop w s).prevPos = s.prevPos := (pollStop_frame w s).1

@[simp] theorem pollStop_prevMoves (w : Ambient) (s : State TT) :
    (pollStop w s).prevMoves = s.prevMoves := (pollStop_frame w s).2.1

@[simp] theorem pollStop_hash (w : Ambient) (s : State TT) :
    (pollStop w s).hash = s.hash := (pollStop_frame w s).2.2.1

@[simp] theorem pollStop_tt (w : Ambient) (s : State TT) :
    (pollStop w s).tt = s.tt := (pollStop_frame w s).2.2.2.1

@[simp] theorem pollStop_nodes (w : Ambient) (s : State TT) :
    (pollStop w s).nodes = s.nodes := (pollStop_frame w s).2.2.2.2.1

@[simp] theorem pollStop_fixedOf (w : Ambient) (s : State TT) :
    fixedOf (pollStop w s) = fixedOf s := (pollStop_frame w s).2.2.2.2.2

@[simp] theorem uciUpdate_prevPos (w : Ambient) (s : State TT) :
    (uciUpdate w s).prevPos = s.prevPos := (uciUpdate_frame w s).1

@[simp] theorem uciUpdate_prevMoves (w : Ambient) (s : State TT) :
    (uciUpdate w s).prevMoves = s.prevMoves := (uciUpdate_frame w s).2.1

@[simp] theorem uciUpdate_hash (w : Ambient) (s : State TT) :
    (uciUpdate w s).hash = s.hash := (uciUpdate_frame w s).2.2.1

@[simp] theorem uciUpdate_tt (w : Ambient) (s : State TT) :
    (uciUpdate w s).tt = s.tt := (uciUpdate_frame w s).2.2.2.1

@[simp] theorem uciUpdate_nodes (w : Ambient) (s : State TT) :
    (uciUpdate w s).nodes = s.nodes := (uciUpdate_frame w s).2.2.2.2.1

@[simp] theorem uciUpdate_fixedOf (w : Ambient) (s : State TT) :
    fixedOf (uciUpdate w s) = fixedOf s := (uciUpdate_frame w s).2.2.2.2.2

@[simp] theorem ttStoreCut_prevPos (env : Env Pos TT MO) (d e : Int) (m : Move) (s : State TT) :
    (ttStoreCut env d e m s).prevPos = s.prevPos := by
  unfold ttStoreCut; split <;> rfl

@[simp] theorem ttStoreCut_prevMoves (env : Env Pos TT MO) (d e : Int) (m : Move)
    (s : State TT) : (ttStoreCut env d e m s).prevMoves = s.prevMoves := by
  unfold ttStoreCut; split <;> rfl

@[simp] theorem ttStoreCut_hash (env : Env Pos TT MO) (d e : Int) (m : Move) (s : State TT) :
    (ttStoreCut env d e m s).hash = s.hash := by
  unfold ttStoreCut; split <;> rfl

@[simp] theorem ttStoreCut_nodes (env : Env Pos TT MO) (d e : Int) (m : Move) (s : State TT) :
    (ttStoreCut env d e m s).nodes = s.nodes := by
  unfold ttStoreCut; split <;> rfl

@[simp] theorem ttStoreCut_fixedOf (env : Env Pos TT MO) (d e : Int) (m : Move)
    (s : State TT) : fixedOf (ttStoreCut env d e m s) = fixedOf s := by
  unfold ttStoreCut; split <;> rfl

@[simp] theorem ttStoreEnd_prevPos (env : Env Pos TT MO) (d e : Int) (m : Move) (nt : NodeType)
    (s : State TT) : (ttStoreEnd env d e m nt s).prevPos = s.prevPos := by
  unfold ttStoreEnd; split <;> [rfl; (split <;> rfl)]

@[simp] theorem ttStoreEnd_prevMoves (env : Env Pos TT MO) (d e : Int) (m : Move)
    (nt : NodeType) (s : State TT) : (ttStoreEnd env d e m nt s).prevMoves = s.prevMoves := by
  unfold ttStoreEnd; split <;> [rfl; (split <;> rfl)]

@[simp] theorem ttStoreEnd_hash (env : Env Pos TT MO) (d e : Int) (m : Move) (nt : NodeType)
    (s : State TT) : (ttStoreEnd env d e m nt s).hash = s.hash := by
  unfold ttStoreEnd; split <;> [rfl; (split <;> rfl)]

@[simp] theorem ttStoreEnd_nodes (env : Env Pos TT MO) (d e : Int) (m : Move) (nt : NodeType)
    (s : State TT) : (ttStoreEnd env d e m nt s).nodes = s.nodes := by
  unfold ttStoreEnd; split <;> [rfl; (split <;> rfl)]

@[simp] theorem ttStoreEnd_fixedOf (env : Env Pos TT MO) (d e : Int) (m : Move)
    (nt : NodeType) (s : State TT) : fixedOf (ttStoreEnd env d e m nt s) = fixedOf s := by
  unfold ttStoreEnd; split <;> [rfl; (split <;> rfl)]

/-! ## The history is restored -/

theorem Framed.ok_iff {α : Type} (s s1 : State TT) (a : α) :
    Framed s (Res.ok a s1) ↔ (s1.prevPos = s.prevPos ∧ s1.prevMoves = s.prevMoves ∧
      s1.hash = s.hash ∧ fixedOf s1 = fixedOf s) := Iff.rfl

theorem Framed.timeout_iff {α : Type} (s s1 : State TT) :
    Framed s (Res.timeout s1 : Res (State TT) α) ↔
      (s1.prevPos = s.prevPos ∧ s1.prevMoves = s.prevMoves ∧ fixedOf s1 = fixedOf s) :=
  Iff.rfl

theorem Framed.ok_elim {α : Type} {s s1 : State TT} {a : α} {r : Res (State TT) α}
    (h : Framed s r) (hr : r = Res.ok a s1) :
    s1.prevPos = s.prevPos ∧ s1.prevMoves = s.prevMoves ∧ s1.hash = s.hash ∧
      fixedOf s1 = fixedOf s := by
  subst hr; exact h

theorem Framed.timeout_elim {α : Type} {s s1 : State TT} {r : Res (State TT) α}
    (h : Framed s r) (hr : r = Res.timeout s1) :
    s1.prevPos = s.prevPos ∧ s1.prevMoves = s.prevMoves ∧ fixedOf s1 = fixedOf s := by
  subst hr; exact h

/-- A state that agrees with `s` on the stacks, the hash and the fixed members can stand
for `s` in `Framed`. -/
theorem Framed.of_agree {α : Type} {s t : State TT} {r : Res (State TT) α}
    (hp : t.prevPos = s.prevPos) (hm : t.prevMoves = s.prevMoves) (hh : t.hash = s.hash)
    (hf : fixedOf t = fixedOf s) (h : Framed t r) : Framed s r := by
  cases r <;> simp_all [Framed]

theorem Framed.scopePos {α : Type} {s : State TT} {r : Res (State TT) α}
    (h : Framed (pushPos s) r) : Framed s (scopePos r) := by
  cases r <;> simp_all [Framed, Captain.scopePos]

theorem Framed.withPV {s : State TT} {r : Res (State TT) Int} (pv : List Move)
    (h : Framed s r) : Framed s (withPV pv r) := by
  cases r <;> simp_all [Framed, Captain.withPV]

theorem quiesce_framed (env : Env Pos TT MO) (fuel : Nat) :
    (∀ b alpha beta depth (s : State TT),
      Framed s (quiesceSearch env fuel b alpha beta depth s)) ∧
    (∀ b beta depth check standpat cI i ml alpha currEval (s : State TT),
      Framed s (quiesceLoop env fuel b beta depth check standpat cI i ml alpha currEval s)) := by
  induction fuel with
  | zero =>
    constructor
    · intros; simp [quiesceSearch, Framed]
    · intros; simp [quiesceLoop, Framed]
  | succ fuel ih =>
    obtain ⟨ihS, ihL⟩ := ih
    constructor
    · intro b alpha beta depth s
      rw [quiesceSearch]
      apply Framed.scopePos
      have hL : ∀ b beta depth check standpat cI i ml alpha currEval,
          Framed (pushPos s) (quiesceLoop env fuel b beta depth check standpat cI i ml alpha
            currEval (incNodes (pollStop env.toAmbient (pushPos s)))) := fun _ _ _ _ _ _ _ _ _ _ =>
        Framed.of_agree (by simp) (by simp) (by simp) (by simp) (ihL _ _ _ _ _ _ _ _ _ _ _)
      dsimp only
      repeat' split
      all_goals first
        | exact hL _ _ _ _ _ _ _ _ _ _
        | simp [Framed.ok_iff]
    · intro b beta depth check standpat cI i ml alpha currEval s
      rw [quiesceLoop]
      dsimp only
      split
      · simp [Framed.ok_iff]
      split
      · exact ihL _ _ _ _ _ _ _ _ _ _ _
      split
      · simp [Framed.ok_iff]
      split
      · simp [Framed.timeout_iff]
      split
      · trivial
      split
      · rename_i hq
        obtain ⟨h1, h2, -, h4⟩ := Framed.ok_elim (ihS _ _ _ _ _) hq
        simp only [xorHash_prevPos, xorHash_prevMoves, pushMove_prevPos, pushMove_prevMoves,
          testSearching_prevPos, testSearching_prevMoves, xorHash_fixedOf, pushMove_fixedOf,
          testSearching_fixedOf] at h1 h2 h4
        split
        · simp [Framed.ok_iff, h1, h2, h4]
        · exact Framed.of_agree (by simp [h1]) (by simp [h2]) (by simp) (by simp [h4])
            (ihL _ _ _ _ _ _ _ _ _ _ _)
      · rename_i hq
        obtain ⟨h1, h2, h4⟩ := Framed.timeout_elim (ihS _ _ _ _ _) hq
        simp only [xorHash_prevPos, xorHash_prevMoves, pushMove_prevPos, pushMove_prevMoves,
          testSearching_prevPos, testSearching_prevMoves, xorHash_fixedOf, pushMove_fixedOf,
          testSearching_fixedOf] at h1 h2 h4
        simp [Framed.timeout_iff, h1, h2, h4]
      · trivial
      · trivial


theorem alphaBeta_framed (env : Env Pos TT MO) (fuel : Nat) :
    (∀ b pv alpha beta depth nullBranch (s : State TT),
      Framed s (alphaBetaSearch env fuel b pv alpha beta depth nullBranch s)) ∧
    (∀ b depth nullBranch beta moves i alpha besteval nodeType topMove pv pvChild
        (s : State TT),
      Framed s (abLoop env fuel b depth nullBranch beta moves i alpha besteval nodeType
        topMove pv pvChild s)) := by
  induction fuel with
  | zero =>
    constructor
    · intros; simp [alphaBetaSearch, Framed]
    · intros; simp [abLoop, Framed]
  | succ fuel ih =>
    obtain ⟨ihS, ihL⟩ := ih
    constructor
    · intro b pv alpha beta depth nullBranch s
      rw [alphaBetaSearch]
      dsimp only
      split
      · exact Framed.withPV pv ((quiesce_framed env fuel).1 _ _ _ _ _)
      split
      · simp [Framed.ok_iff]
      apply Framed.of_agree (t := uciUpdate env.toAmbient (pollStop env.toAmbient s)) (by simp) (by simp) (by simp)
        (by simp)
      apply Framed.scopePos
      generalize uciUpdate env.toAmbient (pollStop env.toAmbient s) = s1
      split
      · simp [Framed.ok_iff]
      split
      · simp [Framed.ok_iff]
      split
      · split
        · trivial
        split
        · rename_i hq
          obtain ⟨h1, h2, -, h4⟩ := Framed.ok_elim (ihS _ _ _ _ _ _ _) hq
          simp only [xorHash_prevPos, xorHash_prevMoves, pushMove_prevPos, pushMove_prevMoves,
            incNodes_prevPos, incNodes_prevMoves, xorHash_fixedOf, pushMove_fixedOf,
            incNodes_fixedOf] at h1 h2 h4
          split
          · simp [Framed.ok_iff, h1, h2, h4]
          · exact Framed.of_agree (by simp [h1]) (by simp [h2]) (by simp) (by simp [h4])
              (ihL _ _ _ _ _ _ _ _ _ _ _ _ _)
        · rename_i hq
          obtain ⟨h1, h2, h4⟩ := Framed.timeout_elim (ihS _ _ _ _ _ _ _) hq
          simp only [xorHash_prevPos, xorHash_prevMoves, pushMove_prevPos, pushMove_prevMoves,
            incNodes_prevPos, incNodes_prevMoves, xorHash_fixedOf, pushMove_fixedOf,
            incNodes_fixedOf] at h1 h2 h4
          simp [Framed.timeout_iff, h1, h2, h4]
        · trivial
        · trivial
      · exact Framed.of_agree (by simp) (by simp) (by simp) (by simp)
          (ihL _ _ _ _ _ _ _ _ _ _ _ _ _)
    · intro b depth nullBranch beta moves i alpha besteval nodeType topMove pv pvChild s
      rw [abLoop]
      dsimp only
      split
      · split <;> simp [Framed.ok_iff]
      split
      · simp [Framed.timeout_iff]
      split
      · trivial
      split
      · rename_i hq
        obtain ⟨h1, h2, -, h4⟩ := Framed.ok_elim (ihS _ _ _ _ _ _ _) hq
        simp only [xorHash_prevPos, xorHash_prevMoves, pushMove_prevPos, pushMove_prevMoves,
          testSearching_prevPos, testSearching_prevMoves, xorHash_fixedOf, pushMove_fixedOf,
          testSearching_fixedOf] at h1 h2 h4
        split
        · simp [Framed.ok_iff, h1, h2, h4]
        split
        · exact Framed.of_agree (by simp [h1]) (by simp [h2]) (by simp) (by simp [h4])
            (ihL _ _ _ _ _ _ _ _ _ _ _ _ _)
        · exact Framed.of_agree (by simp [h1]) (by simp [h2]) (by simp) (by simp [h4])
            (ihL _ _ _ _ _ _ _ _ _ _ _ _ _)
      · rename_i hq
        obtain ⟨h1, h2, h4⟩ := Framed.timeout_elim (ihS _ _ _ _ _ _ _) hq
        simp only [xorHash_prevPos, xorHash_prevMoves, pushMove_prevPos, pushMove_prevMoves,
          testSearching_prevPos, testSearching_prevMoves, xorHash_fixedOf, pushMove_fixedOf,
          testSearching_fixedOf] at h1 h2 h4
        simp [Framed.timeout_iff, h1, h2, h4]
      · trivial
      · trivial


/-! ## Threefold repetition -/

theorem threeFoldRepLoop_neg (xs : List Nat) (h : Nat) (steps : Nat) (i : Int) (cnt : Nat)
    (hi : i < 0) : threeFoldRepLoop xs h steps i cnt = cnt := by
  cases steps with
  | zero => rfl
  | succ n => rw [threeFoldRepLoop, if_neg (by omega)]

theorem occ_step (xs : List Nat) (h : Nat) (j : Nat) :
    ((List.range (j + 2 + 1)).filter
      (fun i => decide ((j + 2 - i) % 2 = 0) && decide (xs[i]? = some h))).length =
    ((List.range (j + 1)).filter
      (fun i => decide ((j - i) % 2 = 0) && decide (xs[i]? = some h))).length +
      (if xs[j + 2]? = some h then 1 else 0) := by
  rw [List.range_succ, List.range_succ (j + 1)]
  simp only [List.filter_append, List.length_append, List.filter_cons, List.filter_nil]
  have h1 : (j + 2 - (j + 1)) % 2 = 1 := by omega
  have h2 : (j + 2 - (j + 2)) % 2 = 0 := by omega
  have hc : (List.range (j + 1)).filter
      (fun i => decide ((j + 2 - i) % 2 = 0) && decide (xs[i]? = some h)) =
      (List.range (j + 1)).filter
      (fun i => decide ((j - i) % 2 = 0) && decide (xs[i]? = some h)) := by
    apply List.filter_congr
    intro i hi
    rw [List.mem_range] at hi
    have : (j + 2 - i) % 2 = (j - i) % 2 := by omega
    rw [this]
  rw [hc]
  by_cases hx : xs[j + 2]? = some h <;> simp [h1, hx]

theorem threeFoldRepLoop_eq (xs : List Nat) (h : Nat) :
    ∀ (steps k cnt : Nat), k < steps →
      threeFoldRepLoop xs h steps (k : Int) cnt = cnt +
        ((List.range (k + 1)).filter
          (fun i => decide ((k - i) % 2 = 0) && decide (xs[i]? = some h))).length := by
  intro steps
  induction steps with
  | zero => intro k cnt hk; omega
  | succ n ih =>
    intro k cnt hk
    rw [threeFoldRepLoop, if_pos (by omega)]
    simp only [Int.toNat_ofNat]
    match k, hk with
    | 0, _ =>
      rw [threeFoldRepLoop_neg _ _ _ _ _ (by omega)]
      by_cases hx : xs[0]? = some h <;> simp [List.range_succ, hx]
    | 1, _ =>
      rw [threeFoldRepLoop_neg _ _ _ _ _ (by omega)]
      by_cases hx : xs[1]? = some h <;> simp [List.range_succ, hx]
    | j + 2, hk =>
      have hj : ((j + 2 : Nat) : Int) - 2 = (j : Int) := by push_cast; ring
      rw [hj, ih j _ (by omega), occ_step]
      split_ifs <;> omega

theorem threeFoldRep_iff (xs : List Nat) (h : Nat) (hl : xs.getLast? = some h) :
    threeFoldRep xs = true ↔ 3 ≤ sameSideOccurrences xs h := by
  unfold threeFoldRep
  rw [hl]
  have hne : xs ≠ [] := by rintro rfl; simp at hl
  have hlen : 0 < xs.length := List.length_pos.mpr hne
  have hcast : (xs.length : Int) - 1 = ((xs.length - 1 : Nat) : Int) := by omega
  simp only [hcast, decide_eq_true_eq, ge_iff_le]
  rw [threeFoldRepLoop_eq xs h xs.length (xs.length - 1) 0 (by omega)]
  unfold sameSideOccurrences
  have : xs.length - 1 + 1 = xs.length := by omega
  rw [this, Nat.zero_add]

/-! ## Reading off outcomes -/

theorem Res.exists_of_isOk {σ α : Type} {x : Res σ α} (h : x.isOk = true) :
    ∃ a s, x = Res.ok a s ∧ x.finalState? = some s ∧ x.value? = some a := by
  cases x with
  | ok a s => exact ⟨a, s, rfl, rfl, rfl⟩
  | timeout s => simp [Res.isOk] at h
  | nullTT => simp [Res.isOk] at h
  | noFuel => simp [Res.isOk] at h

theorem Res.exists_of_isTimeout {σ α : Type} {x : Res σ α} (h : x.isTimeout = true) :
    ∃ s, x = Res.timeout s ∧ x.finalState? = some s := by
  cases x with
  | ok a s => simp [Res.isTimeout] at h
  | timeout s => exact ⟨s, rfl, rfl⟩
  | nullTT => simp [Res.isTimeout] at h
  | noFuel => simp [Res.isTimeout] at h

theorem popPos_pushPos (s : State TT) : popPos (pushPos s) = s := by
  cases s; simp [popPos, pushPos]

theorem popMove_pushMove (m : Move) (s : State TT) : popMove (pushMove m s) = s := by
  cases s; simp [popMove, pushMove]

theorem Res.eq_ok_of_isOk {σ : Type} {x : Res σ Unit} (d : σ) (h : x.isOk = true) :
    x = Res.ok () (x.finalState?.getD d) := by
  cases x with
  | ok a s => rfl
  | timeout s => simp [Res.isOk] at h
  | nullTT => simp [Res.isOk] at h
  | noFuel => simp [Res.isOk] at h

/-! ## Nodes without moves -/


theorem ttProbeQ_congr (env : Env Pos TT MO) {s t : State TT} (alpha beta depth : Int)
    (h1 : t.tt = s.tt) (h2 : t.hash = s.hash) :
    ttProbeQ env t alpha beta depth = ttProbeQ env s alpha beta depth := by
  unfold ttProbeQ; rw [h1, h2]

theorem ttProbeAB_congr (env : Env Pos TT MO) {s t : State TT} (alpha beta depth : Int)
    (h1 : t.tt = s.tt) (h2 : t.hash = s.hash) :
    ttProbeAB env t alpha beta depth = ttProbeAB env s alpha beta depth := by
  unfold ttProbeAB; rw [h1, h2]

theorem scopePos_ok {α : Type} (a : α) (s : State TT) :
    scopePos (Res.ok a s) = Res.ok a (popPos s) := rfl

theorem stalemate_quiesce (env : Env Pos TT MO) (fuel : Nat) (b : Pos)
    (alpha beta depth : Int) (s : State TT)
    (hcheck : env.isInCheck b = false) (hcap : env.genCaptures b = [])
    (hquiet : env.genQuiets b = [])
    (htt : ttProbeQ env s alpha beta depth = none) (hev : env.evaluate b < beta) :
    ∃ s1, quiesceSearch env (fuel + 1) b alpha beta depth s = Res.ok 0 s1 := by
  rw [quiesceSearch]
  have hp : ttProbeQ env (incNodes (pollStop env.toAmbient (pushPos s))) alpha beta depth
      = none := by
    rw [ttProbeQ_congr env (s := s) alpha beta depth (by simp) (by simp)]; exact htt
  have hnb : ¬ (env.evaluate b ≥ beta) := by omega
  simp only [hp, hcheck, hcap, hquiet, asScored, List.map_nil, List.append_nil,
    List.isEmpty_nil, Bool.not_false, Bool.true_and, Bool.and_self, if_true, hnb,
    decide_False, Bool.false_eq_true, if_false, scopePos_ok]
  split_ifs <;> exact ⟨_, rfl⟩

theorem mate_quiesce (env : Env Pos TT MO) (fuel : Nat) (b : Pos)
    (alpha beta depth : Int) (s : State TT)
    (hcheck : env.isInCheck b = true) (hcap : env.genCaptures b = [])
    (hquiet : env.genQuiets b = []) (h50 : env.get50 b ≠ 50)
    (hrep : threeFoldRep (s.prevPos ++ [s.hash]) = false)
    (htt : ttProbeQ env s alpha beta depth = none) :
    ∃ s1, quiesceSearch env (fuel + 1) b alpha beta depth s = Res.ok negInf s1 := by
  rw [quiesceSearch]
  have hp : ttProbeQ env (incNodes (pollStop env.toAmbient (pushPos s))) alpha beta depth
      = none := by
    rw [ttProbeQ_congr env (s := s) alpha beta depth (by simp) (by simp)]; exact htt
  simp only [pushPos_prevPos, hrep, h50, hp, hcheck, hcap, hquiet, asScored, List.map_nil,
    List.append_nil, List.isEmpty_nil, Bool.not_true, Bool.false_and, Bool.and_self,
    if_true, Bool.false_eq_true, if_false, scopePos_ok]
  exact ⟨_, rfl⟩


theorem abLoop_no_moves (env : Env Pos TT MO) (fuel : Nat) (b : Pos) (depth : Int)
    (nullBranch : Bool) (beta : Int) (t : Option TT) (h : Nat) (alpha besteval : Int)
    (nodeType : NodeType) (topMove : Move) (pv pvChild : List Move) (s : State TT)
    (hmo : ∀ t h t1, env.moNext (env.moInit t b h) t1 b = none) :
    abLoop env (fuel + 1) b depth nullBranch beta (env.moInit t b h) 0 alpha besteval nodeType
      topMove pv pvChild s = Res.ok (if env.isInCheck b then negInf else 0, pv) s := by
  rw [abLoop]
  simp only [hmo, if_true]

theorem stalemate_main (env : Env Pos TT MO) (fuel : Nat) (b : Pos) (pv : List Move)
    (alpha beta depth : Int) (s : State TT) (tbl : TT) (r : Int × List Move) (s6 : State TT)
    (hcheck : env.isInCheck b = false)
    (hmo : ∀ t h t1, env.moNext (env.moInit t b h) t1 b = none)
    (hd : 1 ≤ depth) (htt : ttProbeAB env s alpha beta depth = none)
    (htbl : s.tt = some tbl)
    (hnull : alphaBetaSearch env (fuel + 1) (env.doNullMove b) [] (-beta) (-beta + 1)
      (depth - 3) true (nullMoveEntry env b tbl s) = Res.ok r s6)
    (hlow : -r.1 < beta) :
    ∃ s1, alphaBetaSearch env (fuel + 2) b pv alpha beta depth false s = Res.ok (0, pv) s1 := by
  rw [alphaBetaSearch, if_neg (by omega)]
  have hp : ttProbeAB env (incNodes (pushPos (uciUpdate env.toAmbient
      (pollStop env.toAmbient s)))) alpha beta depth = none := by
    rw [ttProbeAB_congr env (s := s) alpha beta depth (by simp) (by simp)]; exact htt
  have htbl1 : (incNodes (pushPos (uciUpdate env.toAmbient
      (pollStop env.toAmbient s)))).tt = some tbl := by simpa using htbl
  unfold nullMoveEntry at hnull
  have hnb : ¬ (-r.1 ≥ beta) := by omega
  simp only [hp, hcheck, Bool.not_false, Bool.and_self, if_true, htbl1, hnull, hnb, if_false,
    abLoop_no_moves env fuel b depth false beta _ _ alpha negInf NodeType.ALL 0 pv [] _ hmo,
    Bool.false_eq_true, scopePos_ok]
  split_ifs <;> exact ⟨_, rfl⟩

theorem mate_main (env : Env Pos TT MO) (fuel : Nat) (b : Pos) (pv : List Move)
    (alpha beta depth : Int) (nullBranch : Bool) (s : State TT)
    (hcheck : env.isInCheck b = true)
    (hmo : ∀ t h t1, env.moNext (env.moInit t b h) t1 b = none)
    (h50 : env.get50 b ≠ 50) (hrep : threeFoldRep (s.prevPos ++ [s.hash]) = false)
    (hd : 1 ≤ depth) (htt : ttProbeAB env s alpha beta depth = none) :
    ∃ s1, alphaBetaSearch env (fuel + 2) b pv alpha beta depth nullBranch s =
      Res.ok (negInf, pv) s1 := by
  rw [alphaBetaSearch, if_neg (by omega)]
  have hp : ttProbeAB env (incNodes (pushPos (uciUpdate env.toAmbient
      (pollStop env.toAmbient s)))) alpha beta depth = none := by
    rw [ttProbeAB_congr env (s := s) alpha beta depth (by simp) (by simp)]; exact htt
  have hr : threeFoldRep (pushPos (uciUpdate env.toAmbient
      (pollStop env.toAmbient s))).prevPos = false := by simpa using hrep
  simp only [h50, hr, hp, hcheck, Bool.not_true, Bool.and_false, if_false,
    abLoop_no_moves env fuel b depth nullBranch beta _ _ alpha negInf NodeType.ALL 0 pv [] _ hmo,
    Bool.false_eq_true, if_true, scopePos_ok]
  exact ⟨_, rfl⟩


/-! ## The header template at a node without moves -/

theorem currIDdepth_of_fixedOf {s t : State TT} (h : fixedOf t = fixedOf s) :
    t.currIDdepth = s.currIDdepth :=
  congrArg (fun x => x.2.2.1) h

theorem rootMoves_of_fixedOf {s t : State TT} (h : fixedOf t = fixedOf s) :
    t.rootMoves = s.rootMoves :=
  congrArg (fun x => x.2.2.2.2.2.2.1) h

theorem MainPV_of_fixedOf {s t : State TT} (h : fixedOf t = fixedOf s) :
    t.MainPV = s.MainPV :=
  congrArg (fun x => x.2.2.2.2.2.2.2.1) h

theorem Hpp.ttProbe_congr (env : Hpp.Env Pos TT) (wToMove : Bool) {s t : State TT}
    (alpha beta depth : Int) (h1 : t.tt = s.tt) (h2 : t.hash = s.hash) :
    Hpp.ttProbe env wToMove t alpha beta depth = Hpp.ttProbe env wToMove s alpha beta depth := by
  unfold Hpp.ttProbe; rw [h1, h2]

theorem Hpp.distance_eq (currIDdepth : Nat) (depth : Int) (h0 : depth ≤ currIDdepth)
    (h1 : (currIDdepth : Int) - depth < 2 ^ 31) :
    Hpp.distance currIDdepth depth = (currIDdepth : Int) - depth := by
  unfold Hpp.distance
  omega

theorem Hpp.mate (env : Hpp.Env Pos TT) (fuel : Nat) (wToMove : Bool)
    (alpha beta depth : Int) (b : Pos) (s : State TT)
    (hcheck : env.isInCheck wToMove b = true) (hmoves : env.genMoves wToMove b = [])
    (h50 : env.ply50 b ≠ 50) (hd : 1 ≤ depth)
    (htt : Hpp.ttProbe env wToMove s alpha beta depth = none) :
    ∃ s1, Hpp.alphaBetaSearch env (fuel + 2) wToMove Hpp.SearchType.ABSearch true alpha beta
      depth b s = Res.ok (negInf + Hpp.distance s.currIDdepth depth) (b, s1) := by
  rw [Hpp.alphaBetaSearch]
  have hp : Hpp.ttProbe env wToMove (pollStop env.toAmbient (incNodes s)) alpha beta depth
      = none := by
    rw [Hpp.ttProbe_congr env wToMove (s := s) alpha beta depth (by simp) (by simp)]; exact htt
  have hc : (pollStop env.toAmbient (incNodes s)).currIDdepth = s.currIDdepth :=
    currIDdepth_of_fixedOf (by simp)
  have hnd : ¬ depth ≤ 0 := by omega
  simp only [h50, if_false, hnd, and_false, hp, hmoves, List.insertionSort, if_true,
    reduceCtorEq, false_and, Bool.true_eq_false]
  rw [Hpp.searchLoop]
  simp only [Hpp.finish, ne_eq, not_true_eq_false, decide_False, Bool.not_false, if_true, hcheck,
    hc]
  exact ⟨_, rfl⟩


/-! ## The header template keeps the fixed members -/

theorem Hpp.ttWrite_fixedOf (env : Hpp.Env Pos TT) (w : Bool) (st : Hpp.SearchType)
    (depth currEval : Int) (nt : Nat) (s : State TT) :
    fixedOf (Hpp.ttWrite env w st depth currEval nt s) = fixedOf s := by
  unfold Hpp.ttWrite
  split
  · rfl
  · split <;> rfl

theorem Hpp.makeMoveAndUpdateHash_fixedOf (env : Hpp.Env Pos TT) (w null : Bool) (m : Move)
    (b b1 : Pos) (s s1 : State TT)
    (h : Hpp.makeMoveAndUpdateHash env w null m b s = some (b1, s1)) :
    fixedOf s1 = fixedOf s ∧ b1 = env.makeMove w null b m := by
  unfold Hpp.makeMoveAndUpdateHash at h
  split at h
  · cases h
  · simp only [Option.some.injEq, Prod.mk.injEq] at h
    obtain ⟨h1, h2⟩ := h
    subst h1 h2
    exact ⟨by simp, rfl⟩

theorem Hpp.ok_inj {v w : Int} {b c : Pos} {s t : State TT}
    (h : (Res.ok v (b, s) : Res (Pos × State TT) Int) = Res.ok w (c, t)) :
    v = w ∧ b = c ∧ s = t := by
  simp only [Res.ok.injEq, Prod.mk.injEq] at h
  exact h

theorem Hpp.search_fixedOf (env : Hpp.Env Pos TT) (fuel : Nat) :
    (∀ w st pmn alpha beta depth b (s : State TT) v b1 s1,
      Hpp.alphaBetaSearch env fuel w st pmn alpha beta depth b s = Res.ok v (b1, s1) →
      fixedOf s1 = fixedOf s) ∧
    (∀ w st oldAlpha beta depth checkPos moves alpha currEval lmf b (s : State TT) v b1 s1,
      Hpp.searchLoop env fuel w st oldAlpha beta depth checkPos moves alpha currEval lmf b s =
        Res.ok v (b1, s1) →
      fixedOf s1 = fixedOf s) := by
  induction fuel with
  | zero =>
    constructor
    · intro w st pmn alpha beta depth b s v b1 s1 h
      rw [Hpp.alphaBetaSearch] at h
      cases h
    · intro w st oldAlpha beta depth checkPos moves alpha currEval lmf b s v b1 s1 h
      rw [Hpp.searchLoop] at h
      cases h
  | succ fuel ih =>
    obtain ⟨ihS, ihL⟩ := ih
    have hs1 : ∀ s : State TT, fixedOf (pollStop env.toAmbient (incNodes s)) = fixedOf s := by
      intro s; simp
    constructor
    · intro w st pmn alpha beta depth b s v b1 s1 h
      rw [Hpp.alphaBetaSearch] at h
      dsimp only at h
      by_cases h50 : env.ply50 b = 50
      · rw [if_pos h50] at h
        rw [← (Hpp.ok_inj h).2.2]; exact hs1 s
      rw [if_neg h50] at h
      by_cases hq : st = Hpp.SearchType.ABSearch ∧ depth ≤ 0
      · rw [if_pos hq] at h
        rw [ihS _ _ _ _ _ _ _ _ _ _ _ h]; exact hs1 s
      rw [if_neg hq] at h
      by_cases hc : st = Hpp.SearchType.QSearch ∧
          (if st = Hpp.SearchType.QSearch then env.evaluate w b else 0) > beta
      · rw [if_pos hc] at h
        rw [← (Hpp.ok_inj h).2.2]; exact hs1 s
      rw [if_neg hc] at h
      cases hp : Hpp.ttProbe env w (pollStop env.toAmbient (incNodes s))
          (if st = Hpp.SearchType.QSearch then
            max alpha (if st = Hpp.SearchType.QSearch then env.evaluate w b else 0)
           else alpha) beta depth with
      | some e =>
        rw [hp] at h
        rw [← (Hpp.ok_inj h).2.2]; exact hs1 s
      | none =>
        rw [hp] at h
        dsimp only at h
        by_cases hn : st = Hpp.SearchType.ABSearch ∧ pmn = false
        · rw [if_pos hn] at h
          cases hmk : Hpp.makeMoveAndUpdateHash env w true (env.getHeading b) b
              (pollStop env.toAmbient (incNodes s)) with
          | none => rw [hmk] at h; cases h
          | some p =>
            obtain ⟨b2, s2⟩ := p
            rw [hmk] at h
            dsimp only at h
            have hf2 := (Hpp.makeMoveAndUpdateHash_fixedOf env _ _ _ _ _ _ _ hmk).1
            cases hch : Hpp.alphaBetaSearch env fuel (!w) Hpp.SearchType.ABSearch true
                (-1 * beta)
                (-1 * (if st = Hpp.SearchType.QSearch then
                  max alpha (if st = Hpp.SearchType.QSearch then env.evaluate w b else 0)
                 else alpha)) (depth - 2) b2 s2 with
            | ok v3 p3 =>
              obtain ⟨b3, s3⟩ := p3
              rw [hch] at h
              dsimp only at h
              have hf3 := ihS _ _ _ _ _ _ _ _ _ _ _ hch
              by_cases hgt : max (if st = Hpp.SearchType.QSearch then
                    max alpha (if st = Hpp.SearchType.QSearch then env.evaluate w b else 0)
                   else alpha)
                  (max (if st = Hpp.SearchType.ABSearch then negInf
                    else (if st = Hpp.SearchType.QSearch then
                      max alpha (if st = Hpp.SearchType.QSearch then env.evaluate w b else 0)
                     else alpha)) (-1 * v3)) > beta
              · rw [if_pos hgt] at h
                rw [← (Hpp.ok_inj h).2.2, setHash_fixedOf, hf3, hf2]; exact hs1 s
              · rw [if_neg hgt] at h
                rw [ihL _ _ _ _ _ _ _ _ _ _ _ _ _ _ _ h, setHash_fixedOf, hf3, hf2]; exact hs1 s
            | timeout x => rw [hch] at h; cases h
            | nullTT => rw [hch] at h; cases h
            | noFuel => rw [hch] at h; cases h
        · rw [if_neg hn] at h
          rw [ihL _ _ _ _ _ _ _ _ _ _ _ _ _ _ _ h]; exact hs1 s
    · intro w st oldAlpha beta depth checkPos moves alpha currEval lmf b s v b1 s1 h
      have ht : fixedOf (testSearching env.toAmbient s).2 = fixedOf s := by simp
      cases moves with
      | nil =>
        rw [Hpp.searchLoop] at h
        unfold Hpp.finish at h
        rw [← (Hpp.ok_inj h).2.2, Hpp.ttWrite_fixedOf]
      | cons m rest =>
        rw [Hpp.searchLoop] at h
        dsimp only at h
        by_cases hfl : (!(testSearching env.toAmbient s).1) = true
        · rw [if_pos hfl] at h
          by_cases hab : st = Hpp.SearchType.ABSearch
          · rw [if_pos hab] at h
            rw [← (Hpp.ok_inj h).2.2]; exact ht
          · rw [if_neg hab] at h
            rw [← (Hpp.ok_inj h).2.2]; exact ht
        rw [if_neg hfl] at h
        by_cases hpr : st = Hpp.SearchType.QSearch ∧ checkPos + env.getCaptureValue m < alpha
        · rw [if_pos hpr] at h
          rw [ihL _ _ _ _ _ _ _ _ _ _ _ _ _ _ _ h]; exact ht
        rw [if_neg hpr] at h
        cases hmk : Hpp.makeMoveAndUpdateHash env w false m b (testSearching env.toAmbient s).2
          with
        | none => rw [hmk] at h; cases h
        | some p =>
          obtain ⟨b2, s2⟩ := p
          rw [hmk] at h
          dsimp only at h
          have hf2 := (Hpp.makeMoveAndUpdateHash_fixedOf env _ _ _ _ _ _ _ hmk).1
          cases hch : Hpp.alphaBetaSearch env fuel (!w) st false (-1 * beta) (-1 * alpha)
              (depth - 1) b2 s2 with
          | ok v3 p3 =>
            obtain ⟨b3, s3⟩ := p3
            rw [hch] at h
            dsimp only at h
            have hf3 := ihS _ _ _ _ _ _ _ _ _ _ _ hch
            by_cases hgt : max (max currEval (-1 * v3)) alpha > beta
            · rw [if_pos hgt] at h
              rw [← (Hpp.ok_inj h).2.2, Hpp.ttWrite_fixedOf, setHash_fixedOf, hf3, hf2]; exact ht
            · rw [if_neg hgt] at h
              rw [ihL _ _ _ _ _ _ _ _ _ _ _ _ _ _ _ h, setHash_fixedOf, hf3, hf2]; exact ht
          | timeout x => rw [hch] at h; cases h
          | nullTT => rw [hch] at h; cases h
          | noFuel => rw [hch] at h; cases h

theorem Hpp.mate_after_null (env : Hpp.Env Pos TT) (fuel : Nat) (wToMove : Bool)
    (alpha beta depth : Int) (b : Pos) (s : State TT) (b1 : Pos) (s2 : State TT) (v : Int)
    (b2 : Pos) (s3 : State TT)
    (hcheck : env.isInCheck wToMove b = true) (hmoves : env.genMoves wToMove b = [])
    (h50 : env.ply50 b ≠ 50) (hd : 1 ≤ depth)
    (htt : Hpp.ttProbe env wToMove s alpha beta depth = none)
    (hmk : Hpp.makeMoveAndUpdateHash env wToMove true (env.getHeading b) b
      (pollStop env.toAmbient (incNodes s)) = some (b1, s2))
    (hnull : Hpp.alphaBetaSearch env (fuel + 1) (!wToMove) Hpp.SearchType.ABSearch true
      (-1 * beta) (-1 * alpha) (depth - 2) b1 s2 = Res.ok v (b2, s3))
    (hun : env.unmakeMove wToMove true b2 (env.getHeading b) = b) :
    Hpp.alphaBetaSearch env (fuel + 2) wToMove Hpp.SearchType.ABSearch false alpha beta depth
        b s =
      if max alpha (max negInf (-1 * v)) > beta then
        Res.ok (max negInf (-1 * v)) (b, setHash s.hash s3)
      else
        Res.ok (negInf + Hpp.distance s.currIDdepth depth)
          (b, Hpp.ttWrite env wToMove Hpp.SearchType.ABSearch depth
            (negInf + Hpp.distance s.currIDdepth depth)
            (if max alpha (max negInf (-1 * v)) > alpha then 0 else 1) (setHash s.hash s3)) := by
  rw [Hpp.alphaBetaSearch]
  have hp : Hpp.ttProbe env wToMove (pollStop env.toAmbient (incNodes s)) alpha beta depth
      = none := by
    rw [Hpp.ttProbe_congr env wToMove (s := s) alpha beta depth (by simp) (by simp)]; exact htt
  have hf3 : fixedOf s3 = fixedOf s := by
    rw [(Hpp.search_fixedOf env (fuel + 1)).1 _ _ _ _ _ _ _ _ _ _ _ hnull,
      (Hpp.makeMoveAndUpdateHash_fixedOf env _ _ _ _ _ _ _ hmk).1]
    simp
  have hc : (setHash s.hash s3).currIDdepth = s.currIDdepth :=
    currIDdepth_of_fixedOf (by rw [setHash_fixedOf]; exact hf3)
  have hh : (pollStop env.toAmbient (incNodes s)).hash = s.hash := by simp
  have hnd : ¬ depth ≤ 0 := by omega
  simp only [h50, if_false, hnd, and_false, hp, hmoves, List.insertionSort, if_true,
    reduceCtorEq, false_and, and_self, hmk, hnull, hun, hh]
  by_cases hgt : max alpha (max negInf (-1 * v)) > beta
  · rw [if_pos hgt, if_pos hgt]
  · rw [if_neg hgt, if_neg hgt, Hpp.searchLoop]
    simp only [Hpp.finish, Bool.not_false, if_true, hcheck, hc]

/-! ## The root driver keeps the order of the root moves -/

theorem map_m_set (l : List ScoredMove) (i : Nat) (x : ScoredMove) (sc : Int)
    (h : l[i]? = some x) :
    (l.set i (ScoredMove.mk x.m sc)).map (fun y => y.m) = l.map (fun y => y.m) := by
  induction l generalizing i with
  | nil => simp
  | cons a l ih =>
    cases i with
    | zero =>
      simp only [List.getElem?_cons_zero, Option.some.injEq] at h
      simp [h]
    | succ j =>
      simp only [List.getElem?_cons_succ] at h
      simp [ih j h]

/-- Every state in which the loop over the root moves can end holds the root moves in the
order in which the loop found them. -/
theorem rootLoop_moves (env : Env Pos TT MO) (fuel : Nat) (b : Pos) (k : Nat) :
    ∀ (n i : Nat) (worstCase : Int) (pv : List Move) (s s1 : State TT),
      (rootLoop env fuel b k n i worstCase pv s).finalState? = some s1 →
      s1.rootMoves.map (fun y => y.m) = s.rootMoves.map (fun y => y.m) := by
  intro n
  induction n with
  | zero =>
    intro i worstCase pv s s1 h
    simp only [rootLoop, Res.finalState?, Option.some.injEq] at h
    rw [← h]
  | succ n ih =>
    intro i worstCase pv s s1 h
    rw [rootLoop] at h
    split at h
    · simp only [Res.finalState?, Option.some.injEq] at h
      rw [← h]
    rename_i x hx
    dsimp only at h
    split at h
    · simp only [Res.finalState?, Option.some.injEq] at h
      rw [← h]; rfl
    split at h
    · simp [Res.finalState?] at h
    split at h
    · rename_i hq
      obtain ⟨-, -, -, h4⟩ := Framed.ok_elim ((alphaBeta_framed env fuel).1 _ _ _ _ _ _ _) hq
      simp only [xorHash_fixedOf, pushMove_fixedOf, testSearching_fixedOf] at h4
      have hrm := rootMoves_of_fixedOf h4
      split at h
      · rw [ih _ _ _ _ _ h]
        show (List.set _ i _).map _ = _
        rw [hrm, map_m_set _ _ _ _ hx]
      · rw [ih _ _ _ _ _ h]
        show (List.set _ i _).map _ = _
        rw [hrm, map_m_set _ _ _ _ hx]
    · rename_i hq
      obtain ⟨-, -, h4⟩ := Framed.timeout_elim ((alphaBeta_framed env fuel).1 _ _ _ _ _ _ _) hq
      simp only [xorHash_fixedOf, pushMove_fixedOf, testSearching_fixedOf] at h4
      simp only [Res.finalState?, Option.some.injEq] at h
      rw [← h]
      show (popMove _).rootMoves.map _ = _
      rw [rootMoves_of_fixedOf (by simpa using h4)]
    · simp [Res.finalState?] at h
    · simp [Res.finalState?] at h


theorem iteration_stop_moves (env : Env Pos TT MO) (fuel : Nat) (b : Pos) (k : Nat)
    (s s2 : State TT) (h : iteration env fuel b k s = Res.timeout s2) :
    s2.rootMoves.map (fun y => y.m) = s.rootMoves.map (fun y => y.m) := by
  unfold iteration at h
  dsimp only at h
  split at h
  · simp at h
  · rename_i s3 hl
    simp only [Res.timeout.injEq] at h
    subst h
    have hm := rootLoop_moves env fuel b k _ _ _ _ _ s3 (by rw [hl]; rfl)
    exact hm
  · simp at h
  · simp at h

theorem iteration_ok_sorted (env : Env Pos TT MO) (fuel : Nat) (b : Pos) (k : Nat)
    (s s1 : State TT) (h : iteration env fuel b k s = Res.ok () s1) :
    ∃ s0 : State TT, s1.rootMoves = stableSortDesc s0.rootMoves := by
  unfold iteration at h
  dsimp only at h
  split at h
  · rename_i s3 hl
    simp only [Res.ok.injEq, true_and] at h
    exact ⟨s3, by rw [← h]; rfl⟩
  · simp at h
  · simp at h
  · simp at h

theorem stableSortDesc_head_max (l : List ScoredMove) (y : ScoredMove)
    (hy : (stableSortDesc l).head? = some y) :
    ∀ x ∈ stableSortDesc l, x.score ≤ y.score := by
  have hs : List.Sorted scoreGe (stableSortDesc l) :=
    @List.sorted_insertionSort _ scoreGe _ ⟨fun a b => le_total b.score a.score⟩
      ⟨fun a b c hab hbc => le_trans hbc hab⟩ l
  revert hy hs
  generalize stableSortDesc l = t
  intro hy hs x hx
  cases t with
  | nil => simp at hy
  | cons a rest =>
    simp only [List.head?_cons, Option.some.injEq] at hy
    subst hy
    rcases List.mem_cons.mp hx with rfl | hx
    · exact le_refl _
    · exact List.rel_of_sorted_cons hs x hx

theorem endsearch_bestmove (s : State TT) :
    (endsearch s).out.getLast? = some (Output.bestmove ((s.rootMoves.map (fun y => y.m)).head?)) := by
  simp [endsearch, List.head?_map]


/-! ## Truncation of rationals -/

theorem truncQ_div (a b : Int) (hb : 0 < b) : truncQ ((a : ℚ) / (b : ℚ)) = a.tdiv b := by
  obtain ⟨n, rfl⟩ := Int.eq_ofNat_of_zero_le hb.le
  have hbq : (0 : ℚ) < ((n : Int) : ℚ) := by exact_mod_cast hb
  unfold truncQ
  by_cases ha : 0 ≤ a
  · have hq : (0 : ℚ) ≤ (a : ℚ) / ((n : Int) : ℚ) := div_nonneg (by exact_mod_cast ha) hbq.le
    rw [if_pos hq, Int.tdiv_eq_ediv ha hb.le]
    have := Rat.floor_intCast_div_natCast a n
    simpa using this
  · have ha' : a < 0 := lt_of_not_ge ha
    have hq : ¬ (0 : ℚ) ≤ (a : ℚ) / ((n : Int) : ℚ) := by
      rw [not_le]
      exact div_neg_of_neg_of_pos (by exact_mod_cast ha') hbq
    rw [if_neg hq]
    have h1 : (a : ℚ) / ((n : Int) : ℚ) = -((((-a : Int)) : ℚ) / (n : ℚ)) := by
      push_cast; ring
    rw [h1, Int.ceil_neg, Rat.floor_intCast_div_natCast, ← Int.tdiv_eq_ediv (by omega) hb.le,
      Int.neg_tdiv, neg_neg]

theorem truncQ_intCast (c : Int) : truncQ (c : ℚ) = c := by
  have := truncQ_div c 1 one_pos
  simpa using this

/-! ## Double-precision rounding -/

theorem bitLengthAux_spec : ∀ (fuel n : Nat), n ≤ fuel → n ≠ 0 →
    2 ^ (bitLengthAux fuel n - 1) ≤ n ∧ n < 2 ^ bitLengthAux fuel n ∧
      1 ≤ bitLengthAux fuel n := by
  intro fuel
  induction fuel with
  | zero =>
    intro n h hn
    omega
  | succ fuel ih =>
    intro n h hn
    rw [bitLengthAux, if_neg hn]
    by_cases h2 : n / 2 = 0
    · have h1 : n = 1 := by omega
      subst h1
      cases fuel with
      | zero => simp [bitLengthAux]
      | succ f => simp [bitLengthAux]
    · obtain ⟨ha, hb, hc⟩ := ih (n / 2) (by omega) h2
      refine ⟨?_, ?_, by omega⟩
      · have : bitLengthAux fuel (n / 2) + 1 - 1 = (bitLengthAux fuel (n / 2) - 1) + 1 := by omega
        rw [this, pow_succ]
        omega
      · rw [pow_succ]
        omega

theorem bitLength_spec (n : Nat) (hn : n ≠ 0) :
    2 ^ (bitLength n - 1) ≤ n ∧ n < 2 ^ bitLength n ∧ 1 ≤ bitLength n :=
  bitLengthAux_spec n n (le_refl n) hn

theorem natCast_two_pow (k : Nat) : ((2 ^ k : Nat) : ℚ) = (2 : ℚ) ^ (k : Int) := by
  push_cast
  rw [zpow_natCast]

theorem binade_spec (n : Int) (d : Nat) (hn : n ≠ 0) (hd : d ≠ 0) :
    (2 : ℚ) ^ binade n d ≤ (n.natAbs : ℚ) / d ∧
      (n.natAbs : ℚ) / d < (2 : ℚ) ^ (binade n d + 1) := by
  have ha0 : n.natAbs ≠ 0 := Int.natAbs_ne_zero.mpr hn
  obtain ⟨a1, a2, a3⟩ := bitLength_spec n.natAbs ha0
  obtain ⟨d1, d2, d3⟩ := bitLength_spec d hd
  have hD : (0 : ℚ) < (d : ℚ) := by exact_mod_cast Nat.pos_of_ne_zero hd
  have hA : (0 : ℚ) < (n.natAbs : ℚ) := by exact_mod_cast Nat.pos_of_ne_zero ha0
  have two_pos : ∀ z : Int, (0 : ℚ) < (2 : ℚ) ^ z := fun z => zpow_pos (by norm_num) z
  have qa1 : (2 : ℚ) ^ ((bitLength n.natAbs : Int) - 1) ≤ (n.natAbs : ℚ) := by
    have h : ((2 ^ (bitLength n.natAbs - 1) : Nat) : ℚ) ≤ (n.natAbs : ℚ) := by exact_mod_cast a1
    rw [natCast_two_pow] at h
    have hc : ((bitLength n.natAbs - 1 : Nat) : Int) = (bitLength n.natAbs : Int) - 1 := by
      omega
    rw [hc] at h
    exact h
  have qa2 : (n.natAbs : ℚ) < (2 : ℚ) ^ (bitLength n.natAbs : Int) := by
    have h : (n.natAbs : ℚ) < ((2 ^ bitLength n.natAbs : Nat) : ℚ) := by exact_mod_cast a2
    rw [natCast_two_pow] at h
    exact h
  have qd1 : (2 : ℚ) ^ ((bitLength d : Int) - 1) ≤ (d : ℚ) := by
    have h : ((2 ^ (bitLength d - 1) : Nat) : ℚ) ≤ (d : ℚ) := by exact_mod_cast d1
    rw [natCast_two_pow] at h
    have hc : ((bitLength d - 1 : Nat) : Int) = (bitLength d : Int) - 1 := by omega
    rw [hc] at h
    exact h
  have qd2 : (d : ℚ) < (2 : ℚ) ^ (bitLength d : Int) := by
    have h : (d : ℚ) < ((2 ^ bitLength d : Nat) : ℚ) := by exact_mod_cast d2
    rw [natCast_two_pow] at h
    exact h
  have hup : (n.natAbs : ℚ) / d <
      (2 : ℚ) ^ ((bitLength n.natAbs : Int) - (bitLength d : Int) + 1) := by
    rw [div_lt_iff₀ hD]
    calc (n.natAbs : ℚ) < (2 : ℚ) ^ (bitLength n.natAbs : Int) := qa2
      _ = (2 : ℚ) ^ ((bitLength n.natAbs : Int) - (bitLength d : Int) + 1) *
            (2 : ℚ) ^ ((bitLength d : Int) - 1) := by
          rw [← zpow_add₀ (by norm_num : (2 : ℚ) ≠ 0)]
          congr 1
          ring
      _ ≤ (2 : ℚ) ^ ((bitLength n.natAbs : Int) - (bitLength d : Int) + 1) * (d : ℚ) :=
          mul_le_mul_of_nonneg_left qd1 (two_pos _).le
  have hlow : (2 : ℚ) ^ ((bitLength n.natAbs : Int) - (bitLength d : Int) - 1) ≤
      (n.natAbs : ℚ) / d := by
    rw [le_div_iff₀ hD]
    calc (2 : ℚ) ^ ((bitLength n.natAbs : Int) - (bitLength d : Int) - 1) * (d : ℚ)
        ≤ (2 : ℚ) ^ ((bitLength n.natAbs : Int) - (bitLength d : Int) - 1) *
            (2 : ℚ) ^ (bitLength d : Int) :=
          mul_le_mul_of_nonneg_left qd2.le (two_pos _).le
      _ = (2 : ℚ) ^ ((bitLength n.natAbs : Int) - 1) := by
          rw [← zpow_add₀ (by norm_num : (2 : ℚ) ≠ 0)]
          congr 1
          ring
      _ ≤ (n.natAbs : ℚ) := qa1
  have hcmp : (if 0 ≤ (bitLength n.natAbs : Int) - (bitLength d : Int) then
        2 ^ ((bitLength n.natAbs : Int) - (bitLength d : Int)).toNat * d ≤ n.natAbs
      else d ≤ 2 ^ (-((bitLength n.natAbs : Int) - (bitLength d : Int))).toNat * n.natAbs) ↔
      (2 : ℚ) ^ ((bitLength n.natAbs : Int) - (bitLength d : Int)) ≤ (n.natAbs : ℚ) / d := by
    rw [le_div_iff₀ hD]
    by_cases h0 : 0 ≤ (bitLength n.natAbs : Int) - (bitLength d : Int)
    · rw [if_pos h0]
      have hz : (2 : ℚ) ^ ((bitLength n.natAbs : Int) - (bitLength d : Int)) =
          ((2 ^ ((bitLength n.natAbs : Int) - (bitLength d : Int)).toNat : Nat) : ℚ) := by
        rw [natCast_two_pow, Int.toNat_of_nonneg h0]
      rw [hz]
      constructor
      · intro h; exact_mod_cast h
      · intro h; exact_mod_cast h
    · rw [if_neg h0]
      have hneg : 0 ≤ -((bitLength n.natAbs : Int) - (bitLength d : Int)) := by omega
      have hz : (2 : ℚ) ^ ((bitLength n.natAbs : Int) - (bitLength d : Int)) =
          (((2 ^ (-((bitLength n.natAbs : Int) - (bitLength d : Int))).toNat : Nat) : ℚ))⁻¹ := by
        rw [natCast_two_pow, Int.toNat_of_nonneg hneg, ← zpow_neg, neg_neg]
      have hpos : (0 : ℚ) <
          ((2 ^ (-((bitLength n.natAbs : Int) - (bitLength d : Int))).toNat : Nat) : ℚ) := by
        positivity
      rw [hz, inv_mul_le_iff₀ hpos]
      constructor
      · intro h; exact_mod_cast h
      · intro h; exact_mod_cast h
  unfold binade
  dsimp only
  by_cases hc : (if 0 ≤ (bitLength n.natAbs : Int) - (bitLength d : Int) then
        2 ^ ((bitLength n.natAbs : Int) - (bitLength d : Int)).toNat * d ≤ n.natAbs
      else d ≤ 2 ^ (-((bitLength n.natAbs : Int) - (bitLength d : Int))).toNat * n.natAbs)
  · rw [if_pos hc]
    exact ⟨hcmp.mp hc, hup⟩
  · rw [if_neg hc]
    refine ⟨hlow, ?_⟩
    have := lt_of_not_ge (fun h => hc (hcmp.mpr h))
    rw [sub_add_cancel]
    exact this

theorem roundHalfEven_cases (n : Int) (d : Nat) :
    (2 * (n % (d : Int)) < d ∧ roundHalfEven n d = n / (d : Int)) ∨
    ((d : Int) < 2 * (n % (d : Int)) ∧ roundHalfEven n d = n / (d : Int) + 1) ∨
    (2 * (n % (d : Int)) = d ∧
      (roundHalfEven n d = n / (d : Int) ∨ roundHalfEven n d = n / (d : Int) + 1)) := by
  unfold roundHalfEven
  dsimp only
  by_cases h1 : 2 * (n % (d : Int)) < d
  · left
    rw [if_pos h1]
    exact ⟨h1, rfl⟩
  · rw [if_neg h1]
    by_cases h2 : (d : Int) < 2 * (n % (d : Int))
    · right; left
      rw [if_pos h2]
      exact ⟨h2, rfl⟩
    · right; right
      rw [if_neg h2]
      refine ⟨by omega, ?_⟩
      by_cases h3 : n / (d : Int) % 2 = 0
      · left; rw [if_pos h3]
      · right; rw [if_neg h3]

theorem roundHalfEven_eq (n k : Int) (d : Nat) (hd : 0 < d)
    (h1 : 2 * n - 2 * k * d < d) (h2 : -(d : Int) < 2 * n - 2 * k * d) :
    roundHalfEven n d = k := by
  have hdz : (0 : Int) < (d : Int) := by exact_mod_cast hd
  have hn : (d : Int) * (n / (d : Int)) + n % (d : Int) = n := Int.ediv_add_emod n d
  have hr0 : 0 ≤ n % (d : Int) := Int.emod_nonneg n (by omega)
  have hr1 : n % (d : Int) < d := Int.emod_lt_of_pos n hdz
  have hle : n / (d : Int) ≤ k := by
    by_contra hc
    have hc : k + 1 ≤ n / (d : Int) := by omega
    have : (d : Int) * (k + 1) ≤ (d : Int) * (n / (d : Int)) :=
      mul_le_mul_of_nonneg_left hc hdz.le
    nlinarith
  have hge : k - 1 ≤ n / (d : Int) := by
    by_contra hc
    have hc : n / (d : Int) ≤ k - 2 := by omega
    have : (d : Int) * (n / (d : Int)) ≤ (d : Int) * (k - 2) :=
      mul_le_mul_of_nonneg_left hc hdz.le
    nlinarith
  rcases roundHalfEven_cases n d with ⟨hc, he⟩ | ⟨hc, he⟩ | ⟨hc, he⟩
  · rw [he]
    by_contra hne
    have hf : n / (d : Int) = k - 1 := by omega
    rw [hf] at hn
    nlinarith
  · rw [he]
    by_contra hne
    have hf : n / (d : Int) = k := by omega
    rw [hf] at hn
    nlinarith
  · exfalso
    rcases (by omega : n / (d : Int) = k ∨ n / (d : Int) = k - 1) with hf | hf
    · rw [hf] at hn; nlinarith
    · rw [hf] at hn; nlinarith

theorem roundHalfEven_err (n : Int) (d : Nat) (hd : 0 < d) :
    |(roundHalfEven n d : ℚ) - (n : ℚ) / d| ≤ 1 / 2 := by
  have hdz : (0 : Int) < (d : Int) := by exact_mod_cast hd
  have hdq : (0 : ℚ) < (d : ℚ) := by exact_mod_cast hd
  have hn : (d : Int) * (n / (d : Int)) + n % (d : Int) = n := Int.ediv_add_emod n d
  have hr0 : 0 ≤ n % (d : Int) := Int.emod_nonneg n (by omega)
  have hr1 : n % (d : Int) < d := Int.emod_lt_of_pos n hdz
  have hnq : (n : ℚ) / d = ((n / (d : Int) : Int) : ℚ) + ((n % (d : Int) : Int) : ℚ) / d := by
    have : (n : ℚ) = (d : ℚ) * ((n / (d : Int) : Int) : ℚ) + ((n % (d : Int) : Int) : ℚ) := by
      exact_mod_cast hn.symm
    field_simp
    linarith
  have hrq0 : (0 : ℚ) ≤ ((n % (d : Int) : Int) : ℚ) / d :=
    div_nonneg (by exact_mod_cast hr0) hdq.le
  have hrq1 : ((n % (d : Int) : Int) : ℚ) / d < 1 := by
    rw [div_lt_one hdq]
    exact_mod_cast hr1
  rw [abs_le]
  rcases roundHalfEven_cases n d with ⟨hc, he⟩ | ⟨hc, he⟩ | ⟨hc, he | he⟩
  · have hh : ((n % (d : Int) : Int) : ℚ) / d < 1 / 2 := by
      rw [div_lt_iff₀ hdq]
      have : (2 : ℚ) * ((n % (d : Int) : Int) : ℚ) < (d : ℚ) := by exact_mod_cast hc
      linarith
    rw [he, hnq]
    constructor <;> linarith
  · have hh : 1 / 2 < ((n % (d : Int) : Int) : ℚ) / d := by
      rw [lt_div_iff₀ hdq]
      have : (d : ℚ) < (2 : ℚ) * ((n % (d : Int) : Int) : ℚ) := by exact_mod_cast hc
      linarith
    rw [he, hnq]
    push_cast
    constructor <;> linarith
  · have hh : ((n % (d : Int) : Int) : ℚ) / d = 1 / 2 := by
      rw [div_eq_iff hdq.ne']
      have : (2 : ℚ) * ((n % (d : Int) : Int) : ℚ) = (d : ℚ) := by exact_mod_cast hc
      linarith
    rw [he, hnq]
    constructor <;> linarith
  · have hh : ((n % (d : Int) : Int) : ℚ) / d = 1 / 2 := by
      rw [div_eq_iff hdq.ne']
      have : (2 : ℚ) * ((n % (d : Int) : Int) : ℚ) = (d : ℚ) := by exact_mod_cast hc
      linarith
    rw [he, hnq]
    push_cast
    constructor <;> linarith

theorem roundHalfEven_near (n k : Int) (d : Nat) (hd : 0 < d)
    (h : |(n : ℚ) / d - (k : ℚ)| < 1 / 2) : roundHalfEven n d = k := by
  have hdq : (0 : ℚ) < (d : ℚ) := by exact_mod_cast hd
  rw [abs_lt] at h
  obtain ⟨h1, h2⟩ := h
  have e : (n : ℚ) / d - k = ((n : ℚ) - k * d) / d := by
    field_simp
    ring
  rw [e] at h1 h2
  rw [lt_div_iff₀ hdq] at h1
  rw [div_lt_iff₀ hdq] at h2
  apply roundHalfEven_eq n k d hd
  · have : (2 : ℚ) * n - 2 * k * d < d := by linarith
    exact_mod_cast this
  · have : -(d : ℚ) < (2 : ℚ) * n - 2 * k * d := by linarith
    exact_mod_cast this

theorem roundFrac_zero (d : Nat) : roundFrac 0 d = Dbl.mk 0 0 := by
  unfold roundFrac
  rw [if_pos rfl]

theorem natAbs_cast_rat (n : Int) : ((n.natAbs : Nat) : ℚ) = |(n : ℚ)| := by
  rw [Nat.cast_natAbs, Int.cast_abs]

theorem roundFrac_mant (n : Int) (d : Nat) (hn : n ≠ 0) (hd : 0 < d) :
    ∃ (N : Int) (D : Nat), 0 < D ∧
      (N : ℚ) / D = (n : ℚ) / d / (2 : ℚ) ^ (binade n d - 52) ∧
      roundFrac n d = Dbl.mk (roundHalfEven N D) (binade n d - 52) := by
  have hdq : (0 : ℚ) < (d : ℚ) := by exact_mod_cast hd
  unfold roundFrac
  rw [if_neg hn]
  dsimp only
  by_cases hg : 0 ≤ binade n d - 52
  · rw [if_pos hg]
    refine ⟨n, d * 2 ^ (binade n d - 52).toNat, Nat.mul_pos hd ((by positivity)), ?_, rfl⟩
    have e : (2 : ℚ) ^ (binade n d - 52) = (2 : ℚ) ^ (binade n d - 52).toNat := by
      rw [← zpow_natCast, Int.toNat_of_nonneg hg]
    rw [e]
    push_cast
    rw [div_div]
  · rw [if_neg hg]
    refine ⟨n * 2 ^ (-(binade n d - 52)).toNat, d, hd, ?_, rfl⟩
    have e : (2 : ℚ) ^ (binade n d - 52) = ((2 : ℚ) ^ (-(binade n d - 52)).toNat)⁻¹ := by
      rw [← zpow_natCast, Int.toNat_of_nonneg (by omega), zpow_neg, inv_inv]
    rw [e]
    push_cast
    field_simp

theorem roundFrac_scaled (n : Int) (d : Nat) (hn : n ≠ 0) (hd : 0 < d) :
    (2 : ℚ) ^ 52 ≤ |(n : ℚ) / d| / (2 : ℚ) ^ (binade n d - 52) ∧
    |(n : ℚ) / d| / (2 : ℚ) ^ (binade n d - 52) < (2 : ℚ) ^ 53 := by
  have hdq : (0 : ℚ) < (d : ℚ) := by exact_mod_cast hd
  have hb := binade_spec n d hn (by omega)
  have habs : |(n : ℚ) / d| = (n.natAbs : ℚ) / d := by
    rw [abs_div, abs_of_pos hdq, natAbs_cast_rat]
  have hpos : (0 : ℚ) < (2 : ℚ) ^ (binade n d - 52) := zpow_pos (by norm_num) _
  have e1 : (2 : ℚ) ^ (binade n d) = (2 : ℚ) ^ 52 * (2 : ℚ) ^ (binade n d - 52) := by
    have : (2 : ℚ) ^ 52 = (2 : ℚ) ^ (52 : Int) := by norm_cast
    rw [this, ← zpow_add₀ (by norm_num : (2 : ℚ) ≠ 0)]
    congr 1
    ring
  have e2 : (2 : ℚ) ^ (binade n d + 1) = (2 : ℚ) ^ 53 * (2 : ℚ) ^ (binade n d - 52) := by
    have : (2 : ℚ) ^ 53 = (2 : ℚ) ^ (53 : Int) := by norm_cast
    rw [this, ← zpow_add₀ (by norm_num : (2 : ℚ) ≠ 0)]
    congr 1
    ring
  rw [habs]
  constructor
  · rw [le_div_iff₀ hpos, ← e1]
    exact hb.1
  · rw [div_lt_iff₀ hpos, ← e2]
    exact hb.2

theorem roundFrac_near (n : Int) (d : Nat) (hn : n ≠ 0) (hd : 0 < d) (k : Int)
    (h : |(n : ℚ) / d / (2 : ℚ) ^ (binade n d - 52) - (k : ℚ)| < 1 / 2) :
    (roundFrac n d).toRat = (k : ℚ) * (2 : ℚ) ^ (binade n d - 52) := by
  obtain ⟨N, D, hD, hND, he⟩ := roundFrac_mant n d hn hd
  rw [← hND] at h
  rw [he, Dbl.toRat, roundHalfEven_near N k D hD h]

theorem roundFrac_err (n : Int) (d : Nat) (hd : 0 < d) :
    |(roundFrac n d).toRat - (n : ℚ) / d| ≤ |(n : ℚ) / d| / 2 ^ 53 := by
  by_cases hn : n = 0
  · subst hn
    rw [roundFrac_zero]
    simp [Dbl.toRat]
  obtain ⟨N, D, hD, hND, he⟩ := roundFrac_mant n d hn hd
  have hs := (roundFrac_scaled n d hn hd).1
  have hr := roundHalfEven_err N D hD
  have hpos : (0 : ℚ) < (2 : ℚ) ^ (binade n d - 52) := zpow_pos (by norm_num) _
  rw [hND] at hr
  rw [he, Dbl.toRat]
  dsimp only
  have e : ((roundHalfEven N D : Int) : ℚ) * (2 : ℚ) ^ (binade n d - 52) - (n : ℚ) / d
      = (((roundHalfEven N D : Int) : ℚ) - (n : ℚ) / d / (2 : ℚ) ^ (binade n d - 52))
        * (2 : ℚ) ^ (binade n d - 52) := by
    field_simp
    ring
  rw [e, abs_mul, abs_of_pos hpos]
  rw [le_div_iff₀ hpos] at hs
  have h1 : |((roundHalfEven N D : Int) : ℚ) - (n : ℚ) / d / (2 : ℚ) ^ (binade n d - 52)|
      * (2 : ℚ) ^ (binade n d - 52) ≤ 1 / 2 * (2 : ℚ) ^ (binade n d - 52) :=
    mul_le_mul_of_nonneg_right hr hpos.le
  rw [le_div_iff₀ (by norm_num)]
  have h53 : (2 : ℚ) ^ 53 = 2 * 2 ^ 52 := by norm_num
  rw [h53]
  nlinarith

theorem roundFrac_exact (n : Int) (d : Nat) (hd : 0 < d) (z : Int)
    (hlt : |(n : ℚ) / d| < 2 ^ 53)
    (h : |(n : ℚ) / d - (z : ℚ)| ≤ |(n : ℚ) / d| / 2 ^ 54) :
    (roundFrac n d).toRat = (z : ℚ) := by
  have hdq : (0 : ℚ) < (d : ℚ) := by exact_mod_cast hd
  by_cases hn : n = 0
  · subst hn
    rw [roundFrac_zero]
    simp only [Int.cast_zero, zero_div, abs_zero, zero_sub, abs_neg] at h
    have : |(z : ℚ)| = 0 := le_antisymm h (abs_nonneg _)
    rw [abs_eq_zero] at this
    rw [this]
    simp [Dbl.toRat]
  have hs := roundFrac_scaled n d hn hd
  have hpos : (0 : ℚ) < (2 : ℚ) ^ (binade n d - 52) := zpow_pos (by norm_num) _
  have hg : binade n d - 52 ≤ 0 := by
    by_contra hc
    have hc : 1 ≤ binade n d - 52 := by omega
    have : (2 : ℚ) ^ (1 : Int) ≤ (2 : ℚ) ^ (binade n d - 52) :=
      zpow_le_zpow_right₀ (by norm_num) hc
    have h2 := hs.1
    rw [le_div_iff₀ hpos] at h2
    norm_num at this
    nlinarith
  have e : (2 : ℚ) ^ (binade n d - 52) = ((2 : ℚ) ^ (-(binade n d - 52)).toNat)⁻¹ := by
    rw [← zpow_natCast, Int.toNat_of_nonneg (by omega), zpow_neg, inv_inv]
  have hp2 : (0 : ℚ) < (2 : ℚ) ^ (-(binade n d - 52)).toNat := by positivity
  have key := roundFrac_near n d hn hd (z * 2 ^ (-(binade n d - 52)).toNat) (by
    have h2 := hs.2
    rw [e] at h2 ⊢
    push_cast
    rw [div_inv_eq_mul] at h2 ⊢
    rw [← sub_mul, abs_mul, abs_of_pos hp2]
    have h3 : |(n : ℚ) / d - (z : ℚ)| * (2 : ℚ) ^ (-(binade n d - 52)).toNat
        ≤ |(n : ℚ) / d| / 2 ^ 54 * (2 : ℚ) ^ (-(binade n d - 52)).toNat :=
      mul_le_mul_of_nonneg_right h hp2.le
    have h4 : |(n : ℚ) / d| / 2 ^ 54 * (2 : ℚ) ^ (-(binade n d - 52)).toNat
        = |(n : ℚ) / d| * (2 : ℚ) ^ (-(binade n d - 52)).toNat / 2 ^ 54 := by ring
    rw [h4] at h3
    have h5 : |(n : ℚ) / d| * (2 : ℚ) ^ (-(binade n d - 52)).toNat / 2 ^ 54 < 1 / 2 := by
      rw [div_lt_iff₀ (by norm_num)]
      have : (1 / 2 : ℚ) * 2 ^ 54 = 2 ^ 53 := by norm_num
      rw [this]
      exact h2
    linarith)
  rw [key, e]
  push_cast
  field_simp

theorem zpow_toNat (e : Int) (he : 0 ≤ e) : (2 : ℚ) ^ e.toNat = (2 : ℚ) ^ e := by
  rw [← zpow_natCast, Int.toNat_of_nonneg he]

theorem zpow_toNat_neg (e : Int) (he : e ≤ 0) : (2 : ℚ) ^ (-e).toNat = ((2 : ℚ) ^ e)⁻¹ := by
  rw [← zpow_natCast, Int.toNat_of_nonneg (by omega), zpow_neg]

theorem roundDyadic_round (m e : Int) :
    ∃ (n : Int) (d : Nat), 0 < d ∧ (n : ℚ) / d = (m : ℚ) * (2 : ℚ) ^ e ∧
      roundDyadic m e = roundFrac n d := by
  unfold roundDyadic
  by_cases he : 0 ≤ e
  · rw [if_pos he]
    refine ⟨m * 2 ^ e.toNat, 1, one_pos, ?_, rfl⟩
    push_cast
    rw [zpow_toNat e he, div_one]
  · rw [if_neg he]
    refine ⟨m, 2 ^ (-e).toNat, by positivity, ?_, rfl⟩
    push_cast
    rw [zpow_toNat_neg e (by omega), div_inv_eq_mul]

theorem Dbl.ofInt_round (z : Int) :
    ∃ (n : Int) (d : Nat), 0 < d ∧ (n : ℚ) / d = (z : ℚ) ∧ Dbl.ofInt z = roundFrac n d :=
  ⟨z, 1, one_pos, by simp, rfl⟩

theorem Dbl.mul_round (x y : Dbl) :
    ∃ (n : Int) (d : Nat), 0 < d ∧ (n : ℚ) / d = x.toRat * y.toRat ∧
      Dbl.mul x y = roundFrac n d := by
  obtain ⟨n, d, hd, hq, he⟩ := roundDyadic_round (x.mant * y.mant) (x.exp + y.exp)
  refine ⟨n, d, hd, ?_, he⟩
  rw [hq, Dbl.toRat, Dbl.toRat, zpow_add₀ (by norm_num : (2 : ℚ) ≠ 0)]
  push_cast
  ring

theorem Dbl.add_round (x y : Dbl) :
    ∃ (n : Int) (d : Nat), 0 < d ∧ (n : ℚ) / d = x.toRat + y.toRat ∧
      Dbl.add x y = roundFrac n d := by
  obtain ⟨n, d, hd, hq, he⟩ := roundDyadic_round
    (x.mant * 2 ^ (x.exp - min x.exp y.exp).toNat + y.mant * 2 ^ (y.exp - min x.exp y.exp).toNat)
    (min x.exp y.exp)
  refine ⟨n, d, hd, ?_, he⟩
  have h1 : (0 : Int) ≤ x.exp - min x.exp y.exp := by
    have := min_le_left x.exp y.exp
    omega
  have h2 : (0 : Int) ≤ y.exp - min x.exp y.exp := by
    have := min_le_right x.exp y.exp
    omega
  rw [hq, Dbl.toRat, Dbl.toRat]
  push_cast
  rw [zpow_toNat _ h1, zpow_toNat _ h2, add_mul, mul_assoc, mul_assoc,
    ← zpow_add₀ (by norm_num : (2 : ℚ) ≠ 0), ← zpow_add₀ (by norm_num : (2 : ℚ) ≠ 0)]
  congr 3 <;> ring

theorem sign_div_natAbs (a : Int) (ha : a ≠ 0) :
    ((a.sign : Int) : ℚ) / ((a.natAbs : Nat) : ℚ) = 1 / (a : ℚ) := by
  rw [natAbs_cast_rat]
  rcases lt_or_gt_of_ne ha with h | h
  · have hq : (a : ℚ) < 0 := by exact_mod_cast h
    rw [Int.sign_eq_neg_one_of_neg h, abs_of_neg hq]
    push_cast
    rw [neg_div_neg_eq]
  · have hq : (0 : ℚ) < (a : ℚ) := by exact_mod_cast h
    rw [Int.sign_eq_one_of_pos h, abs_of_pos hq]
    push_cast
    rfl

theorem Dbl.div_round (x y : Dbl) (hy : y.mant ≠ 0) :
    ∃ (n : Int) (d : Nat), 0 < d ∧ (n : ℚ) / d = x.toRat / y.toRat ∧
      Dbl.div x y = roundFrac n d := by
  have hyq : (y.mant : ℚ) ≠ 0 := by exact_mod_cast hy
  have hna : 0 < y.mant.natAbs := Int.natAbs_pos.mpr hy
  have hs := sign_div_natAbs y.mant hy
  have hnq : ((y.mant.natAbs : Nat) : ℚ) ≠ 0 := by
    have : (0 : ℚ) < ((y.mant.natAbs : Nat) : ℚ) := by exact_mod_cast hna
    exact this.ne'
  have hp : (2 : ℚ) ^ y.exp ≠ 0 := (zpow_pos (by norm_num) _).ne'
  have hx : (2 : ℚ) ^ x.exp = (2 : ℚ) ^ (x.exp - y.exp) * (2 : ℚ) ^ y.exp := by
    rw [← zpow_add₀ (by norm_num : (2 : ℚ) ≠ 0)]
    congr 1
    ring
  unfold Dbl.div
  dsimp only
  by_cases hk : 0 ≤ x.exp - y.exp
  · rw [if_pos hk]
    refine ⟨_, _, hna, ?_, rfl⟩
    push_cast
    rw [zpow_toNat _ hk, Dbl.toRat, Dbl.toRat, hx]
    have e : ((y.mant.sign : Int) : ℚ) * (x.mant : ℚ) * (2 : ℚ) ^ (x.exp - y.exp)
          / ((y.mant.natAbs : Nat) : ℚ)
        = ((y.mant.sign : Int) : ℚ) / ((y.mant.natAbs : Nat) : ℚ)
          * ((x.mant : ℚ) * (2 : ℚ) ^ (x.exp - y.exp)) := by
      field_simp
      ring
    rw [e, hs]
    field_simp
    ring
  · rw [if_neg hk]
    refine ⟨_, _, Nat.mul_pos hna (by positivity), ?_, rfl⟩
    push_cast
    rw [zpow_toNat_neg _ (by omega), Dbl.toRat, Dbl.toRat, hx]
    have hp2 : (2 : ℚ) ^ (x.exp - y.exp) ≠ 0 := (zpow_pos (by norm_num) _).ne'
    have e : ((y.mant.sign : Int) : ℚ) * (x.mant : ℚ)
          / (((y.mant.natAbs : Nat) : ℚ) * ((2 : ℚ) ^ (x.exp - y.exp))⁻¹)
        = ((y.mant.sign : Int) : ℚ) / ((y.mant.natAbs : Nat) : ℚ)
          * ((x.mant : ℚ) * (2 : ℚ) ^ (x.exp - y.exp)) := by
      field_simp
      ring
    rw [e, hs]
    field_simp
    ring

theorem round_err {x : Dbl} {q : ℚ}
    (h : ∃ (n : Int) (d : Nat), 0 < d ∧ (n : ℚ) / d = q ∧ x = roundFrac n d) :
    |x.toRat - q| ≤ |q| / 2 ^ 53 := by
  obtain ⟨n, d, hd, hq, he⟩ := h
  rw [he, ← hq]
  exact roundFrac_err n d hd

theorem round_exact {x : Dbl} {q : ℚ}
    (h : ∃ (n : Int) (d : Nat), 0 < d ∧ (n : ℚ) / d = q ∧ x = roundFrac n d) (z : Int)
    (hlt : |q| < 2 ^ 53) (hz : |q - (z : ℚ)| ≤ |q| / 2 ^ 54) : x.toRat = (z : ℚ) := by
  obtain ⟨n, d, hd, hq, he⟩ := h
  rw [he]
  rw [← hq] at hlt hz
  exact roundFrac_exact n d hd z hlt hz

theorem Dbl.ofInt_toRat (z : Int) (hz : |(z : ℚ)| < 2 ^ 53) : (Dbl.ofInt z).toRat = (z : ℚ) :=
  round_exact (Dbl.ofInt_round z) z hz (by
    rw [sub_self, abs_zero]
    positivity)

theorem mant_ne_zero_of_toRat {x : Dbl} (h : x.toRat ≠ 0) : x.mant ≠ 0 := by
  intro h0
  apply h
  rw [Dbl.toRat, h0]
  simp

theorem castms_eq (x : Dbl) : castms x = truncQ x.toRat := by
  unfold castms Dbl.toRat
  by_cases he : 0 ≤ x.exp
  · rw [if_pos he]
    have : (x.mant : ℚ) * (2 : ℚ) ^ x.exp = ((x.mant * 2 ^ x.exp.toNat : Int) : ℚ) := by
      push_cast
      rw [zpow_toNat _ he]
    rw [this, truncQ_intCast]
  · rw [if_neg he]
    have : (x.mant : ℚ) * (2 : ℚ) ^ x.exp
        = (x.mant : ℚ) / (((2 : Int) ^ (-x.exp).toNat : Int) : ℚ) := by
      push_cast
      rw [zpow_toNat_neg _ (by omega), div_inv_eq_mul]
    rw [this, truncQ_div _ _ (by positivity)]

theorem truncQ_stable (M D : Int) (hD : 0 < D) (r : ℚ) (hnd : ¬ D ∣ M)
    (h : |r - (M : ℚ) / D| < 1 / D) : truncQ r = truncQ ((M : ℚ) / D) := by
  have hDq : (0 : ℚ) < (D : ℚ) := by exact_mod_cast hD
  rw [abs_lt] at h
  obtain ⟨h1, h2⟩ := h
  have hM : M ≠ 0 := by
    intro h0
    apply hnd
    rw [h0]
    exact dvd_zero D
  rcases lt_or_gt_of_ne hM with hneg | hpos
  · have hq : (M : ℚ) / D < 0 := div_neg_of_neg_of_pos (by exact_mod_cast hneg) hDq
    have hc1 : ((⌈(M : ℚ) / D⌉ : Int) : ℚ) - 1 < (M : ℚ) / D := by
      have := Int.ceil_lt_add_one ((M : ℚ) / D)
      linarith
    have hc2 : (M : ℚ) / D ≤ ((⌈(M : ℚ) / D⌉ : Int) : ℚ) := Int.le_ceil _
    have hc0 : ⌈(M : ℚ) / D⌉ ≤ 0 := Int.ceil_le.mpr (by simpa using hq.le)
    rw [lt_div_iff₀ hDq] at hc1
    rw [div_le_iff₀ hDq] at hc2
    have i1 : (⌈(M : ℚ) / D⌉ - 1) * D < M := by exact_mod_cast hc1
    have i2 : M ≤ ⌈(M : ℚ) / D⌉ * D := by exact_mod_cast hc2
    have i3 : M ≠ ⌈(M : ℚ) / D⌉ * D := by
      intro he
      apply hnd
      exact Dvd.intro_left _ he.symm
    have j1 : (⌈(M : ℚ) / D⌉ - 1) * D + 1 ≤ M := by omega
    have j2 : M + 1 ≤ ⌈(M : ℚ) / D⌉ * D := by omega
    have k1 : ((⌈(M : ℚ) / D⌉ : Int) : ℚ) - 1 + 1 / D ≤ (M : ℚ) / D := by
      have : (((⌈(M : ℚ) / D⌉ : Int) : ℚ) - 1) * D + 1 ≤ (M : ℚ) := by exact_mod_cast j1
      rw [le_div_iff₀ hDq, add_mul, one_div, inv_mul_cancel₀ hDq.ne']
      exact this
    have k2 : (M : ℚ) / D + 1 / D ≤ ((⌈(M : ℚ) / D⌉ : Int) : ℚ) := by
      have : (M : ℚ) + 1 ≤ ((⌈(M : ℚ) / D⌉ : Int) : ℚ) * D := by exact_mod_cast j2
      rw [← add_div, div_le_iff₀ hDq]
      exact this
    have hr : r < 0 := by
      have : ((⌈(M : ℚ) / D⌉ : Int) : ℚ) ≤ 0 := by exact_mod_cast hc0
      linarith
    unfold truncQ
    rw [if_neg (not_le.mpr hr), if_neg (not_le.mpr hq)]
    rw [Int.ceil_eq_iff]
    constructor <;> linarith
  · have hq : 0 < (M : ℚ) / D := div_pos (by exact_mod_cast hpos) hDq
    have hc1 : ((⌊(M : ℚ) / D⌋ : Int) : ℚ) ≤ (M : ℚ) / D := Int.floor_le _
    have hc2 : (M : ℚ) / D < ((⌊(M : ℚ) / D⌋ : Int) : ℚ) + 1 := Int.lt_floor_add_one _
    have hc0 : 0 ≤ ⌊(M : ℚ) / D⌋ := Int.floor_nonneg.mpr hq.le
    rw [le_div_iff₀ hDq] at hc1
    rw [div_lt_iff₀ hDq] at hc2
    have i1 : ⌊(M : ℚ) / D⌋ * D ≤ M := by exact_mod_cast hc1
    have i2 : M < (⌊(M : ℚ) / D⌋ + 1) * D := by exact_mod_cast hc2
    have i3 : M ≠ ⌊(M : ℚ) / D⌋ * D := by
      intro he
      apply hnd
      exact Dvd.intro_left _ he.symm
    have j1 : ⌊(M : ℚ) / D⌋ * D + 1 ≤ M := by omega
    have j2 : M + 1 ≤ (⌊(M : ℚ) / D⌋ + 1) * D := by omega
    have k1 : ((⌊(M : ℚ) / D⌋ : Int) : ℚ) + 1 / D ≤ (M : ℚ) / D := by
      have : ((⌊(M : ℚ) / D⌋ : Int) : ℚ) * D + 1 ≤ (M : ℚ) := by exact_mod_cast j1
      rw [le_div_iff₀ hDq, add_mul, one_div, inv_mul_cancel₀ hDq.ne']
      exact this
    have k2 : (M : ℚ) / D + 1 / D ≤ ((⌊(M : ℚ) / D⌋ : Int) : ℚ) + 1 := by
      have : (M : ℚ) + 1 ≤ (((⌊(M : ℚ) / D⌋ : Int) : ℚ) + 1) * D := by exact_mod_cast j2
      rw [← add_div, div_le_iff₀ hDq]
      exact this
    have hr : 0 ≤ r := by
      have : (0 : ℚ) ≤ ((⌊(M : ℚ) / D⌋ : Int) : ℚ) := by exact_mod_cast hc0
      linarith
    unfold truncQ
    rw [if_pos hr, if_pos hq.le]
    rw [Int.floor_eq_iff]
    constructor <;> linarith

theorem roundFrac_tenth : roundFrac 1 10 = Dbl.mk 7205759403792794 (-56) := by decide

theorem roundFrac_95 : roundFrac 95 100 = Dbl.mk 8556839292003942 (-53) := by decide

theorem tenth_toRat : (roundFrac 1 10).toRat = 7205759403792794 / 2 ^ 56 := by
  rw [roundFrac_tenth, Dbl.toRat]
  norm_num

theorem c95_toRat : (roundFrac 95 100).toRat = 8556839292003942 / 2 ^ 53 := by
  rw [roundFrac_95, Dbl.toRat]
  norm_num

theorem abs_cast_le (m : Int) (B : Nat) (h : |m| ≤ (B : Int)) : |(m : ℚ)| ≤ (B : ℚ) := by
  have : ((|m| : Int) : ℚ) ≤ ((B : Int) : ℚ) := by exact_mod_cast h
  simpa using this

theorem abs_tdiv_le (a : Int) (c : Nat) (hc : 0 < c) : (c : Int) * |a.tdiv c| ≤ |a| := by
  have hcz : (0 : Int) < (c : Int) := by exact_mod_cast hc
  rcases le_or_lt 0 a with h | h
  · have h1 : 0 ≤ a.tdiv c := Int.tdiv_nonneg h hcz.le
    rw [abs_of_nonneg h, abs_of_nonneg h1, Int.tdiv_eq_ediv h hcz.le]
    exact Int.mul_ediv_self_le hcz.ne'
  · have e : a.tdiv c = -((-a).tdiv c) := by rw [Int.neg_tdiv, neg_neg]
    have h0 : 0 ≤ -a := by omega
    have h1 : 0 ≤ (-a).tdiv c := Int.tdiv_nonneg h0 hcz.le
    rw [e, abs_neg, abs_of_nonneg h1, abs_of_neg h, Int.tdiv_eq_ediv h0 hcz.le]
    exact Int.mul_ediv_self_le hcz.ne'

theorem budget_fortieth (m : Int) (hm : |m| ≤ 2 ^ 40) :
    castms (Dbl.ofInt (m.tdiv 40)) = truncQ ((m : ℚ) / 40) := by
  have h1 := abs_tdiv_le m 40 (by norm_num)
  have h2 : |m.tdiv 40| ≤ ((2 ^ 40 : Nat) : Int) := by
    push_cast at h1 ⊢
    have := abs_nonneg (m.tdiv 40)
    omega
  have h3 := abs_cast_le _ _ h2
  rw [castms_eq, Dbl.ofInt_toRat _ (lt_of_le_of_lt h3 (by norm_num)), truncQ_intCast]
  have := truncQ_div m 40 (by norm_num)
  rw [← this]
  norm_num

theorem budget_tenth (m : Int) (hm : |m| ≤ 2 ^ 40) :
    castms (Dbl.mul (roundFrac 1 10) (Dbl.ofInt m)) = truncQ ((m : ℚ) / 10) := by
  have hA : |(m : ℚ)| ≤ 2 ^ 40 := by
    have := abs_cast_le m (2 ^ 40) (by exact_mod_cast hm)
    simpa using this
  have hA0 : (0 : ℚ) ≤ |(m : ℚ)| := abs_nonneg _
  have hx : (Dbl.ofInt m).toRat = (m : ℚ) :=
    Dbl.ofInt_toRat m (lt_of_le_of_lt hA (by norm_num))
  have hR := Dbl.mul_round (roundFrac 1 10) (Dbl.ofInt m)
  rw [tenth_toRat, hx] at hR
  have hy : |(7205759403792794 / 2 ^ 56 : ℚ) * (m : ℚ)|
      = 7205759403792794 / 2 ^ 56 * |(m : ℚ)| := by
    rw [abs_mul, abs_of_pos (by norm_num)]
  rw [castms_eq]
  by_cases h10 : (10 : Int) ∣ m
  · obtain ⟨z, rfl⟩ := h10
    have hz := round_exact hR z
      (by
        rw [hy]
        have : (7205759403792794 / 2 ^ 56 : ℚ) * |((10 * z : Int) : ℚ)| ≤ 2 ^ 40 := by
          have h1 : (7205759403792794 / 2 ^ 56 : ℚ) ≤ 1 := by norm_num
          nlinarith
        exact lt_of_le_of_lt this (by norm_num))
      (by
        rw [hy]
        have e : (7205759403792794 / 2 ^ 56 : ℚ) * ((10 * z : Int) : ℚ) - (z : ℚ)
            = (z : ℚ) / 2 ^ 54 := by
          push_cast
          ring
        rw [e, abs_div, abs_of_pos (by norm_num : (0 : ℚ) < 2 ^ 54)]
        have e2 : |((10 * z : Int) : ℚ)| = 10 * |(z : ℚ)| := by
          push_cast
          rw [abs_mul, abs_of_pos (by norm_num : (0 : ℚ) < 10)]
        rw [e2]
        have := abs_nonneg (z : ℚ)
        rw [div_le_div_iff₀ (by norm_num) (by norm_num)]
        nlinarith)
    rw [hz, truncQ_intCast]
    have := truncQ_div (10 * z) 10 (by norm_num)
    have e3 : (((10 * z : Int) : ℚ)) / 10 = (((10 * z : Int) : ℚ)) / ((10 : Int) : ℚ) := by
      norm_num
    rw [e3, this, Int.mul_tdiv_cancel_left _ (by norm_num)]
  · have hE := round_err hR
    rw [hy] at hE
    have e3 : (m : ℚ) / 10 = (m : ℚ) / ((10 : Int) : ℚ) := by norm_num
    rw [e3]
    apply truncQ_stable m 10 (by norm_num) _ h10
    have e4 : (7205759403792794 / 2 ^ 56 : ℚ) * (m : ℚ) - (m : ℚ) / ((10 : Int) : ℚ)
        = (m : ℚ) / (10 * 2 ^ 54) := by
      push_cast
      ring
    have h5 : |(7205759403792794 / 2 ^ 56 : ℚ) * (m : ℚ) - (m : ℚ) / ((10 : Int) : ℚ)|
        = |(m : ℚ)| / (10 * 2 ^ 54) := by
      rw [e4, abs_div, abs_of_pos (by norm_num : (0 : ℚ) < 10 * 2 ^ 54)]
    have tri := abs_add
      ((Dbl.mul (roundFrac 1 10) (Dbl.ofInt m)).toRat - 7205759403792794 / 2 ^ 56 * (m : ℚ))
      (7205759403792794 / 2 ^ 56 * (m : ℚ) - (m : ℚ) / ((10 : Int) : ℚ))
    rw [sub_add_sub_cancel, h5] at tri
    have b1 : (7205759403792794 / 2 ^ 56 : ℚ) * |(m : ℚ)| / 2 ^ 53 ≤ 2 ^ 40 / 2 ^ 53 := by
      apply div_le_div_of_nonneg_right _ (by norm_num)
      have h1 : (7205759403792794 / 2 ^ 56 : ℚ) ≤ 1 := by norm_num
      nlinarith
    have b2 : |(m : ℚ)| / (10 * 2 ^ 54) ≤ 2 ^ 40 / (10 * 2 ^ 54) :=
      div_le_div_of_nonneg_right hA (by norm_num)
    have b3 : (2 : ℚ) ^ 40 / 2 ^ 53 + 2 ^ 40 / (10 * 2 ^ 54) < 1 / ((10 : Int) : ℚ) := by
      norm_num
    linarith

theorem budget_movestogo (m k : Int) (N : Nat) (hm : |m| ≤ 2 ^ 40) (hk : 3 * |k| ≤ 2 ^ 40)
    (hN0 : N ≠ 0) (hN : N ≤ 1024) :
    castms
        (Dbl.add (Dbl.div (Dbl.mul (roundFrac 95 100) (Dbl.ofInt m)) (Dbl.ofInt (N : Int)))
          (Dbl.ofInt k))
      = truncQ ((95 / 100 : ℚ) * (m : ℚ) / (N : ℚ) + (k : ℚ)) := by
  have hA : |(m : ℚ)| ≤ 2 ^ 40 := by
    have := abs_cast_le m (2 ^ 40) (by exact_mod_cast hm)
    simpa using this
  have hK : 3 * |(k : ℚ)| ≤ 2 ^ 40 := by
    have : ((3 * |k| : Int) : ℚ) ≤ ((2 ^ 40 : Int) : ℚ) := by exact_mod_cast hk
    simpa using this
  have hA0 : (0 : ℚ) ≤ |(m : ℚ)| := abs_nonneg _
  have hK0 : (0 : ℚ) ≤ |(k : ℚ)| := abs_nonneg _
  have hN1 : (1 : ℚ) ≤ (N : ℚ) := by
    have : 1 ≤ N := Nat.one_le_iff_ne_zero.mpr hN0
    exact_mod_cast this
  have hN2 : (N : ℚ) ≤ 1024 := by exact_mod_cast hN
  have hNpos : (0 : ℚ) < (N : ℚ) := by linarith
  have hx : (Dbl.ofInt m).toRat = (m : ℚ) :=
    Dbl.ofInt_toRat m (lt_of_le_of_lt hA (by norm_num))
  have hn : (Dbl.ofInt (N : Int)).toRat = (N : ℚ) := by
    have := Dbl.ofInt_toRat (N : Int) (by
      push_cast
      rw [abs_of_pos hNpos]
      exact lt_of_le_of_lt hN2 (by norm_num))
    simpa using this
  have hkk : (Dbl.ofInt k).toRat = (k : ℚ) :=
    Dbl.ofInt_toRat k (by
      have : |(k : ℚ)| ≤ 2 ^ 40 := by linarith
      exact lt_of_le_of_lt this (by norm_num))
  have hnm : (Dbl.ofInt (N : Int)).mant ≠ 0 :=
    mant_ne_zero_of_toRat (by rw [hn]; exact hNpos.ne')
  obtain ⟨a, ha⟩ : ∃ a, a = Dbl.mul (roundFrac 95 100) (Dbl.ofInt m) := ⟨_, rfl⟩
  obtain ⟨b, hb⟩ : ∃ b, b = Dbl.div a (Dbl.ofInt (N : Int)) := ⟨_, rfl⟩
  obtain ⟨r, hr⟩ : ∃ r, r = Dbl.add b (Dbl.ofInt k) := ⟨_, rfl⟩
  have hRa := Dbl.mul_round (roundFrac 95 100) (Dbl.ofInt m)
  rw [c95_toRat, hx, ← ha] at hRa
  have hRb := Dbl.div_round a (Dbl.ofInt (N : Int)) hnm
  rw [hn, ← hb] at hRb
  have hRr := Dbl.add_round b (Dbl.ofInt k)
  rw [hkk, ← hr] at hRr
  rw [← ha, ← hb, ← hr, castms_eq]
  have hC1 : (8556839292003942 / 2 ^ 53 : ℚ) ≤ 95 / 100 := by norm_num
  have hC0 : (0 : ℚ) < 8556839292003942 / 2 ^ 53 := by norm_num
  have hy : ∀ t : ℚ, |(8556839292003942 / 2 ^ 53 : ℚ) * t|
      = 8556839292003942 / 2 ^ 53 * |t| := by
    intro t
    rw [abs_mul, abs_of_pos hC0]
  by_cases hdiv : (20 * (N : Int)) ∣ 19 * m
  · obtain ⟨w, hw⟩ := hdiv
    rw [mul_assoc] at hw
    have h20 : (20 : Int) ∣ m := by omega
    obtain ⟨j, rfl⟩ := h20
    have hjw : 19 * j = (N : Int) * w := by omega
    have hjwq : 19 * (j : ℚ) = (N : ℚ) * (w : ℚ) := by exact_mod_cast hjw
    have hj : 20 * |(j : ℚ)| ≤ 2 ^ 40 := by
      have e : |((20 * j : Int) : ℚ)| = 20 * |(j : ℚ)| := by
        push_cast
        rw [abs_mul, abs_of_pos (by norm_num : (0 : ℚ) < 20)]
      rw [← e]
      exact hA
    have hj0 : (0 : ℚ) ≤ |(j : ℚ)| := abs_nonneg _
    have hwabs : |(w : ℚ)| ≤ 19 * |(j : ℚ)| := by
      have e : 19 * |(j : ℚ)| = (N : ℚ) * |(w : ℚ)| := by
        have := congrArg abs hjwq
        rw [abs_mul, abs_mul, abs_of_pos (by norm_num : (0 : ℚ) < 19), abs_of_pos hNpos] at this
        exact this
      rw [e]
      have := abs_nonneg (w : ℚ)
      nlinarith
    have haz : a.toRat = ((19 * j : Int) : ℚ) := round_exact hRa (19 * j)
      (by
        rw [hy]
        have : (8556839292003942 / 2 ^ 53 : ℚ) * |((20 * j : Int) : ℚ)| ≤ 2 ^ 40 := by
          nlinarith
        exact lt_of_le_of_lt this (by norm_num))
      (by
        rw [hy]
        have e : (8556839292003942 / 2 ^ 53 : ℚ) * ((20 * j : Int) : ℚ) - ((19 * j : Int) : ℚ)
            = -((j : ℚ) * (8 / 2 ^ 53)) := by
          push_cast
          ring
        rw [e, abs_neg, abs_mul, abs_of_pos (by norm_num : (0 : ℚ) < 8 / 2 ^ 53)]
        have e2 : |((20 * j : Int) : ℚ)| = 20 * |(j : ℚ)| := by
          push_cast
          rw [abs_mul, abs_of_pos (by norm_num : (0 : ℚ) < 20)]
        rw [e2, le_div_iff₀ (by norm_num)]
        nlinarith)
    have hbq : a.toRat / (N : ℚ) = (w : ℚ) := by
      rw [haz, div_eq_iff hNpos.ne']
      push_cast
      rw [hjwq]
      ring
    rw [hbq] at hRb
    have hbz : b.toRat = (w : ℚ) := round_exact hRb w
      (by
        have : |(w : ℚ)| ≤ 2 ^ 40 := by linarith
        exact lt_of_le_of_lt this (by norm_num))
      (by
        rw [sub_self, abs_zero]
        positivity)
    rw [hbz] at hRr
    have hrz : r.toRat = ((w + k : Int) : ℚ) := round_exact hRr (w + k)
      (by
        have := abs_add (w : ℚ) (k : ℚ)
        have h2 : |(w : ℚ) + (k : ℚ)| ≤ 2 ^ 41 := by
          have : (2 : ℚ) ^ 41 = 2 * 2 ^ 40 := by norm_num
          linarith
        exact lt_of_le_of_lt h2 (by norm_num))
      (by
        push_cast
        rw [sub_self, abs_zero]
        positivity)
    have hq : (95 / 100 : ℚ) * ((20 * j : Int) : ℚ) / (N : ℚ) + (k : ℚ) = ((w + k : Int) : ℚ) := by
      push_cast
      have : (95 / 100 : ℚ) * (20 * (j : ℚ)) / (N : ℚ) = (w : ℚ) := by
        rw [div_eq_iff hNpos.ne']
        linarith
      rw [this]
    rw [hrz, hq]
  · have hdiv2 : ¬ (20 * (N : Int)) ∣ (19 * m + 20 * (N : Int) * k) := by
      intro h
      apply hdiv
      have h2 : (20 * (N : Int)) ∣ 20 * (N : Int) * k := Dvd.intro _ rfl
      exact (Int.dvd_add_left h2).mp h
    have hq : (95 / 100 : ℚ) * (m : ℚ) / (N : ℚ) + (k : ℚ)
        = ((19 * m + 20 * (N : Int) * k : Int) : ℚ) / ((20 * (N : Int) : Int) : ℚ) := by
      push_cast
      field_simp
      ring
    have hDpos : (0 : Int) < 20 * (N : Int) := by
      have : 0 < N := Nat.pos_of_ne_zero hN0
      omega
    rw [hq]
    apply truncQ_stable _ _ hDpos _ hdiv2
    rw [← hq]
    have hEa := round_err hRa
    have hEb := round_err hRb
    have hEr := round_err hRr
    rw [hy] at hEa
    have e1 : |(8556839292003942 / 2 ^ 53 : ℚ) * (m : ℚ) - 95 / 100 * (m : ℚ)|
        = 4 / 10 / 2 ^ 53 * |(m : ℚ)| := by
      have : (8556839292003942 / 2 ^ 53 : ℚ) * (m : ℚ) - 95 / 100 * (m : ℚ)
          = -(4 / 10 / 2 ^ 53 * (m : ℚ)) := by ring
      rw [this, abs_neg, abs_mul, abs_of_pos (by norm_num)]
    have t1 := abs_add (a.toRat - 8556839292003942 / 2 ^ 53 * (m : ℚ))
      (8556839292003942 / 2 ^ 53 * (m : ℚ) - 95 / 100 * (m : ℚ))
    rw [sub_add_sub_cancel, e1] at t1
    have Ea : |a.toRat - 95 / 100 * (m : ℚ)| ≤ 135 / 100 / 2 ^ 53 * |(m : ℚ)| := by
      have : (8556839292003942 / 2 ^ 53 : ℚ) * |(m : ℚ)| / 2 ^ 53
          ≤ 95 / 100 / 2 ^ 53 * |(m : ℚ)| := by
        rw [div_le_iff₀ (by norm_num)]
        nlinarith
      linarith
    have Ba : |a.toRat| ≤ |(m : ℚ)| := by
      have t := abs_add (a.toRat - 95 / 100 * (m : ℚ)) (95 / 100 * (m : ℚ))
      rw [sub_add_cancel, abs_mul, abs_of_pos (by norm_num : (0 : ℚ) < 95 / 100)] at t
      have : (135 / 100 / 2 ^ 53 : ℚ) * |(m : ℚ)| ≤ 5 / 100 * |(m : ℚ)| :=
        mul_le_mul_of_nonneg_right (by norm_num) hA0
      linarith
    obtain ⟨B, hB⟩ : ∃ B : ℚ, B = |(m : ℚ)| / (N : ℚ) := ⟨_, rfl⟩
    have hB0 : 0 ≤ B := by
      rw [hB]
      exact div_nonneg hA0 hNpos.le
    have hBN : B * (N : ℚ) = |(m : ℚ)| := by
      rw [hB, div_mul_cancel₀ _ hNpos.ne']
    have Eb1 : |b.toRat - a.toRat / (N : ℚ)| ≤ B / 2 ^ 53 := by
      have : |a.toRat / (N : ℚ)| ≤ B := by
        rw [abs_div, abs_of_pos hNpos, hB]
        exact div_le_div_of_nonneg_right Ba hNpos.le
      have h2 : |a.toRat / (N : ℚ)| / 2 ^ 53 ≤ B / 2 ^ 53 :=
        div_le_div_of_nonneg_right this (by norm_num)
      linarith
    have Eb2 : |a.toRat / (N : ℚ) - 95 / 100 * (m : ℚ) / (N : ℚ)|
        ≤ 135 / 100 / 2 ^ 53 * B := by
      rw [← sub_div, abs_div, abs_of_pos hNpos, hB, ← mul_div_assoc]
      exact div_le_div_of_nonneg_right Ea hNpos.le
    have t2 := abs_add (b.toRat - a.toRat / (N : ℚ))
      (a.toRat / (N : ℚ) - 95 / 100 * (m : ℚ) / (N : ℚ))
    rw [sub_add_sub_cancel] at t2
    have Eb : |b.toRat - 95 / 100 * (m : ℚ) / (N : ℚ)| ≤ 235 / 100 / 2 ^ 53 * B := by
      have : B / 2 ^ 53 + 135 / 100 / 2 ^ 53 * B = 235 / 100 / 2 ^ 53 * B := by ring
      linarith
    have Bb : |b.toRat| ≤ B := by
      have t := abs_add (b.toRat - 95 / 100 * (m : ℚ) / (N : ℚ)) (95 / 100 * (m : ℚ) / (N : ℚ))
      rw [sub_add_cancel] at t
      have e : |(95 / 100 : ℚ) * (m : ℚ) / (N : ℚ)| = 95 / 100 * B := by
        rw [abs_div, abs_mul, abs_of_pos hNpos, abs_of_pos (by norm_num : (0 : ℚ) < 95 / 100),
          hB, mul_div_assoc]
      rw [e] at t
      have : (235 / 100 / 2 ^ 53 : ℚ) * B ≤ 5 / 100 * B :=
        mul_le_mul_of_nonneg_right (by norm_num) hB0
      linarith
    have Er : |r.toRat - (b.toRat + (k : ℚ))| ≤ (B + |(k : ℚ)|) / 2 ^ 53 := by
      have t := abs_add b.toRat (k : ℚ)
      have h2 : |b.toRat + (k : ℚ)| / 2 ^ 53 ≤ (B + |(k : ℚ)|) / 2 ^ 53 :=
        div_le_div_of_nonneg_right (le_trans t (add_le_add_right Bb _)) (by norm_num)
      exact le_trans hEr h2
    have t3 := abs_add (r.toRat - (b.toRat + (k : ℚ)))
      (b.toRat - 95 / 100 * (m : ℚ) / (N : ℚ))
    have e3 : r.toRat - (b.toRat + (k : ℚ)) + (b.toRat - 95 / 100 * (m : ℚ) / (N : ℚ))
        = r.toRat - (95 / 100 * (m : ℚ) / (N : ℚ) + (k : ℚ)) := by ring
    rw [e3] at t3
    have Efin : |r.toRat - (95 / 100 * (m : ℚ) / (N : ℚ) + (k : ℚ))|
        ≤ (335 / 100 * B + |(k : ℚ)|) / 2 ^ 53 := by
      have : (B + |(k : ℚ)|) / 2 ^ 53 + 235 / 100 / 2 ^ 53 * B
          = (335 / 100 * B + |(k : ℚ)|) / 2 ^ 53 := by ring
      linarith only [this, t3, Er, Eb]
    refine lt_of_le_of_lt Efin ?_
    have hcast : (((20 * (N : Int) : Int)) : ℚ) = 20 * (N : ℚ) := by push_cast; ring
    rw [hcast, div_lt_div_iff₀ (by norm_num) (by positivity)]
    have hNK : (N : ℚ) * |(k : ℚ)| ≤ 1024 * |(k : ℚ)| :=
      mul_le_mul_of_nonneg_right hN2 hK0
    have e4 : (335 / 100 * B + |(k : ℚ)|) * (20 * (N : ℚ))
        = 67 * (B * (N : ℚ)) + 20 * ((N : ℚ) * |(k : ℚ)|) := by ring
    rw [e4, hBN]
    have : (67 : ℚ) * 2 ^ 40 + 20 * (1024 * (2 ^ 40 / 3)) < 1 * 2 ^ 53 := by norm_num
    linarith only [this, hNK, hA, hK]

/-! ## Entries at odd distance from the top -/

theorem sameSideOccurrences_set_odd (xs : List Nat) (h : Nat) (i v : Nat)
    (hodd : (xs.length - 1 - i) % 2 = 1) :
    sameSideOccurrences (xs.set i v) h = sameSideOccurrences xs h := by
  unfold sameSideOccurrences
  rw [List.length_set]
  congr 1
  apply List.filter_congr
  intro j _
  by_cases hj : (xs.length - 1 - j) % 2 = 0
  · have hne : i ≠ j := by
      rintro rfl
      omega
    rw [List.getElem?_set_ne hne]
  · simp [hj]

theorem getLast?_set_odd (xs : List Nat) (i v : Nat) (hodd : (xs.length - 1 - i) % 2 = 1) :
    (xs.set i v).getLast? = xs.getLast? := by
  rw [List.getLast?_eq_getElem?, List.getLast?_eq_getElem?, List.length_set,
    List.getElem?_set_ne]
  rintro rfl
  omega

/-! ## The stable sort of the root moves -/

theorem iteration_ok_elim (env : Env Pos TT MO) (fuel : Nat) (b : Pos) (k : Nat)
    (s s1 : State TT) (h : iteration env fuel b k s = Res.ok () s1) :
    ∃ s0 : State TT, s1 = endIteration env s0 ∧
      s0.rootMoves.map (fun y => y.m) = s.rootMoves.map (fun y => y.m) := by
  unfold iteration at h
  dsimp only at h
  split at h
  · rename_i s3 hl
    simp only [Res.ok.injEq, true_and] at h
    have hm := rootLoop_moves env fuel b k _ _ _ _ _ s3 (by rw [hl]; rfl)
    exact ⟨s3, h.symm, hm⟩
  · simp at h
  · simp at h
  · simp at h

theorem orderedInsert_filter_score (a : ScoredMove) (l : List ScoredMove) (v : Int) :
    (List.orderedInsert scoreGe a l).filter (fun x => decide (x.score = v)) =
      (a :: l).filter (fun x => decide (x.score = v)) := by
  induction l with
  | nil => rfl
  | cons c l ih =>
    rw [List.orderedInsert]
    split
    · rfl
    · rename_i hnot
      have hlt : a.score < c.score := by
        unfold scoreGe at hnot
        omega
      rw [List.filter_cons, ih]
      by_cases ha : a.score = v
      · have hc : ¬ c.score = v := by omega
        simp [List.filter_cons, ha, hc]
      · simp [List.filter_cons, ha]

theorem stableSortDesc_stable (l : List ScoredMove) (v : Int) :
    (stableSortDesc l).filter (fun x => decide (x.score = v)) =
      l.filter (fun x => decide (x.score = v)) := by
  unfold stableSortDesc
  induction l with
  | nil => rfl
  | cons a l ih =>
    rw [List.insertionSort, orderedInsert_filter_score, List.filter_cons, List.filter_cons, ih]

theorem stableSortDesc_sorted (l : List ScoredMove) :
    List.Pairwise (fun x y => x.score ≥ y.score) (stableSortDesc l) :=
  @List.sorted_insertionSort _ scoreGe _ ⟨fun a b => le_total b.score a.score⟩
    ⟨fun _ _ _ hab hbc => le_trans hbc hab⟩ l

theorem stableSortDesc_perm (l : List ScoredMove) : (stableSortDesc l).Perm l :=
  List.perm_insertionSort scoreGe l

theorem endIteration_rootMoves (env : Env Pos TT MO) (s : State TT) :
    (endIteration env s).rootMoves = stableSortDesc s.rootMoves := rfl

theorem endIteration_eval (env : Env Pos TT MO) (s : State TT) :
    (endIteration env s).eval =
      ((stableSortDesc s.rootMoves).head?.map (fun x => x.score)).getD s.eval := rfl

theorem endIteration_out (env : Env Pos TT MO) (s : State TT) :
    ∃ t n p, (endIteration env s).out = s.out ++
      [Output.info s.currIDdepth (endIteration env s).eval t n p s.MainPV] :=
  ⟨_, _, _, rfl⟩

/-! ## Rank digits -/

theorem toString_shownRank (white : Bool) (r : Nat) (hr : r ≤ 7) :
    toString (if white then (r : Int) + 1 else 7 - (r : Int) + 1) =
      String.singleton (Nat.digitChar (shownRank white r)) := by
  cases white <;> interval_cases r <;> rfl

theorem shownRank_range (white : Bool) (r : Nat) (hr : r ≤ 7) :
    1 ≤ shownRank white r ∧ shownRank white r ≤ 8 := by
  unfold shownRank
  cases white <;> simp <;> omega

/-! ## The table probes -/

theorem quiesceSearch_unfold (env : Env Pos TT MO) (fuel : Nat) (b : Pos)
    (alpha beta depth : Int) (s : State TT) :
    quiesceSearch env (fuel + 1) b alpha beta depth s =
      scopePos (
        if threeFoldRep (pushPos s).prevPos then Res.ok 0 (pushPos s)
        else if env.get50 b = 50 then Res.ok 0 (pushPos s)
        else
          match ttProbeQ env (incNodes (pollStop env.toAmbient (pushPos s))) alpha beta depth
          with
          | some e => Res.ok e (incNodes (pollStop env.toAmbient (pushPos s)))
          | none => quiesceMoves env fuel b alpha beta depth
              (incNodes (pollStop env.toAmbient (pushPos s)))) := by
  rw [quiesceSearch]
  rfl

theorem alphaBetaSearch_unfold (env : Env Pos TT MO) (fuel : Nat) (b : Pos) (pv : List Move)
    (alpha beta depth : Int) (nullBranch : Bool) (s : State TT) (hd : 1 ≤ depth) :
    alphaBetaSearch env (fuel + 1) b pv alpha beta depth nullBranch s =
      if env.get50 b = 50 then
        Res.ok (0, pv) (uciUpdate env.toAmbient (pollStop env.toAmbient s))
      else
        scopePos (
          if threeFoldRep (pushPos (uciUpdate env.toAmbient (pollStop env.toAmbient s))).prevPos
          then Res.ok (0, pv) (pushPos (uciUpdate env.toAmbient (pollStop env.toAmbient s)))
          else
            match ttProbeAB env (incNodes (pushPos (uciUpdate env.toAmbient
                (pollStop env.toAmbient s)))) alpha beta depth with
            | some e => Res.ok (e, pv) (incNodes (pushPos (uciUpdate env.toAmbient
                (pollStop env.toAmbient s))))
            | none => abMoves env fuel b pv alpha beta depth nullBranch
                (incNodes (pushPos (uciUpdate env.toAmbient (pollStop env.toAmbient s))))) := by
  rw [alphaBetaSearch, if_neg (by omega)]
  rfl


theorem ttProbeQ_some (env : Env Pos TT MO) (s : State TT) (tbl : TT) (alpha beta depth : Int)
    (htt : s.tt = some tbl)
    (h : (env.slot tbl s.hash).key = s.hash ∧ (env.slot tbl s.hash).depth > depth ∧
      ((env.slot tbl s.hash).nodeType = NodeType.PV ∨
        ((env.slot tbl s.hash).nodeType = NodeType.ALL ∧ (env.slot tbl s.hash).eval < alpha) ∨
        ((env.slot tbl s.hash).nodeType = NodeType.CUT ∧ (env.slot tbl s.hash).eval > beta))) :
    ttProbeQ env s alpha beta depth = some (env.slot tbl s.hash).eval := by
  unfold ttProbeQ
  rw [htt]
  obtain ⟨h1, h2, h3⟩ := h
  simp only [h1, h2, and_self, if_true]
  rcases h3 with h3 | ⟨h3, h4⟩ | ⟨h3, h4⟩
  · simp [h3]
  · simp [h3, h4]
  · simp [h3, h4]

theorem ttProbeQ_none (env : Env Pos TT MO) (s : State TT) (tbl : TT) (alpha beta depth : Int)
    (htt : s.tt = some tbl)
    (h : ¬ ((env.slot tbl s.hash).key = s.hash ∧ (env.slot tbl s.hash).depth > depth ∧
      ((env.slot tbl s.hash).nodeType = NodeType.PV ∨
        ((env.slot tbl s.hash).nodeType = NodeType.ALL ∧ (env.slot tbl s.hash).eval < alpha) ∨
        ((env.slot tbl s.hash).nodeType = NodeType.CUT ∧ (env.slot tbl s.hash).eval > beta)))) :
    ttProbeQ env s alpha beta depth = none := by
  unfold ttProbeQ
  rw [htt]
  dsimp only
  split_ifs with h1 h2 h3 h4
  · exact absurd ⟨h1.1, h1.2, Or.inl h2⟩ h
  · exact absurd ⟨h1.1, h1.2, Or.inr (Or.inl h3)⟩ h
  · exact absurd ⟨h1.1, h1.2, Or.inr (Or.inr h4)⟩ h
  · rfl
  · rfl

theorem ttProbeAB_some (env : Env Pos TT MO) (s : State TT) (tbl : TT) (alpha beta depth : Int)
    (htt : s.tt = some tbl)
    (h : (env.slot tbl s.hash).key = s.hash ∧ (env.slot tbl s.hash).depth > depth ∧
      (((env.slot tbl s.hash).nodeType = NodeType.ALL ∧ (env.slot tbl s.hash).eval < alpha) ∨
        ((env.slot tbl s.hash).nodeType = NodeType.CUT ∧ (env.slot tbl s.hash).eval > beta))) :
    ttProbeAB env s alpha beta depth = some (env.slot tbl s.hash).eval := by
  unfold ttProbeAB
  rw [htt]
  obtain ⟨h1, h2, h3⟩ := h
  simp only [h1, h2, and_self, if_true]
  rcases h3 with ⟨h3, h4⟩ | ⟨h3, h4⟩
  · simp [h3, h4]
  · simp [h3, h4]

theorem ttProbeAB_none (env : Env Pos TT MO) (s : State TT) (tbl : TT) (alpha beta depth : Int)
    (htt : s.tt = some tbl)
    (h : ¬ ((env.slot tbl s.hash).key = s.hash ∧ (env.slot tbl s.hash).depth > depth ∧
      (((env.slot tbl s.hash).nodeType = NodeType.ALL ∧ (env.slot tbl s.hash).eval < alpha) ∨
        ((env.slot tbl s.hash).nodeType = NodeType.CUT ∧ (env.slot tbl s.hash).eval > beta)))) :
    ttProbeAB env s alpha beta depth = none := by
  unfold ttProbeAB
  rw [htt]
  dsimp only
  split_ifs with h1 h3 h4
  · exact absurd ⟨h1.1, h1.2, Or.inl h3⟩ h
  · exact absurd ⟨h1.1, h1.2, Or.inr h4⟩ h
  · rfl
  · rfl

theorem threeFoldRep_false_of_lt (xs : List Nat) (h : Nat) (hl : xs.getLast? = some h)
    (hlt : sameSideOccurrences xs h < 3) : threeFoldRep xs = false := by
  rw [Bool.eq_false_iff, Ne, threeFoldRep_iff xs h hl]
  omega

/-! ## The table probe of the header template -/

theorem Hpp.ttProbe_exact (env : Hpp.Env Pos TT) (wToMove : Bool) (s : State TT) (tbl : TT)
    (alpha beta depth : Int) (htt : s.tt = some tbl)
    (hk : (env.slot tbl s.hash).key = s.hash) (hd : (env.slot tbl s.hash).depth > depth)
    (hn : (env.slot tbl s.hash).nodeType = 0) :
    Hpp.ttProbe env wToMove s alpha beta depth =
      some (if wToMove then (env.slot tbl s.hash).eval else -1 * (env.slot tbl s.hash).eval) := by
  unfold Hpp.ttProbe
  rw [htt]
  simp [hk, hd, hn]

theorem Hpp.exact_entry_returns (env : Hpp.Env Pos TT) (fuel : Nat)
    (wToMove prevMoveNull : Bool) (alpha beta depth : Int) (b : Pos) (s : State TT) (tbl : TT)
    (hdp : 1 ≤ depth) (h50 : env.ply50 b ≠ 50) (htt : s.tt = some tbl)
    (hk : (env.slot tbl s.hash).key = s.hash) (hd : (env.slot tbl s.hash).depth > depth)
    (hn : (env.slot tbl s.hash).nodeType = 0) :
    Hpp.alphaBetaSearch env (fuel + 1) wToMove Hpp.SearchType.ABSearch prevMoveNull alpha beta
      depth b s =
      Res.ok (if wToMove then (env.slot tbl s.hash).eval else -1 * (env.slot tbl s.hash).eval)
        (b, pollStop env.toAmbient (incNodes s)) := by
  rw [Hpp.alphaBetaSearch]
  have hp := Hpp.ttProbe_exact env wToMove (pollStop env.toAmbient (incNodes s)) tbl alpha beta
    depth (by simpa using htt) (by simpa using hk) (by simpa using hd) (by simpa using hn)
  have hnd : ¬ depth ≤ 0 := by omega
  simp only [pollStop_hash, incNodes_hash] at hp
  simp only [h50, if_false, hnd, and_false, reduceCtorEq, false_and, hp]

/-! ## The main loop as a sequence of passes -/

theorem initialPos_of_fixedOf {s t : State TT} (h : fixedOf t = fixedOf s) :
    t.initialPos = s.initialPos :=
  congrArg (fun x => x.2.2.2.2.1) h

theorem abLoopAt_step (env : Env Pos TT MO) (fuel : Nat) (b : Pos) (depth : Int)
    (nullBranch : Bool) (beta : Int) (L : LoopState TT MO) :
    abLoopAt env (fuel + 1) b depth nullBranch beta L =
      match abStep env fuel b depth nullBranch beta L with
      | StepRes.stop r => r
      | StepRes.next _ _ L1 => abLoopAt env fuel b depth nullBranch beta L1 := by
  unfold abLoopAt abStep childEntry
  rw [abLoop]
  cases h : env.moNext L.moves L.s.tt b with
  | none =>
    dsimp only
    by_cases hi : L.i = 0
    · rw [if_pos hi, if_pos hi]
    · rw [if_neg hi, if_neg hi]
  | some p =>
    obtain ⟨m, mo⟩ := p
    dsimp only
    by_cases ht : (!(testSearching env.toAmbient L.s).1) = true
    · rw [if_pos ht, if_pos ht]
    · rw [if_neg ht, if_neg ht]
      cases htt : (pushMove m (testSearching env.toAmbient L.s).2).tt with
      | none => rfl
      | some tbl =>
        dsimp only
        cases hc : alphaBetaSearch env fuel (env.makeMove b m) L.pvChild (-beta) (-L.alpha)
            (depth - 1) nullBranch
            (xorHash (env.incrementalUpdate tbl m b (env.makeMove b m))
              (pushMove m (testSearching env.toAmbient L.s).2)) with
        | ok r s3 =>
          dsimp only
          by_cases hb : max L.besteval (-r.1) ≥ beta
          · rw [if_pos hb, if_pos hb]
          · rw [if_neg hb, if_neg hb]
            by_cases ha : -r.1 ≥ L.alpha
            · rw [if_pos ha, if_pos ha]
            · rw [if_neg ha, if_neg ha]
        | timeout s3 => rfl
        | nullTT => rfl
        | noFuel => rfl

/-- A pass after which the loop goes on: the orderer yielded the move, the flag was set,
the table was there, the child search returned, the running maximum stayed below
`beta`, and the loop state changed as lines 534-557 say. -/
theorem abStep_next_elim (env : Env Pos TT MO) (fuel : Nat) (b : Pos) (depth : Int)
    (nullBranch : Bool) (beta : Int) (L L1 : LoopState TT MO) (m : Move) (e : Int)
    (h : abStep env fuel b depth nullBranch beta L = StepRes.next m e L1) :
    ∃ mo tbl r s3, env.moNext L.moves L.s.tt b = some (m, mo) ∧
      (testSearching env.toAmbient L.s).1 = true ∧ L.s.tt = some tbl ∧
      alphaBetaSearch env fuel (env.makeMove b m) L.pvChild (-beta) (-L.alpha) (depth - 1)
        nullBranch (childEntry env b m tbl L.s) = Res.ok r s3 ∧
      e = -r.1 ∧ max L.besteval e < beta ∧
      L1.moves = mo ∧ L1.i = L.i + 1 ∧ L1.besteval = max L.besteval e ∧
      L1.s = popMove (setHash L.s.hash s3) ∧
      (L.alpha ≤ e → L1.alpha = e ∧ L1.nodeType = NodeType.PV ∧ L1.topMove = m ∧
        L1.pv = m :: r.2 ∧ L1.pvChild = []) ∧
      (e < L.alpha → L1.alpha = L.alpha ∧ L1.nodeType = L.nodeType ∧ L1.topMove = L.topMove ∧
        L1.pv = L.pv ∧ L1.pvChild = r.2) := by
  unfold abStep at h
  cases hm : env.moNext L.moves L.s.tt b with
  | none =>
    rw [hm] at h
    dsimp only at h
    by_cases hi : L.i = 0
    · rw [if_pos hi] at h; cases h
    · rw [if_neg hi] at h; cases h
  | some p =>
    obtain ⟨m1, mo⟩ := p
    rw [hm] at h
    dsimp only at h
    by_cases ht : (!(testSearching env.toAmbient L.s).1) = true
    · rw [if_pos ht] at h; cases h
    · rw [if_neg ht] at h
      have ht1 : (testSearching env.toAmbient L.s).1 = true := by simpa using ht
      cases htt : (pushMove m1 (testSearching env.toAmbient L.s).2).tt with
      | none => rw [htt] at h; cases h
      | some tbl =>
        rw [htt] at h
        dsimp only at h
        have htt1 : L.s.tt = some tbl := by simpa using htt
        cases hc : alphaBetaSearch env fuel (env.makeMove b m1) L.pvChild (-beta) (-L.alpha)
            (depth - 1) nullBranch (childEntry env b m1 tbl L.s) with
        | ok r s3 =>
          rw [hc] at h
          dsimp only at h
          by_cases hb : max L.besteval (-r.1) ≥ beta
          · rw [if_pos hb] at h; cases h
          · rw [if_neg hb] at h
            have hh : (testSearching env.toAmbient L.s).2.hash = L.s.hash := by simp
            by_cases ha : -r.1 ≥ L.alpha
            · rw [if_pos ha] at h
              injection h with h1 h2 h3
              subst h1 h2 h3
              refine ⟨mo, tbl, r, s3, rfl, ht1, htt1, hc, rfl, lt_of_not_ge hb, rfl, rfl, rfl,
                by rw [hh], fun _ => ⟨rfl, rfl, rfl, rfl, rfl⟩, fun hlt => ?_⟩
              exact absurd ha (not_le.mpr hlt)
            · rw [if_neg ha] at h
              injection h with h1 h2 h3
              subst h1 h2 h3
              refine ⟨mo, tbl, r, s3, rfl, ht1, htt1, hc, rfl, lt_of_not_ge hb, rfl, rfl, rfl,
                by rw [hh], fun hle => ?_, fun _ => ⟨rfl, rfl, rfl, rfl, rfl⟩⟩
              exact absurd hle ha
        | timeout s3 => rw [hc] at h; cases h
        | nullTT => rw [hc] at h; cases h
        | noFuel => rw [hc] at h; cases h

theorem runningMax_nil : runningMax [] = negInf := rfl

theorem runningMax_snoc (log : List Searched) (x : Searched) :
    runningMax (log ++ [x]) = max (runningMax log) x.currEval := by
  unfold runningMax
  rw [List.foldl_append]
  rfl

theorem le_runningMax (log : List Searched) :
    negInf ≤ runningMax log ∧ ∀ x ∈ log, x.currEval ≤ runningMax log := by
  induction log using List.reverseRecOn with
  | nil => exact ⟨le_refl _, fun x hx => by cases hx⟩
  | append_singleton l a ih =>
    rw [runningMax_snoc]
    refine ⟨le_trans ih.1 (le_max_left _ _), fun x hx => ?_⟩
    rcases List.mem_append.mp hx with hx | hx
    · exact le_trans (ih.2 x hx) (le_max_left _ _)
    · rw [List.mem_singleton] at hx
      subst hx
      exact le_max_right _ _

theorem runningMax_mem (log : List Searched) (hne : log ≠ [])
    (hs : ∀ x ∈ log, negInf ≤ x.currEval) : ∃ x ∈ log, x.currEval = runningMax log := by
  induction log using List.reverseRecOn with
  | nil => exact absurd rfl hne
  | append_singleton l a ih =>
    rw [runningMax_snoc]
    by_cases hl : l = []
    · subst hl
      refine ⟨a, by simp, ?_⟩
      rw [runningMax_nil, max_eq_right (hs a (by simp))]
    · obtain ⟨x, hx, hxe⟩ := ih hl (fun x hx => hs x (List.mem_append_left _ hx))
      rcases le_total (runningMax l) a.currEval with h | h
      · exact ⟨a, by simp, by rw [max_eq_right h]⟩
      · exact ⟨x, List.mem_append_left _ hx, by rw [max_eq_left h, hxe]⟩

theorem LoopInv_start (env : Env Pos TT MO) (b : Pos) (alpha beta : Int) (pv : List Move)
    (s : State TT) : LoopInv beta s [] (loopStart env b alpha pv s) := by
  refine ⟨rfl, rfl, rfl, rfl, rfl, rfl, ?_, fun _ => ⟨?_, fun _ => ⟨rfl, rfl, Or.inl rfl⟩⟩⟩
  · intro j h1 h2
    simp at h2
    omega
  · rintro ⟨x, hx, _⟩
    cases hx

theorem LoopInv_step (env : Env Pos TT MO) (fuel : Nat) (b : Pos) (depth : Int)
    (nullBranch : Bool) (beta : Int) (s0 : State TT) (log : List Searched)
    (L L1 : LoopState TT MO) (m : Move) (e : Int) (hinv : LoopInv beta s0 log L)
    (h : abStep env fuel b depth nullBranch beta L = StepRes.next m e L1) :
    LoopInv beta s0 (log ++ [Searched.mk m e L.alpha]) L1 := by
  obtain ⟨mo, tbl, r, s3, -, -, -, hc, -, hlt, -, hi, hbe, hs, hraise, hkeep⟩ :=
    abStep_next_elim env fuel b depth nullBranch beta L L1 m e h
  obtain ⟨ibe, ii, ipp, ipm, ih, ifx, ipre, ipv⟩ := hinv
  obtain ⟨fpp, fpm, -, ffx⟩ := Framed.ok_elim ((alphaBeta_framed env fuel).1 _ _ _ _ _ _ _) hc
  have hmax : runningMax (log ++ [Searched.mk m e L.alpha]) = max L.besteval e := by
    rw [runningMax_snoc, ibe]
  refine ⟨by rw [hbe, hmax], by simp [hi, ii], ?_, ?_, ?_, ?_, ?_, ?_⟩
  · rw [hs]; simp [fpp, childEntry, ipp]
  · rw [hs]; simp [fpm, childEntry, ipm]
  · rw [hs]; simp [ih]
  · rw [hs]; simp [ffx, childEntry, ifx]
  · intro j hj0 hjl
    rw [List.length_append, List.length_singleton] at hjl
    by_cases hj : j ≤ log.length
    · rw [List.take_append_of_le_length hj]
      exact ipre j hj0 hj
    · have : j = (log ++ [Searched.mk m e L.alpha]).length := by simp; omega
      rw [this, List.take_length, hmax]
      exact hlt
  · intro hall
    have hall1 : ∀ x ∈ log, negInf ≤ x.currEval := fun x hx =>
      hall x (List.mem_append_left _ hx)
    have he : negInf ≤ e := hall (Searched.mk m e L.alpha) (by simp)
    obtain ⟨ipv1, ipv2⟩ := ipv hall1
    by_cases hex : ∃ x ∈ log, x.alpha ≤ x.currEval
    · obtain ⟨hnt, hba, x, hx, hxm, hxe⟩ := ipv1 hex
      refine ⟨fun _ => ?_, fun hno => ?_⟩
      · rcases le_or_lt L.alpha e with hr | hr
        · obtain ⟨h1, h2, h3, -, -⟩ := hraise hr
          have hb1 : L1.besteval = e := by rw [hbe, max_eq_right (by rw [hba]; exact hr)]
          exact ⟨h2, by rw [hb1, h1],
            Searched.mk m e L.alpha, by simp, h3.symm, hb1.symm⟩
        · obtain ⟨h1, h2, h3, -, -⟩ := hkeep hr
          have hb1 : L1.besteval = L.besteval := by
            rw [hbe, max_eq_left (by rw [hba]; exact le_of_lt hr)]
          exact ⟨by rw [h2, hnt], by rw [hb1, h1, hba],
            x, List.mem_append_left _ hx, by rw [h3, hxm], by rw [hb1, hxe]⟩
      · exact absurd (by obtain ⟨x, hx, hxa⟩ := hex
                         exact ⟨x, List.mem_append_left _ hx, hxa⟩) hno
    · obtain ⟨hnt, htm, hor⟩ := ipv2 hex
      have hble : L.besteval ≤ e ∨ L.besteval < L.alpha := by
        rcases hor with hnil | hlt1
        · left
          rw [ibe, hnil, runningMax_nil]
          exact he
        · exact Or.inr hlt1
      refine ⟨fun hex1 => ?_, fun hno => ?_⟩
      · obtain ⟨x, hx, hxa⟩ := hex1
        rcases List.mem_append.mp hx with hx | hx
        · exact absurd ⟨x, hx, hxa⟩ hex
        · rw [List.mem_singleton] at hx
          subst hx
          obtain ⟨h1, h2, h3, -, -⟩ := hraise hxa
          have hb1 : L1.besteval = e := by
            rw [hbe]
            apply max_eq_right
            rcases hble with h | h
            · exact h
            · exact le_trans (le_of_lt h) hxa
          exact ⟨h2, by rw [hb1, h1], Searched.mk m e L.alpha, by simp, h3.symm, hb1.symm⟩
      · have hr : e < L.alpha := by
          by_contra hc1
          exact hno ⟨Searched.mk m e L.alpha, by simp, not_lt.mp hc1⟩
        obtain ⟨h1, h2, h3, -, -⟩ := hkeep hr
        refine ⟨by rw [h2, hnt], by rw [h3, htm], Or.inr ?_⟩
        rw [hbe, h1]
        rcases hble with h | h
        · rw [max_eq_right h]; exact hr
        · exact max_lt h hr

theorem abTrace_inv (env : Env Pos TT MO) (b : Pos) (depth : Int) (nullBranch : Bool)
    (beta : Int) (s0 : State TT) (fuel : Nat) :
    ∀ (pre : List Searched) (L : LoopState TT MO), LoopInv beta s0 pre L →
      LoopInv beta s0 (pre ++ (abTrace env b depth nullBranch beta fuel L).1)
        (abTrace env b depth nullBranch beta fuel L).2.2 := by
  induction fuel with
  | zero =>
    intro pre L h
    simpa [abTrace] using h
  | succ fuel ih =>
    intro pre L h
    rw [abTrace]
    cases hs : abStep env fuel b depth nullBranch beta L with
    | stop r => simpa using h
    | next m e L1 =>
      dsimp only
      have := ih _ L1 (LoopInv_step env fuel b depth nullBranch beta s0 pre L L1 m e h hs)
      simpa [List.append_assoc] using this

theorem abTrace_run (env : Env Pos TT MO) (b : Pos) (depth : Int) (nullBranch : Bool)
    (beta : Int) (fuel : Nat) :
    ∀ L : LoopState TT MO,
      abLoopAt env fuel b depth nullBranch beta L =
        abLoopAt env (abTrace env b depth nullBranch beta fuel L).2.1 b depth nullBranch beta
          (abTrace env b depth nullBranch beta fuel L).2.2 := by
  induction fuel with
  | zero => intro L; rfl
  | succ fuel ih =>
    intro L
    rw [abTrace]
    cases hs : abStep env fuel b depth nullBranch beta L with
    | stop r => rfl
    | next m e L1 =>
      dsimp only
      rw [abLoopAt_step, hs]
      exact ih L1

/-- Every pass recorded in the trace handed the table to its child search as it stood and
took it back as the child left it. -/
theorem abStep_next_table (env : Env Pos TT MO) (fuel : Nat) (b : Pos) (depth : Int)
    (nullBranch : Bool) (beta : Int) (L L1 : LoopState TT MO) (m : Move) (e : Int)
    (h : abStep env fuel b depth nullBranch beta L = StepRes.next m e L1) :
    ∃ tbl r s3, L.s.tt = some tbl ∧ (childEntry env b m tbl L.s).tt = L.s.tt ∧
      alphaBetaSearch env fuel (env.makeMove b m) L.pvChild (-beta) (-L.alpha) (depth - 1)
        nullBranch (childEntry env b m tbl L.s) = Res.ok r s3 ∧
      e = -r.1 ∧ L1.s.tt = s3.tt := by
  obtain ⟨mo, tbl, r, s3, -, -, htt, hc, he, -, -, -, -, hs, -, -⟩ :=
    abStep_next_elim env fuel b depth nullBranch beta L L1 m e h
  exact ⟨tbl, r, s3, htt, by simp [childEntry], hc, he, by rw [hs]; simp⟩

theorem abMoves_of_loopEntry (env : Env Pos TT MO) (fuel : Nat) (b : Pos) (pv : List Move)
    (alpha beta depth : Int) (nullBranch : Bool) (s3 s : State TT)
    (h : loopEntry env fuel b beta depth nullBranch s3 = some s) :
    abMoves env fuel b pv alpha beta depth nullBranch s3 =
        abLoopAt env fuel b depth nullBranch beta (loopStart env b alpha pv s) ∧
      s.prevPos = s3.prevPos ∧ s.prevMoves = s3.prevMoves ∧ s.hash = s3.hash ∧
      fixedOf s = fixedOf s3 := by
  unfold loopEntry at h
  unfold abMoves
  by_cases hn : (!nullBranch && !env.isInCheck b) = true
  · rw [if_pos hn] at h
    rw [if_pos hn]
    cases htt : s3.tt with
    | none => rw [htt] at h; cases h
    | some tbl =>
      rw [htt] at h
      dsimp only at h ⊢
      cases hc : alphaBetaSearch env fuel (env.doNullMove b) [] (-beta) (-beta + 1) (depth - 3)
          true (pushMove 0 (xorHash (env.nullUpdate tbl b) s3)) with
      | ok r s6 =>
        rw [hc] at h
        dsimp only at h ⊢
        by_cases hb : -r.1 ≥ beta
        · rw [if_pos hb] at h; cases h
        · rw [if_neg hb] at h
          rw [if_neg hb]
          injection h with h
          subst h
          obtain ⟨fpp, fpm, -, ffx⟩ :=
            Framed.ok_elim ((alphaBeta_framed env fuel).1 _ _ _ _ _ _ _) hc
          refine ⟨rfl, ?_, ?_, ?_, ?_⟩
          · simp [fpp]
          · simp [fpm]
          · simp
          · simp [ffx]
      | timeout s6 => rw [hc] at h; cases h
      | nullTT => rw [hc] at h; cases h
      | noFuel => rw [hc] at h; cases h
  · rw [if_neg hn] at h
    rw [if_neg hn]
    injection h with h
    subst h
    exact ⟨rfl, rfl, rfl, rfl, rfl⟩

/-! ## From the node to its main loop -/

theorem ttStoreEnd_tt_PV (env : Env Pos TT MO) (d e : Int) (m : Move) (s : State TT) (t : TT)
    (h : s.tt = some t) :
    (ttStoreEnd env d e m NodeType.PV s).tt =
      some (env.store t s.hash d e m NodeType.PV s.initialPos) := by
  unfold ttStoreEnd
  rw [h]
  simp

theorem ttStoreEnd_tt_ALL (env : Env Pos TT MO) (d e : Int) (m : Move) (s : State TT) (t : TT)
    (h : s.tt = some t) :
    (ttStoreEnd env d e m NodeType.ALL s).tt =
      some (env.tryStore t s.hash d e m NodeType.ALL s.initialPos) := by
  unfold ttStoreEnd
  rw [h]
  simp

theorem ttStoreCut_tt (env : Env Pos TT MO) (d e : Int) (m : Move) (s : State TT) (t : TT)
    (h : s.tt = some t) :
    (ttStoreCut env d e m s).tt =
      some (env.tryStore t s.hash d e m NodeType.CUT s.initialPos) := by
  unfold ttStoreCut
  rw [h]

/-- A node with `depth >= 1` that passes the draw tests and the table probe and gets to
its main loop is the run of the loop from `loopStart`, followed by the pop of `prevPos`. -/
theorem alphaBetaSearch_loop (env : Env Pos TT MO) (fuel : Nat) (b : Pos) (pv : List Move)
    (alpha beta depth : Int) (nullBranch : Bool) (s0 s : State TT)
    (hd : 1 ≤ depth) (h50 : env.get50 b ≠ 50)
    (hrep : sameSideOccurrences (s0.prevPos ++ [s0.hash]) s0.hash < 3)
    (hprobe : ttProbeAB env s0 alpha beta depth = none)
    (hentry : loopEntry env fuel b beta depth nullBranch
      (incNodes (pushPos (uciUpdate env.toAmbient (pollStop env.toAmbient s0)))) = some s) :
    alphaBetaSearch env (fuel + 1) b pv alpha beta depth nullBranch s0 =
        scopePos (abLoopAt env fuel b depth nullBranch beta (loopStart env b alpha pv s)) ∧
      s.hash = s0.hash ∧ fixedOf s = fixedOf s0 := by
  have hr : threeFoldRep (pushPos (uciUpdate env.toAmbient
      (pollStop env.toAmbient s0))).prevPos = false := by
    simp only [pushPos_prevPos, uciUpdate_prevPos, pollStop_prevPos, uciUpdate_hash,
      pollStop_hash]
    exact threeFoldRep_false_of_lt _ s0.hash (by simp) hrep
  have hp : ttProbeAB env (incNodes (pushPos (uciUpdate env.toAmbient
      (pollStop env.toAmbient s0)))) alpha beta depth = none := by
    rw [ttProbeAB_congr env alpha beta depth (s := s0) (by simp) (by simp)]
    exact hprobe
  obtain ⟨h1, -, -, h4, h5⟩ :=
    abMoves_of_loopEntry env fuel b pv alpha beta depth nullBranch _ s hentry
  refine ⟨?_, by rw [h4]; simp, by rw [h5]; simp⟩
  rw [alphaBetaSearch_unfold env fuel b pv alpha beta depth nullBranch s0 hd, if_neg h50, hr,
    if_neg (by simp), hp]
  dsimp only
  rw [h1]

theorem triple_eta {α β γ : Type} (p : α × β × γ) (n : β) (h : p.2.1 = n) :
    p = (p.1, n, p.2.2) := by
  subst h
  rfl

/-! ## The root move that raised `worstCase` last -/

theorem RootInv_start (s : State TT) : RootInv 0 negInf s :=
  ⟨le_refl _, fun j hj => absurd hj (Nat.not_lt_zero j), fun h => absurd h (lt_irrefl _)⟩

theorem RootInv_of_le {i : Nat} {wc : Int} {s : State TT} (h : RootInv i wc s)
    (hl : s.rootMoves.length ≤ i) : RootInv s.rootMoves.length wc s := by
  obtain ⟨h1, h2, h3⟩ := h
  refine ⟨h1, fun j hj y hy => h2 j (lt_of_lt_of_le hj hl) y hy, fun hw => ?_⟩
  obtain ⟨j, x, -, hx, hxs, hlt, hpv⟩ := h3 hw
  have hjl : j < s.rootMoves.length := by
    by_contra hc
    rw [List.getElem?_eq_none (not_lt.mp hc)] at hx
    cases hx
  exact ⟨j, x, hjl, hx, hxs, hlt, hpv⟩

theorem RootInv_step {i : Nat} {wc : Int} {s : State TT} {x : ScoredMove} (score : Int)
    (t : State TT)
    (h : RootInv i wc s) (hx : s.rootMoves[i]? = some x)
    (hrm : t.rootMoves = s.rootMoves.set i (ScoredMove.mk x.m score))
    (hpv : (score > wc → t.MainPV.head? = some x.m) ∧ (¬ score > wc → t.MainPV = s.MainPV)) :
    RootInv (i + 1) (if score > wc then score else wc) t := by
  obtain ⟨h1, h2, h3⟩ := h
  have hil : i < s.rootMoves.length := by
    by_contra hc
    rw [List.getElem?_eq_none (not_lt.mp hc)] at hx
    cases hx
  have hold : ∀ j, j < i → ∀ y, t.rootMoves[j]? = some y → s.rootMoves[j]? = some y := by
    intro j hj y hy
    rw [hrm, List.getElem?_set_ne (by omega)] at hy
    exact hy
  have hnew : t.rootMoves[i]? = some (ScoredMove.mk x.m score) := by
    rw [hrm, List.getElem?_set_self hil]
  by_cases hs : score > wc
  · rw [if_pos hs]
    refine ⟨le_trans h1 (le_of_lt hs), fun j hj y hy => ?_, fun _ => ?_⟩
    · rcases Nat.lt_succ_iff_lt_or_eq.mp hj with hj | hj
      · exact le_trans (h2 j hj y (hold j hj y hy)) (le_of_lt hs)
      · subst hj
        rw [hnew] at hy
        injection hy with hy
        rw [← hy]
    · refine ⟨i, ScoredMove.mk x.m score, Nat.lt_succ_self i, hnew, rfl, fun j1 hj1 y hy => ?_,
        hpv.1 hs⟩
      exact lt_of_le_of_lt (h2 j1 hj1 y (hold j1 hj1 y hy)) hs
  · rw [if_neg hs]
    refine ⟨h1, fun j hj y hy => ?_, fun hw => ?_⟩
    · rcases Nat.lt_succ_iff_lt_or_eq.mp hj with hj | hj
      · exact h2 j hj y (hold j hj y hy)
      · subst hj
        rw [hnew] at hy
        injection hy with hy
        rw [← hy]
        exact not_lt.mp hs
    · obtain ⟨j, y, hj, hy, hys, hlt, hm⟩ := h3 hw
      refine ⟨j, y, Nat.lt_succ_of_lt hj, ?_, hys, fun j1 hj1 z hz => ?_, ?_⟩
      · rw [hrm, List.getElem?_set_ne (by omega)]
        exact hy
      · exact hlt j1 hj1 z (hold j1 (lt_trans hj1 hj) z hz)
      · rw [hpv.2 hs]
        exact hm

/-- The loop over the root moves keeps `RootInv`: when it returns, `worstCase` and `MainPV`
are those of the root move that raised `worstCase` last. -/
theorem rootLoop_inv (env : Env Pos TT MO) (fuel : Nat) (b : Pos) (k : Nat) :
    ∀ (n i : Nat) (worstCase : Int) (pv : List Move) (s s1 : State TT)
      (r : Int × List Move),
      RootInv i worstCase s → s.rootMoves.length ≤ i + n →
      rootLoop env fuel b k n i worstCase pv s = Res.ok r s1 →
      RootInv s1.rootMoves.length r.1 s1 := by
  intro n
  induction n with
  | zero =>
    intro i worstCase pv s s1 r hinv hl h
    simp only [rootLoop, Res.ok.injEq] at h
    obtain ⟨h1, h2⟩ := h
    subst h1 h2
    exact RootInv_of_le hinv (by omega)
  | succ n ih =>
    intro i worstCase pv s s1 r hinv hl h
    rw [rootLoop] at h
    split at h
    · rename_i hnone
      simp only [Res.ok.injEq] at h
      obtain ⟨h1, h2⟩ := h
      subst h1 h2
      exact RootInv_of_le hinv (List.getElem?_eq_none_iff.mp hnone)
    rename_i x hx
    dsimp only at h
    split at h
    · cases h
    split at h
    · cases h
    split at h
    · rename_i tbl htt rr s3 hq
      obtain ⟨-, -, -, h4⟩ := Framed.ok_elim ((alphaBeta_framed env fuel).1 _ _ _ _ _ _ _) hq
      simp only [xorHash_fixedOf, pushMove_fixedOf, testSearching_fixedOf] at h4
      have hrm := rootMoves_of_fixedOf h4
      have hmp := MainPV_of_fixedOf h4
      have hlen : ∀ t : State TT, t.rootMoves = s.rootMoves.set i (ScoredMove.mk x.m (-rr.1)) →
          t.rootMoves.length ≤ i + 1 + n := by
        intro t ht
        rw [ht, List.length_set]
        omega
      split at h
      · rename_i hs
        have hstep := RootInv_step (-rr.1)
          (popMove (setHash (pushMove x.m (testSearching env.toAmbient s).2).hash
            { ({ s3 with rootMoves := s3.rootMoves.set i (ScoredMove.mk x.m (-rr.1)) } :
                State TT) with MainPV := x.m :: rr.2 }))
          hinv hx (by show List.set _ _ _ = _; rw [hrm]) ⟨fun _ => rfl, fun hc => absurd hs hc⟩
        rw [if_pos hs] at hstep
        exact ih _ _ _ _ _ _ hstep (hlen _ (by show List.set _ _ _ = _; rw [hrm])) h
      · rename_i hs
        have hstep := RootInv_step (-rr.1)
          (popMove (setHash (pushMove x.m (testSearching env.toAmbient s).2).hash
            ({ s3 with rootMoves := s3.rootMoves.set i (ScoredMove.mk x.m (-rr.1)) } :
                State TT)))
          hinv hx (by show List.set _ _ _ = _; rw [hrm])
          ⟨fun hc => absurd hc hs, fun _ => hmp⟩
        rw [if_neg hs] at hstep
        exact ih _ _ _ _ _ _ hstep (hlen _ (by show List.set _ _ _ = _; rw [hrm])) h
    · cases h
    · cases h
    · cases h

theorem find?_score_first (l : List ScoredMove) (j : Nat) (x : ScoredMove)
    (hx : l[j]? = some x)
    (hlt : ∀ j1 < j, ∀ y, l[j1]? = some y → y.score < x.score) :
    l.find? (fun y => decide (y.score = x.score)) = some x := by
  induction l generalizing j with
  | nil => simp at hx
  | cons a l ih =>
    cases j with
    | zero =>
      simp only [List.getElem?_cons_zero, Option.some.injEq] at hx
      subst hx
      simp
    | succ j =>
      simp only [List.getElem?_cons_succ] at hx
      have ha : a.score < x.score := hlt 0 (Nat.succ_pos j) a (by simp)
      rw [List.find?_cons_of_neg _ (by simp; omega)]
      exact ih j hx (fun j1 hj1 y hy => hlt (j1 + 1) (Nat.succ_lt_succ hj1) y (by simpa using hy))

theorem head?_filter_eq_find? {α : Type} (p : α → Bool) (l : List α) :
    (l.filter p).head? = l.find? p := by
  induction l with
  | nil => rfl
  | cons a l ih =>
    by_cases h : p a = true
    · simp [List.filter_cons, h]
    · simp [List.filter_cons, h, ih]

/-- The stable descending sort puts first the first entry of the largest score. -/
theorem stableSortDesc_head_first (l : List ScoredMove) (j : Nat) (x : ScoredMove)
    (hx : l[j]? = some x) (hmax : ∀ y ∈ l, y.score ≤ x.score)
    (hlt : ∀ j1 < j, ∀ y, l[j1]? = some y → y.score < x.score) :
    (stableSortDesc l).head? = some x := by
  have hxl : x ∈ l := List.mem_iff_getElem?.mpr ⟨j, hx⟩
  have hxs : x ∈ stableSortDesc l := (stableSortDesc_perm l).mem_iff.mpr hxl
  cases hsort : stableSortDesc l with
  | nil => rw [hsort] at hxs; cases hxs
  | cons y rest =>
    have hy : (stableSortDesc l).head? = some y := by rw [hsort]; rfl
    have hyl : y ∈ l := (stableSortDesc_perm l).mem_iff.mp (by rw [hsort]; simp)
    have hys : y.score = x.score :=
      le_antisymm (hmax y hyl) (stableSortDesc_head_max l y hy x hxs)
    have hst := stableSortDesc_stable l x.score
    have h1 : ((stableSortDesc l).filter (fun z => decide (z.score = x.score))).head? =
        some y := by
      rw [hsort, List.filter_cons_of_pos (by simp [hys])]
      rfl
    rw [hst, head?_filter_eq_find?, find?_score_first l j x hx hlt] at h1
    injection h1 with h1
    rw [h1]
    rfl

theorem iteration_ok_rootLoop (env : Env Pos TT MO) (fuel : Nat) (b : Pos) (k : Nat)
    (s s1 : State TT) (h : iteration env fuel b k s = Res.ok () s1) :
    ∃ (r : Int × List Move) (s0 : State TT),
      rootLoop env fuel b k s.rootMoves.length 0 negInf []
        ({ s with currIDdepth := k } : State TT) = Res.ok r s0 ∧
      s1 = endIteration env s0 := by
  unfold iteration at h
  dsimp only at h
  split at h
  · rename_i r s3 hl
    simp only [Res.ok.injEq, true_and] at h
    exact ⟨r, s3, hl, h.symm⟩
  · simp at h
  · simp at h
  · simp at h

/-! ## The call tree -/

/-- The outcome of the search with its calls recorded is the outcome of the search. -/
theorem calls_erase (env : Env Pos TT MO) (fuel : Nat) :
    (∀ path b pv alpha beta depth nullBranch (s : State TT),
      (alphaBetaCalls env fuel path b pv alpha beta depth nullBranch s).1 =
        alphaBetaSearch env fuel b pv alpha beta depth nullBranch s) ∧
    (∀ path b depth nullBranch beta moves i alpha besteval nodeType topMove pv pvChild
        (s : State TT),
      (abLoopCalls env fuel path b depth nullBranch beta moves i alpha besteval nodeType
        topMove pv pvChild s).1 =
        abLoop env fuel b depth nullBranch beta moves i alpha besteval nodeType topMove pv
          pvChild s) := by
  induction fuel with
  | zero =>
    constructor
    · intros; rw [alphaBetaCalls, alphaBetaSearch]
    · intros; rw [abLoopCalls, abLoop]
  | succ fuel ih =>
    obtain ⟨ihS, ihL⟩ := ih
    constructor
    · intro path b pv alpha beta depth nullBranch s
      rw [alphaBetaCalls, alphaBetaSearch]
      by_cases hd : depth ≤ 0
      · rw [if_pos hd, if_pos hd]
      rw [if_neg hd, if_neg hd]
      dsimp only
      by_cases h50 : env.get50 b = 50
      · rw [if_pos h50, if_pos h50]
      rw [if_neg h50, if_neg h50]
      by_cases hr : threeFoldRep (pushPos (uciUpdate env.toAmbient
          (pollStop env.toAmbient s))).prevPos = true
      · rw [if_pos hr, if_pos hr]
      rw [if_neg hr, if_neg hr]
      cases hp : ttProbeAB env (incNodes (pushPos (uciUpdate env.toAmbient
          (pollStop env.toAmbient s)))) alpha beta depth with
      | some e => rfl
      | none =>
        dsimp only
        by_cases hn : (!nullBranch && !env.isInCheck b) = true
        · rw [if_pos hn, if_pos hn]
          cases htt : (incNodes (pushPos (uciUpdate env.toAmbient
              (pollStop env.toAmbient s)))).tt with
          | none => rfl
          | some tbl =>
            dsimp only
            rw [ihS]
            cases hc : alphaBetaSearch env fuel (env.doNullMove b) [] (-beta) (-beta + 1)
                (depth - 3) true
                (pushMove 0 (xorHash (env.nullUpdate tbl b)
                  (incNodes (pushPos (uciUpdate env.toAmbient (pollStop env.toAmbient s))))))
              with
            | ok r s6 =>
              dsimp only
              by_cases hb : -r.1 ≥ beta
              · rw [if_pos hb, if_pos hb]
              · rw [if_neg hb, if_neg hb]
                dsimp only
                rw [ihL]
            | timeout s6 => rfl
            | nullTT => rfl
            | noFuel => rfl
        · rw [if_neg hn, if_neg hn]
          dsimp only
          rw [ihL]
    · intro path b depth nullBranch beta moves i alpha besteval nodeType topMove pv pvChild s
      rw [abLoopCalls, abLoop]
      cases hm : env.moNext moves s.tt b with
      | none =>
        dsimp only
        by_cases hi : i = 0
        · rw [if_pos hi, if_pos hi]
        · rw [if_neg hi, if_neg hi]
      | some p =>
        obtain ⟨m, mo⟩ := p
        dsimp only
        by_cases ht : (!(testSearching env.toAmbient s).1) = true
        · rw [if_pos ht, if_pos ht]
        rw [if_neg ht, if_neg ht]
        cases htt : (pushMove m (testSearching env.toAmbient s).2).tt with
        | none => rfl
        | some tbl =>
          dsimp only
          rw [ihS]
          cases hc : alphaBetaSearch env fuel (env.makeMove b m) pvChild (-beta) (-alpha)
              (depth - 1) nullBranch
              (xorHash (env.incrementalUpdate tbl m b (env.makeMove b m))
                (pushMove m (testSearching env.toAmbient s).2)) with
          | ok r s3 =>
            dsimp only
            by_cases hb : max besteval (-r.1) ≥ beta
            · rw [if_pos hb, if_pos hb]
            rw [if_neg hb, if_neg hb]
            by_cases ha : -r.1 ≥ alpha
            · rw [if_pos ha, if_pos ha]
              dsimp only
              rw [ihL]
            · rw [if_neg ha, if_neg ha]
              dsimp only
              rw [ihL]
          | timeout s3 => rfl
          | nullTT => rfl
          | noFuel => rfl



theorem nullMoves_snoc_none (path : List (Option Move)) :
    nullMoves (path ++ [none]) = nullMoves path + 1 := by
  simp [nullMoves]

theorem nullMoves_snoc_some (path : List (Option Move)) (m : Move) :
    nullMoves (path ++ [some m]) = nullMoves path := by
  simp [nullMoves]

theorem CallInv_null_call (path : List (Option Move)) (depth : Int) (hd : 1 ≤ depth)
    (h0 : nullMoves path = 0) :
    CallInv path depth (Call.mk (path ++ [none]) depth false (depth - 3) true) := by
  refine ⟨hd, Or.inl ⟨by simp, rfl, rfl, rfl⟩, ?_, fun h => (by cases h), ?_⟩
  · show nullMoves (path ++ [none]) ≤ 1
    rw [nullMoves_snoc_none, h0]
  · show depth - 3 + ((path ++ [none]).length : Int) + 2 * (nullMoves (path ++ [none]) : Int) = _
    rw [nullMoves_snoc_none]
    simp only [List.length_append, List.length_singleton]
    push_cast
    ring

theorem CallInv_move_call (path : List (Option Move)) (depth : Int) (nb : Bool) (m : Move)
    (hd : 1 ≤ depth) (h1 : nullMoves path ≤ 1) (h0 : nb = false → nullMoves path = 0) :
    CallInv path depth (Call.mk (path ++ [some m]) depth nb (depth - 1) nb) := by
  refine ⟨hd, Or.inr ⟨m, by simp, rfl, rfl⟩, ?_, ?_, ?_⟩
  · show nullMoves (path ++ [some m]) ≤ 1
    rw [nullMoves_snoc_some]; exact h1
  · intro h
    show nullMoves (path ++ [some m]) = 0
    rw [nullMoves_snoc_some]; exact h0 h
  · show depth - 1 + ((path ++ [some m]).length : Int) +
      2 * (nullMoves (path ++ [some m]) : Int) = _
    rw [nullMoves_snoc_some]
    simp only [List.length_append, List.length_singleton]
    push_cast
    ring

theorem CallInv_of_null_child (path : List (Option Move)) (depth : Int) (c : Call)
    (h : CallInv (path ++ [none]) (depth - 3) c) : CallInv path depth c := by
  obtain ⟨h1, h2, h3, h4, h5⟩ := h
  refine ⟨h1, h2, h3, h4, ?_⟩
  rw [h5, nullMoves_snoc_none]
  simp only [List.length_append, List.length_singleton]
  push_cast
  ring

theorem CallInv_of_move_child (path : List (Option Move)) (depth : Int) (m : Move) (c : Call)
    (h : CallInv (path ++ [some m]) (depth - 1) c) : CallInv path depth c := by
  obtain ⟨h1, h2, h3, h4, h5⟩ := h
  refine ⟨h1, h2, h3, h4, ?_⟩
  rw [h5, nullMoves_snoc_some]
  simp only [List.length_append, List.length_singleton]
  push_cast
  ring

/-- Every call recorded below a node whose path holds at most one null move, and none
when the node has `nullBranch = false`, satisfies `CallInv`. -/
theorem calls_inv (env : Env Pos TT MO) (fuel : Nat) :
    (∀ path b pv alpha beta depth nullBranch (s : State TT),
      nullMoves path ≤ 1 → (nullBranch = false → nullMoves path = 0) →
      ∀ c ∈ (alphaBetaCalls env fuel path b pv alpha beta depth nullBranch s).2,
        CallInv path depth c) ∧
    (∀ path b depth nullBranch beta moves i alpha besteval nodeType topMove pv pvChild
        (s : State TT),
      nullMoves path ≤ 1 → (nullBranch = false → nullMoves path = 0) → 1 ≤ depth →
      ∀ c ∈ (abLoopCalls env fuel path b depth nullBranch beta moves i alpha besteval nodeType
        topMove pv pvChild s).2, CallInv path depth c) := by
  induction fuel with
  | zero =>
    constructor
    · intro path b pv alpha beta depth nullBranch s _ _ c hc
      rw [alphaBetaCalls] at hc
      cases hc
    · intro path b depth nullBranch beta moves i alpha besteval nodeType topMove pv pvChild s
        _ _ _ c hc
      rw [abLoopCalls] at hc
      cases hc
  | succ fuel ih =>
    obtain ⟨ihS, ihL⟩ := ih
    constructor
    · intro path b pv alpha beta depth nullBranch s h1 h0 c hc
      rw [alphaBetaCalls] at hc
      by_cases hd : depth ≤ 0
      · rw [if_pos hd] at hc; cases hc
      rw [if_neg hd] at hc
      have hd1 : 1 ≤ depth := by omega
      dsimp only at hc
      by_cases h50 : env.get50 b = 50
      · rw [if_pos h50] at hc; cases hc
      rw [if_neg h50] at hc
      by_cases hr : threeFoldRep (pushPos (uciUpdate env.toAmbient
          (pollStop env.toAmbient s))).prevPos = true
      · rw [if_pos hr] at hc; cases hc
      rw [if_neg hr] at hc
      cases hp : ttProbeAB env (incNodes (pushPos (uciUpdate env.toAmbient
          (pollStop env.toAmbient s)))) alpha beta depth with
      | some e => rw [hp] at hc; cases hc
      | none =>
        rw [hp] at hc
        dsimp only at hc
        by_cases hn : (!nullBranch && !env.isInCheck b) = true
        · rw [if_pos hn] at hc
          have hnb : nullBranch = false := by
            cases nullBranch
            · rfl
            · simp at hn
          subst hnb
          have hp0 := h0 rfl
          have hchild : ∀ tbl, ∀ c ∈ (alphaBetaCalls env fuel (path ++ [none]) (env.doNullMove b) []
              (-beta) (-beta + 1) (depth - 3) true
              (pushMove 0 (xorHash (env.nullUpdate tbl b)
                (incNodes (pushPos (uciUpdate env.toAmbient
                  (pollStop env.toAmbient s))))))).2, CallInv path depth c := by
            intro tbl c hc
            exact CallInv_of_null_child path depth c
              (ihS _ _ _ _ _ _ _ _ (by rw [nullMoves_snoc_none, hp0])
                (fun h => by cases h) c hc)
          cases htt : (incNodes (pushPos (uciUpdate env.toAmbient
              (pollStop env.toAmbient s)))).tt with
          | none => rw [htt] at hc; cases hc
          | some tbl =>
            rw [htt] at hc
            dsimp only at hc
            cases hq : (alphaBetaCalls env fuel (path ++ [none]) (env.doNullMove b) []
                (-beta) (-beta + 1) (depth - 3) true
                (pushMove 0 (xorHash (env.nullUpdate tbl b)
                  (incNodes (pushPos (uciUpdate env.toAmbient
                    (pollStop env.toAmbient s))))))).1 with
            | ok r s6 =>
              rw [hq] at hc
              dsimp only at hc
              by_cases hb : -r.1 ≥ beta
              · rw [if_pos hb] at hc
                rcases List.mem_cons.mp hc with hc | hc
                · rw [hc]; exact CallInv_null_call path depth hd1 hp0
                · exact hchild tbl c hc
              · rw [if_neg hb] at hc
                dsimp only at hc
                rcases List.mem_cons.mp hc with hc | hc
                · rw [hc]; exact CallInv_null_call path depth hd1 hp0
                · rcases List.mem_append.mp hc with hc | hc
                  · exact hchild tbl c hc
                  · exact ihL _ _ _ _ _ _ _ _ _ _ _ _ _ _ h1 h0 hd1 c hc
            | timeout s6 =>
              rw [hq] at hc
              rcases List.mem_cons.mp hc with hc | hc
              · rw [hc]; exact CallInv_null_call path depth hd1 hp0
              · exact hchild tbl c hc
            | nullTT =>
              rw [hq] at hc
              rcases List.mem_cons.mp hc with hc | hc
              · rw [hc]; exact CallInv_null_call path depth hd1 hp0
              · exact hchild tbl c hc
            | noFuel =>
              rw [hq] at hc
              rcases List.mem_cons.mp hc with hc | hc
              · rw [hc]; exact CallInv_null_call path depth hd1 hp0
              · exact hchild tbl c hc
        · rw [if_neg hn] at hc
          dsimp only at hc
          exact ihL _ _ _ _ _ _ _ _ _ _ _ _ _ _ h1 h0 hd1 c hc
    · intro path b depth nullBranch beta moves i alpha besteval nodeType topMove pv pvChild s
        h1 h0 hd1 c hc
      rw [abLoopCalls] at hc
      cases hm : env.moNext moves s.tt b with
      | none =>
        rw [hm] at hc
        dsimp only at hc
        by_cases hi : i = 0
        · rw [if_pos hi] at hc; cases hc
        · rw [if_neg hi] at hc; cases hc
      | some p =>
        obtain ⟨m, mo⟩ := p
        rw [hm] at hc
        dsimp only at hc
        by_cases ht : (!(testSearching env.toAmbient s).1) = true
        · rw [if_pos ht] at hc; cases hc
        rw [if_neg ht] at hc
        have hchild : ∀ tbl, ∀ c ∈ (alphaBetaCalls env fuel (path ++ [some m]) (env.makeMove b m)
            pvChild (-beta) (-alpha) (depth - 1) nullBranch
            (xorHash (env.incrementalUpdate tbl m b (env.makeMove b m))
              (pushMove m (testSearching env.toAmbient s).2))).2, CallInv path depth c := by
          intro tbl c hc
          exact CallInv_of_move_child path depth m c
            (ihS _ _ _ _ _ _ _ _ (by rw [nullMoves_snoc_some]; exact h1)
              (fun h => by rw [nullMoves_snoc_some]; exact h0 h) c hc)
        cases htt : (pushMove m (testSearching env.toAmbient s).2).tt with
        | none => rw [htt] at hc; cases hc
        | some tbl =>
          rw [htt] at hc
          dsimp only at hc
          cases hq : (alphaBetaCalls env fuel (path ++ [some m]) (env.makeMove b m)
              pvChild (-beta) (-alpha) (depth - 1) nullBranch
              (xorHash (env.incrementalUpdate tbl m b (env.makeMove b m))
                (pushMove m (testSearching env.toAmbient s).2))).1 with
          | ok r s3 =>
            rw [hq] at hc
            dsimp only at hc
            by_cases hb : max besteval (-r.1) ≥ beta
            · rw [if_pos hb] at hc
              rcases List.mem_cons.mp hc with hc | hc
              · rw [hc]; exact CallInv_move_call path depth nullBranch m hd1 h1 h0
              · exact hchild tbl c hc
            rw [if_neg hb] at hc
            by_cases ha : -r.1 ≥ alpha
            · rw [if_pos ha] at hc
              dsimp only at hc
              rcases List.mem_cons.mp hc with hc | hc
              · rw [hc]; exact CallInv_move_call path depth nullBranch m hd1 h1 h0
              · rcases List.mem_append.mp hc with hc | hc
                · exact hchild tbl c hc
                · exact ihL _ _ _ _ _ _ _ _ _ _ _ _ _ _ h1 h0 hd1 c hc
            · rw [if_neg ha] at hc
              dsimp only at hc
              rcases List.mem_cons.mp hc with hc | hc
              · rw [hc]; exact CallInv_move_call path depth nullBranch m hd1 h1 h0
              · rcases List.mem_append.mp hc with hc | hc
                · exact hchild tbl c hc
                · exact ihL _ _ _ _ _ _ _ _ _ _ _ _ _ _ h1 h0 hd1 c hc
          | timeout s3 =>
            rw [hq] at hc
            rcases List.mem_cons.mp hc with hc | hc
            · rw [hc]; exact CallInv_move_call path depth nullBranch m hd1 h1 h0
            · exact hchild tbl c hc
          | nullTT =>
            rw [hq] at hc
            rcases List.mem_cons.mp hc with hc | hc
            · rw [hc]; exact CallInv_move_call path depth nullBranch m hd1 h1 h0
            · exact hchild tbl c hc
          | noFuel =>
            rw [hq] at hc
            rcases List.mem_cons.mp hc with hc | hc
            · rw [hc]; exact CallInv_move_call path depth nullBranch m hd1 h1 h0
            · exact hchild tbl c hc

/-! # The claims -/

/-- Claim C1. State restoration on normal return: whenever `alphaBetaSearch` or
`quiesceSearch` returns a value, by whatever return path, the position-hash stack
`prevPos`, the move stack `prevMoves` and the running hash equal their values at the
moment of the call. -/
theorem C1_state_restored_on_return (env : Env Pos TT MO) (fuel : Nat) (b : Pos)
    (pv : List Move) (alpha beta depth : Int) (nullBranch : Bool) (s : State TT) :
    (∀ r s1, alphaBetaSearch env fuel b pv alpha beta depth nullBranch s = Res.ok r s1 →
      s1.prevPos = s.prevPos ∧ s1.prevMoves = s.prevMoves ∧ s1.hash = s.hash) ∧
    (∀ v s1, quiesceSearch env fuel b alpha beta depth s = Res.ok v s1 →
      s1.prevPos = s.prevPos ∧ s1.prevMoves = s.prevMoves ∧ s1.hash = s.hash) := by
  constructor
  · intro r s1 h
    obtain ⟨h1, h2, h3, -⟩ := Framed.ok_elim ((alphaBeta_framed env fuel).1 _ _ _ _ _ _ _) h
    exact ⟨h1, h2, h3⟩
  · intro v s1 h
    obtain ⟨h1, h2, h3, -⟩ := Framed.ok_elim ((quiesce_framed env fuel).1 _ _ _ _ _) h
    exact ⟨h1, h2, h3⟩

/-- A run of C1: a depth-1 search of `cancelEnv` that searches a move, a capture below it
and returns, and a quiescence search of the position below. -/
theorem C1_state_restored_on_return_witness :
    (∃ r s1, alphaBetaSearch cancelEnv 10 1 [] (-10) 10 1 false (midState 100) = Res.ok r s1 ∧
      s1.prevPos = [5] ∧ s1.prevMoves = [] ∧ s1.hash = 5) ∧
    (∃ v s1, quiesceSearch cancelEnv 10 11 (-10) 10 0 (midState 100) = Res.ok v s1 ∧
      s1.prevPos = [5] ∧ s1.prevMoves = [] ∧ s1.hash = 5) := by
  constructor
  · obtain ⟨r, s1, h, -, -⟩ := Res.exists_of_isOk
      (x := alphaBetaSearch cancelEnv 10 1 [] (-10) 10 1 false (midState 100)) (by decide)
    exact ⟨r, s1, h,
      (C1_state_restored_on_return cancelEnv 10 1 [] (-10) 10 1 false (midState 100)).1 r s1 h⟩
  · obtain ⟨v, s1, h, -, -⟩ := Res.exists_of_isOk
      (x := quiesceSearch cancelEnv 10 11 (-10) 10 0 (midState 100)) (by decide)
    exact ⟨v, s1, h,
      (C1_state_restored_on_return cancelEnv 10 11 [] (-10) 10 0 false (midState 100)).2 v s1 h⟩

/-- Claim C2, as stated, fails. In `cancelEnv` with `maxNodes = 0` the depth-1 search of
position `1` plays move `1` (hash `5 ^^^ 1 = 4`); the quiescence node below finds
`nodes > maxNodes`, clears the flag and throws `Timeout` at its capture. The call is left
by the exception with both stacks restored and the running hash still `4`, not `5`. -/
theorem C2_hash_not_restored_on_unwind :
    ∃ s1, alphaBetaSearch cancelEnv 10 1 [] (-10) 10 1 false (midState 0) = Res.timeout s1 ∧
      s1.prevPos = (midState 0).prevPos ∧ s1.prevMoves = (midState 0).prevMoves ∧
      s1.hash = 4 ∧ (midState 0).hash = 5 := by
  obtain ⟨s1, h, hs⟩ := Res.exists_of_isTimeout
    (x := alphaBetaSearch cancelEnv 10 1 [] (-10) 10 1 false (midState 0)) (by decide)
  have hv : (alphaBetaSearch cancelEnv 10 1 [] (-10) 10 1 false (midState 0)).finalState?.map
      (fun s => (s.prevPos, s.prevMoves, s.hash)) = some ([5], [], 4) := by decide
  rw [hs] at hv
  simp only [Option.map_some', Option.some.injEq, Prod.mk.injEq] at hv
  exact ⟨s1, h, hv.1, hv.2.1, hv.2.2, rfl⟩

/-- Claim C2, amended. State restoration on cancellation unwind: when
`alphaBetaSearch(p, alpha, beta, d, false)` is left by the `Timeout` exception, raised in
this frame or in a descendant frame, `prevPos` and `prevMoves` equal their values at the
moment of the call. (The running hash is restored by the assignment `hash = oldhash`
after a child returns, which an unwinding frame does not reach.) -/
theorem C2_stacks_restored_on_unwind (env : Env Pos TT MO) (fuel : Nat) (b : Pos)
    (pv : List Move) (alpha beta depth : Int) (s s1 : State TT)
    (h : alphaBetaSearch env fuel b pv alpha beta depth false s = Res.timeout s1) :
    s1.prevPos = s.prevPos ∧ s1.prevMoves = s.prevMoves := by
  obtain ⟨h1, h2, -⟩ := Framed.timeout_elim ((alphaBeta_framed env fuel).1 _ _ _ _ _ _ _) h
  exact ⟨h1, h2⟩

/-- A run of the amended C2: the depth-1 search of `cancelEnv` with `maxNodes = 0`, which is
cancelled in the quiescence node below its only move. -/
theorem C2_stacks_restored_on_unwind_witness :
    ∃ s1, alphaBetaSearch cancelEnv 10 1 [] (-10) 10 1 false (midState 0) = Res.timeout s1 ∧
      s1.prevPos = [5] ∧ s1.prevMoves = [] := by
  obtain ⟨s1, h, -⟩ := Res.exists_of_isTimeout
    (x := alphaBetaSearch cancelEnv 10 1 [] (-10) 10 1 false (midState 0)) (by decide)
  exact ⟨s1, h, C2_stacks_restored_on_unwind cancelEnv 10 1 [] (-10) 10 1 (midState 0) s1 h⟩

/-- Claim C3 fails on the code. In `pvEnv` the depth-2 search of position `1` with window
`(-10, 100)` returns the principal variation `[2, 7]`. Move `7` is a move of position `11`
(reached by move `1`): the search of move `1` left `[7]` in the shared list `pvChild`,
move `1` did not raise alpha, and the child of move `2` (position `12`, which has no move
and is not in check) returned `0` without writing its `pv` argument. So the variation of
the chosen move `2` continues with a move that its own position `12` does not have. -/
theorem C3_stale_sibling_variation :
    (alphaBetaSearch pvEnv 10 1 [] (-10) 100 2 false (midState 1000)).value? = some (0, [2, 7]) ∧
    pvEnv.makeMove 1 2 = 12 ∧ pvEnv.moInit none 12 0 = [] ∧ pvEnv.genMoves 12 = [] ∧
    pvEnv.genCaptures 12 = [] ∧ pvEnv.genQuiets 12 = [] ∧
    pvEnv.makeMove 1 1 = 11 ∧ pvEnv.moInit none 11 0 = [7, 8] := by
  decide

/-- Claim C4, as stated, fails. Position `1` of `stalemateEnv` is not in check and has no
move, yet with the window `(-10, 10)` and `nullBranch = false` the search returns `100`:
at depth `0` by stand-pat (`evaluate = 100 >= beta`), at depth `2` by the null-move
cutoff (the null-move search returns `-100`). -/
theorem C4_stalemate_returns_nonzero :
    stalemateEnv.isInCheck 1 = false ∧ stalemateEnv.genCaptures 1 = [] ∧
    stalemateEnv.genQuiets 1 = [] ∧ stalemateEnv.moInit (some emptyEntry) 1 5 = [] ∧
    (alphaBetaSearch stalemateEnv 5 1 [] (-10) 10 0 false (midState 100)).value?
      = some (100, []) ∧
    (alphaBetaSearch stalemateEnv 5 1 [] (-10) 10 2 false (midState 100)).value?
      = some (100, []) := by
  decide

/-- Claim C4, amended. Stalemate: for a position that is not in check and has no moves, and
`nullBranch = false`, `alphaBetaSearch` returns exactly `0` when the node is not left
earlier: at `depth <= 0` when the table gives no cutoff and `evaluate(b) < beta` (no
stand-pat cutoff); at `depth >= 1` when the table gives no cutoff and the null-move search
returns a value `v` with `-v < beta` (no null-move cutoff). -/
theorem C4_stalemate_returns_zero (env : Env Pos TT MO) (fuel : Nat) (b : Pos)
    (pv : List Move) (alpha beta depth : Int) (s : State TT)
    (hcheck : env.isInCheck b = false) (hcap : env.genCaptures b = [])
    (hquiet : env.genQuiets b = [])
    (hmo : ∀ t h t1, env.moNext (env.moInit t b h) t1 b = none) :
    (depth ≤ 0 → ttProbeQ env s alpha beta depth = none → env.evaluate b < beta →
      ∃ s1, alphaBetaSearch env (fuel + 2) b pv alpha beta depth false s = Res.ok (0, pv) s1) ∧
    (1 ≤ depth → ttProbeAB env s alpha beta depth = none →
      ∀ tbl r s6, s.tt = some tbl →
        alphaBetaSearch env (fuel + 1) (env.doNullMove b) [] (-beta) (-beta + 1) (depth - 3)
          true (nullMoveEntry env b tbl s) = Res.ok r s6 →
        -r.1 < beta →
        ∃ s1, alphaBetaSearch env (fuel + 2) b pv alpha beta depth false s =
          Res.ok (0, pv) s1) := by
  constructor
  · intro hd htt hev
    obtain ⟨s1, h⟩ := stalemate_quiesce env fuel b alpha beta depth s hcheck hcap hquiet htt hev
    rw [alphaBetaSearch, if_pos hd, h]
    exact ⟨s1, rfl⟩
  · intro hd htt tbl r s6 htbl hnull hlow
    exact stalemate_main env fuel b pv alpha beta depth s tbl r s6 hcheck hmo hd htt htbl hnull
      hlow

/-- Two runs of the amended C4 on the stalemate of `stalemateEnv` with the window
`(-10, 200)`: at depth `0` and at depth `2`, where the null-move search returns `-100`. -/
theorem C4_stalemate_returns_zero_witness :
    (∃ s1, alphaBetaSearch stalemateEnv 5 1 [] (-10) 200 0 false (midState 100) =
      Res.ok (0, []) s1) ∧
    (∃ s1, alphaBetaSearch stalemateEnv 5 1 [] (-10) 200 2 false (midState 100) =
      Res.ok (0, []) s1) := by
  have h := C4_stalemate_returns_zero stalemateEnv 3 1 [] (-10) 200
  constructor
  · exact (h 0 (midState 100) rfl rfl rfl (fun _ _ _ => rfl)).1 (by decide) (by decide)
      (by decide)
  · obtain ⟨r, s6, hr, -, hv⟩ := Res.exists_of_isOk
      (x := alphaBetaSearch stalemateEnv 4 (stalemateEnv.doNullMove 1) [] (-200) (-200 + 1)
        (2 - 3) true (nullMoveEntry stalemateEnv 1 emptyEntry (midState 100))) (by decide)
    have hval : (alphaBetaSearch stalemateEnv 4 (stalemateEnv.doNullMove 1) [] (-200)
        (-200 + 1) (2 - 3) true
        (nullMoveEntry stalemateEnv 1 emptyEntry (midState 100))).value?.map Prod.fst
          = some (-100) := by decide
    rw [hv] at hval
    simp only [Option.map_some', Option.some.injEq] at hval
    exact (h 2 (midState 100) rfl rfl rfl (fun _ _ _ => rfl)).2 (by decide) (by decide)
      emptyEntry r s6 rfl hr (by omega)

/-- Claim C5, as stated, fails on the header template. Position `1` of `hppMateEnv` is in
check and has no move, there is no draw condition and no table cutoff, yet the template
`alphaBetaSearch<true, ABSearch>` of `engine.hpp` returns `-499998` at depth `1` and
`-499999` at depth `2` of iterative-deepening pass `3`: the score is
`negInf + (currIDdepth - depth)`, not `negInf = -500000`. -/
theorem C5_header_mate_score_varies :
    hppMateEnv.isInCheck true 1 = true ∧ hppMateEnv.genMoves true 1 = [] ∧
    hppMateEnv.ply50 1 = 0 ∧
    (Hpp.alphaBetaSearch hppMateEnv 10 true Hpp.SearchType.ABSearch false (-10) 10 1 1
      (hppState 3)).value? = some (-499998) ∧
    (Hpp.alphaBetaSearch hppMateEnv 10 true Hpp.SearchType.ABSearch false (-10) 10 2 1
      (hppState 3)).value? = some (-499999) ∧
    negInf = -500000 := by
  decide

/-- Claim C5, amended. For an in-check position with no moves, absent a draw condition and a
table cutoff, the search of `engine.cpp` returns exactly `negInf = -500000`:
`alphaBetaSearch` at any depth `>= 1` and `quiesceSearch` at any depth `<= 0`, the same
value for every depth, ply and iterative-deepening pass. The older template of
`engine.hpp` is distance-adjusted. At depth `>= 1` its instantiation
`alphaBetaSearch<wToMove, ABSearch, true>` (the node searched after a null move) returns
`negInf + (std::int32_t)(currIDdepth - depth)`, which is `negInf + currIDdepth - depth`
whenever `0 <= currIDdepth - depth < 2^31`. Its instantiation
`alphaBetaSearch<wToMove, ABSearch>` (`prevMoveNull = false`) first searches the null move,
in check as well; when that search returns `v` and the board is restored by `unmakeMove`,
the node returns `max(negInf, -v)` if `max(alpha, negInf, -v) > beta`, and
`negInf + (std::int32_t)(currIDdepth - depth)` otherwise. -/
theorem C5_checkmate_score (env : Env Pos TT MO) (henv : Hpp.Env Pos TT) (fuel : Nat) (b : Pos)
    (pv : List Move) (alpha beta depth : Int) (nullBranch wToMove : Bool) (s : State TT)
    (hcheck : env.isInCheck b = true) (hcap : env.genCaptures b = [])
    (hquiet : env.genQuiets b = [])
    (hmo : ∀ t h t1, env.moNext (env.moInit t b h) t1 b = none)
    (h50 : env.get50 b ≠ 50)
    (hrep : sameSideOccurrences (s.prevPos ++ [s.hash]) s.hash < 3)
    (hhcheck : henv.isInCheck wToMove b = true) (hhmoves : henv.genMoves wToMove b = [])
    (hh50 : henv.ply50 b ≠ 50) :
    (1 ≤ depth → ttProbeAB env s alpha beta depth = none →
      ∃ s1, alphaBetaSearch env (fuel + 2) b pv alpha beta depth nullBranch s =
        Res.ok (negInf, pv) s1) ∧
    (depth ≤ 0 → ttProbeQ env s alpha beta depth = none →
      ∃ s1, quiesceSearch env (fuel + 1) b alpha beta depth s = Res.ok negInf s1) ∧
    (1 ≤ depth → Hpp.ttProbe henv wToMove s alpha beta depth = none →
      ∃ s1, Hpp.alphaBetaSearch henv (fuel + 2) wToMove Hpp.SearchType.ABSearch true alpha beta
        depth b s = Res.ok (negInf + Hpp.distance s.currIDdepth depth) (b, s1)) ∧
    (1 ≤ depth → Hpp.ttProbe henv wToMove s alpha beta depth = none →
      ∀ (b1 : Pos) (s2 : State TT) (v : Int) (b2 : Pos) (s3 : State TT),
        Hpp.makeMoveAndUpdateHash henv wToMove true (henv.getHeading b) b
          (pollStop henv.toAmbient (incNodes s)) = some (b1, s2) →
        Hpp.alphaBetaSearch henv (fuel + 1) (!wToMove) Hpp.SearchType.ABSearch true
          (-1 * beta) (-1 * alpha) (depth - 2) b1 s2 = Res.ok v (b2, s3) →
        henv.unmakeMove wToMove true b2 (henv.getHeading b) = b →
        (max alpha (max negInf (-1 * v)) > beta →
          ∃ s1, Hpp.alphaBetaSearch henv (fuel + 2) wToMove Hpp.SearchType.ABSearch false alpha
            beta depth b s = Res.ok (max negInf (-1 * v)) (b, s1)) ∧
        (max alpha (max negInf (-1 * v)) ≤ beta →
          ∃ s1, Hpp.alphaBetaSearch henv (fuel + 2) wToMove Hpp.SearchType.ABSearch false alpha
            beta depth b s = Res.ok (negInf + Hpp.distance s.currIDdepth depth) (b, s1))) ∧
    (depth ≤ s.currIDdepth → (s.currIDdepth : Int) - depth < 2 ^ 31 →
      Hpp.distance s.currIDdepth depth = (s.currIDdepth : Int) - depth) ∧
    negInf = -500000 := by
  have hr : threeFoldRep (s.prevPos ++ [s.hash]) = false := by
    rw [Bool.eq_false_iff, Ne, threeFoldRep_iff _ s.hash (by simp)]
    omega
  refine ⟨fun hd htt => mate_main env fuel b pv alpha beta depth nullBranch s hcheck hmo h50 hr
      hd htt,
    fun _ htt => mate_quiesce env fuel b alpha beta depth s hcheck hcap hquiet h50 hr htt,
    fun hd htt => Hpp.mate henv fuel wToMove alpha beta depth b s hhcheck hhmoves hh50 hd htt,
    fun hd htt b1 s2 v b2 s3 hmk hnull hun => ?_,
    fun h0 h1 => Hpp.distance_eq _ _ h0 h1, rfl⟩
  have hnode := Hpp.mate_after_null henv fuel wToMove alpha beta depth b s b1 s2 v b2 s3
    hhcheck hhmoves hh50 hd htt hmk hnull hun
  constructor
  · intro hgt
    rw [hnode, if_pos hgt]
    exact ⟨_, rfl⟩
  · intro hle
    rw [hnode, if_neg (not_lt.mpr hle)]
    exact ⟨_, rfl⟩

/-- Runs of the amended C5 on the checkmates of `mateEnv` and `hppMateEnv`, in
iterative-deepening pass `3`: `engine.cpp` returns `negInf` at depth `2` and in
quiescence; the header template returns `negInf + 1` at depth `2` after a null move and,
with `prevMoveNull = false`, where its null-move search returns `0`, it returns
`negInf + 1` at depth `2` with the window `(-10, 10)` and `0` at depth `3` with the window
`(-10, -5)`. -/
theorem C5_checkmate_score_witness :
    (∃ s1, alphaBetaSearch mateEnv 2 1 [] (-10) 10 2 false (hppState 3) =
      Res.ok (negInf, []) s1) ∧
    (∃ s1, quiesceSearch mateEnv 1 1 (-10) 10 0 (hppState 3) = Res.ok negInf s1) ∧
    (∃ s1, Hpp.alphaBetaSearch hppMateEnv 2 true Hpp.SearchType.ABSearch true (-10) 10 2 1
      (hppState 3) = Res.ok (negInf + 1) (1, s1)) ∧
    (∃ s1, Hpp.alphaBetaSearch hppMateEnv 10 true Hpp.SearchType.ABSearch false (-10) 10 2 1
      (hppState 3) = Res.ok (negInf + 1) (1, s1)) ∧
    (∃ s1, Hpp.alphaBetaSearch hppMateEnv 10 true Hpp.SearchType.ABSearch false (-10) (-5) 3 1
      (hppState 3) = Res.ok 0 (1, s1)) := by
  have h2 := C5_checkmate_score mateEnv hppMateEnv 0 1 [] (-10) 10 2 false true (hppState 3)
    rfl rfl rfl (fun _ _ _ => rfl) (by decide) (by decide) rfl rfl (by decide)
  have h0 := C5_checkmate_score mateEnv hppMateEnv 0 1 [] (-10) 10 0 false true (hppState 3)
    rfl rfl rfl (fun _ _ _ => rfl) (by decide) (by decide) rfl rfl (by decide)
  have htt : (pollStop hppMateEnv.toAmbient (incNodes (hppState 3))).tt = some emptyEntry := by
    decide
  have hmk : Hpp.makeMoveAndUpdateHash hppMateEnv true true (hppMateEnv.getHeading 1) 1
      (pollStop hppMateEnv.toAmbient (incNodes (hppState 3))) =
      some (1001, xorHash 0 (xorHash 1
        (pollStop hppMateEnv.toAmbient (incNodes (hppState 3))))) := by
    unfold Hpp.makeMoveAndUpdateHash
    rw [htt]
    rfl
  have ha := C5_checkmate_score mateEnv hppMateEnv 8 1 [] (-10) 10 2 false true (hppState 3)
    rfl rfl rfl (fun _ _ _ => rfl) (by decide) (by decide) rfl rfl (by decide)
  have hb := C5_checkmate_score mateEnv hppMateEnv 8 1 [] (-10) (-5) 3 false true (hppState 3)
    rfl rfl rfl (fun _ _ _ => rfl) (by decide) (by decide) rfl rfl (by decide)
  obtain ⟨v, p, hr, hfin, hv⟩ := Res.exists_of_isOk
    (x := Hpp.alphaBetaSearch hppMateEnv 9 (!true) Hpp.SearchType.ABSearch true (-1 * 10)
      (-1 * -10) (2 - 2) 1001
      (xorHash 0 (xorHash 1 (pollStop hppMateEnv.toAmbient (incNodes (hppState 3))))))
    (by decide)
  have hval : (Hpp.alphaBetaSearch hppMateEnv 9 (!true) Hpp.SearchType.ABSearch true (-1 * 10)
      (-1 * -10) (2 - 2) 1001
      (xorHash 0 (xorHash 1 (pollStop hppMateEnv.toAmbient (incNodes (hppState 3)))))).value?
        = some 0 := by decide
  have hpos : (Hpp.alphaBetaSearch hppMateEnv 9 (!true) Hpp.SearchType.ABSearch true (-1 * 10)
      (-1 * -10) (2 - 2) 1001
      (xorHash 0 (xorHash 1
        (pollStop hppMateEnv.toAmbient (incNodes (hppState 3)))))).finalState?.map Prod.fst
        = some 1001 := by decide
  rw [hv] at hval
  rw [hfin] at hpos
  simp only [Option.map_some', Option.some.injEq] at hval hpos
  obtain ⟨w, q, hr2, hfin2, hv2⟩ := Res.exists_of_isOk
    (x := Hpp.alphaBetaSearch hppMateEnv 9 (!true) Hpp.SearchType.ABSearch true (-1 * -5)
      (-1 * -10) (3 - 2) 1001
      (xorHash 0 (xorHash 1 (pollStop hppMateEnv.toAmbient (incNodes (hppState 3))))))
    (by decide)
  have hval2 : (Hpp.alphaBetaSearch hppMateEnv 9 (!true) Hpp.SearchType.ABSearch true
      (-1 * -5) (-1 * -10) (3 - 2) 1001
      (xorHash 0 (xorHash 1 (pollStop hppMateEnv.toAmbient (incNodes (hppState 3)))))).value?
        = some 0 := by decide
  have hpos2 : (Hpp.alphaBetaSearch hppMateEnv 9 (!true) Hpp.SearchType.ABSearch true
      (-1 * -5) (-1 * -10) (3 - 2) 1001
      (xorHash 0 (xorHash 1
        (pollStop hppMateEnv.toAmbient (incNodes (hppState 3)))))).finalState?.map Prod.fst
        = some 1001 := by decide
  rw [hv2] at hval2
  rw [hfin2] at hpos2
  simp only [Option.map_some', Option.some.injEq] at hval2 hpos2
  have hun : hppMateEnv.unmakeMove true true p.1 (hppMateEnv.getHeading 1) = 1 := by
    rw [hpos]; rfl
  have hun2 : hppMateEnv.unmakeMove true true q.1 (hppMateEnv.getHeading 1) = 1 := by
    rw [hpos2]; rfl
  have hA := (ha.2.2.2.1 (by decide) (by decide) 1001 _ v p.1 p.2 hmk hr hun).2
    (by rw [hval]; decide)
  have hB := (hb.2.2.2.1 (by decide) (by decide) 1001 _ w q.1 q.2 hmk hr2 hun2).1
    (by rw [hval2]; decide)
  rw [hval2] at hB
  exact ⟨h2.1 (by decide) (by decide), h0.2.1 (by decide) (by decide),
    h2.2.2.1 (by decide) (by decide), hA, hB⟩

/-- Claim C6. Draw by repetition short-circuits the node: if, once the running hash is pushed,
that hash occurs at least three times at plies with the same side to move (the top and
entries at even distance below it), then `quiesceSearch`, and `alphaBetaSearch` with
`depth >= 1` and a 50-move counter other than `50`, return `0`. A recursion budget of one
frame suffices, so no move is searched; the node counter and the table are those of the
call: `quiesceSearch` ends in the very state it was entered in, `alphaBetaSearch` in that
state after the stop poll and the telemetry throttle. -/
theorem C6_repetition_returns_zero (env : Env Pos TT MO) (fuel : Nat) (b : Pos)
    (pv : List Move) (alpha beta depth : Int) (nullBranch : Bool) (s : State TT)
    (hrep : 3 ≤ sameSideOccurrences (s.prevPos ++ [s.hash]) s.hash) :
    quiesceSearch env (fuel + 1) b alpha beta depth s = Res.ok 0 s ∧
    (1 ≤ depth → env.get50 b ≠ 50 →
      alphaBetaSearch env (fuel + 1) b pv alpha beta depth nullBranch s =
          Res.ok (0, pv) (uciUpdate env.toAmbient (pollStop env.toAmbient s)) ∧
        (uciUpdate env.toAmbient (pollStop env.toAmbient s)).nodes = s.nodes ∧
        (uciUpdate env.toAmbient (pollStop env.toAmbient s)).tt = s.tt) := by
  have h3 : threeFoldRep (s.prevPos ++ [s.hash]) = true :=
    (threeFoldRep_iff _ s.hash (by simp)).mpr hrep
  constructor
  · rw [quiesceSearch]
    simp only [pushPos_prevPos, h3, if_true, scopePos, popPos_pushPos]
  · intro hd h50
    refine ⟨?_, by simp, by simp⟩
    rw [alphaBetaSearch, if_neg (by omega), if_neg h50]
    have h3a : threeFoldRep (pushPos (uciUpdate env.toAmbient (pollStop env.toAmbient s))).prevPos
        = true := by
      simpa using h3
    simp only [h3a, if_true, scopePos, popPos_pushPos]

/-- A run of C6 on the history `5, 9, 5, 9` with running hash `5`. -/
theorem C6_repetition_returns_zero_witness :
    quiesceSearch cancelEnv 1 11 (-10) 10 0 repState = Res.ok 0 repState ∧
    alphaBetaSearch cancelEnv 1 1 [] (-10) 10 3 false repState =
      Res.ok (0, []) (uciUpdate cancelEnv.toAmbient (pollStop cancelEnv.toAmbient repState)) :=
  ⟨(C6_repetition_returns_zero cancelEnv 0 11 [] (-10) 10 0 false repState (by decide)).1,
    ((C6_repetition_returns_zero cancelEnv 0 1 [] (-10) 10 3 false repState (by decide)).2
      (by decide) (by decide)).1⟩

/-- Claim C7. 50-move rule: for a position whose 50-move counter is `50`, `alphaBetaSearch`
returns exactly `0` for every window, every depth (positive or not), either value of
`nullBranch` and every content of the table, and the node counter is the one of the
call. -/
theorem C7_fifty_move_rule (env : Env Pos TT MO) (fuel : Nat) (b : Pos) (pv : List Move)
    (alpha beta depth : Int) (nullBranch : Bool) (s : State TT) (h50 : env.get50 b = 50) :
    ∃ s1, alphaBetaSearch env (fuel + 2) b pv alpha beta depth nullBranch s = Res.ok (0, pv) s1
      ∧ s1.nodes = s.nodes := by
  by_cases hd : depth ≤ 0
  · rw [alphaBetaSearch, if_pos hd, quiesceSearch]
    simp only [h50]
    split_ifs
    · exact ⟨_, rfl, by simp⟩
    · exact ⟨_, rfl, by simp⟩
  · rw [alphaBetaSearch, if_neg hd]
    simp only [h50, if_true]
    exact ⟨_, rfl, by simp⟩

/-- Two runs of C7, at depth `3` and at depth `0`, in a game whose positions all have the
counter `50`. -/
theorem C7_fifty_move_rule_witness :
    (∃ s1, alphaBetaSearch fiftyEnv 2 1 [] (-10) 10 3 false (midState 100) = Res.ok (0, []) s1
      ∧ s1.nodes = 0) ∧
    (∃ s1, alphaBetaSearch fiftyEnv 2 1 [] (-10) 10 0 true (midState 100) = Res.ok (0, []) s1
      ∧ s1.nodes = 0) :=
  ⟨C7_fifty_move_rule fiftyEnv 0 1 [] (-10) 10 3 false (midState 100) rfl,
    C7_fifty_move_rule fiftyEnv 0 1 [] (-10) 10 0 true (midState 100) rfl⟩

/-- Claim C8, as stated, fails. `rootSearch` on `rootEnv` with `maxNodes = 0` scores the
root move `1` with `-10` and the root move `2` with `5` in its first pass and finds the
flag clear at the root move `3`. It emits `bestmove 1`, the first root move, whose score
`-10` is not maximal among the scores of that partial pass. -/
theorem C8_partial_pass_emits_first_move :
    (rootSearch rootEnv 10 1 [] [5] (midState 0)).map (fun s => (s.out.getLast?, s.rootMoves))
      = some (some (Output.bestmove (some 1)),
          [ScoredMove.mk 1 (-10), ScoredMove.mk 2 5, ScoredMove.mk 3 negInf]) := by
  decide

/-- Claim C8, amended. Cancellation before any iteration completes: if the search stops (flag
found clear at a root move, or `Timeout` caught) during the first iterative-deepening
pass, `rootSearch` ends at once and the move emitted as bestmove is `rootMoves[0]`, the
first root move in the order of the move generator, whatever the scores given in that
partial pass. -/
theorem C8_first_pass_stop_emits_first_generated (env : Env Pos TT MO) (fuel : Nat) (b : Pos)
    (moveHist : List Move) (posHist : List Nat) (s s2 : State TT)
    (hstop : iteration env fuel b 1 (rootInit env b moveHist posHist s) = Res.timeout s2) :
    rootSearch env fuel b moveHist posHist s = some (endsearch s2) ∧
    (endsearch s2).out.getLast? = some (Output.bestmove (env.genMoves b).head?) := by
  constructor
  · unfold rootSearch
    show (match deepen env fuel b (127 + 1) 1 _ with
      | Res.ok _ s1 => some (endsearch s1)
      | Res.timeout s1 => some (endsearch s1)
      | Res.nullTT => none
      | Res.noFuel => none) = _
    rw [deepen, hstop]
  · rw [endsearch_bestmove, iteration_stop_moves env fuel b 1 _ s2 hstop]
    simp [rootInit, List.map_map, Function.comp_def]

/-- A run of the amended C8: the first pass of `rootSearch` on `rootEnv` with `maxNodes = 0`,
which stops at the third root move; `bestmove 1` is emitted. -/
theorem C8_first_pass_stop_emits_first_generated_witness :
    ∃ s2, iteration rootEnv 10 1 1 (rootInit rootEnv 1 [] [5] (midState 0)) = Res.timeout s2 ∧
      rootSearch rootEnv 10 1 [] [5] (midState 0) = some (endsearch s2) ∧
      (endsearch s2).out.getLast? = some (Output.bestmove (some 1)) := by
  obtain ⟨s2, h, -⟩ := Res.exists_of_isTimeout
    (x := iteration rootEnv 10 1 1 (rootInit rootEnv 1 [] [5] (midState 0))) (by decide)
  exact ⟨s2, h,
    C8_first_pass_stop_emits_first_generated rootEnv 10 1 [] [5] (midState 0) s2 h⟩

/-- Claim C9. Cancellation after a completed iteration: if pass `k` completes in state `s`
and the search stops (flag found clear at a root move, or `Timeout` caught) during pass
`k + 1`, then the loop over the passes ends with that stop, the emitted bestmove is
`rootMoves[0]` of `s`, that is of the order the stable sort that ended pass `k` produced,
whose first entry has the largest score of pass `k`; the scores overwritten during the
abandoned pass do not change the order of `rootMoves`. -/
theorem C9_stop_after_completed_pass (env : Env Pos TT MO) (fuel : Nat) (b : Pos) (n k : Nat)
    (sP s s2 : State TT)
    (hprev : iteration env fuel b k sP = Res.ok () s)
    (hstop : iteration env fuel b (k + 1) s = Res.timeout s2) :
    deepen env fuel b (n + 2) k sP = Res.timeout s2 ∧
    (endsearch s2).out.getLast? = some (Output.bestmove (s.rootMoves.head?.map (fun y => y.m))) ∧
    s2.rootMoves.map (fun y => y.m) = s.rootMoves.map (fun y => y.m) ∧
    (∃ s0 : State TT, s.rootMoves = stableSortDesc s0.rootMoves) ∧
    (∀ y, s.rootMoves.head? = some y → ∀ x ∈ s.rootMoves, x.score ≤ y.score) := by
  obtain ⟨s0, hs0⟩ := iteration_ok_sorted env fuel b k sP s hprev
  refine ⟨?_, ?_, iteration_stop_moves env fuel b (k + 1) s s2 hstop, ⟨s0, hs0⟩, ?_⟩
  · rw [deepen, hprev]
    dsimp only
    rw [deepen, hstop]
  · rw [endsearch_bestmove, iteration_stop_moves env fuel b (k + 1) s s2 hstop,
      List.head?_map]
  · intro y hy x hx
    rw [hs0] at hy hx
    exact stableSortDesc_head_max _ y hy x hx

/-- A run of C9: `rootSearch` on `rootEnv` with `maxNodes = 4` completes its first pass
with the order `2, 3, 1` (scores `5, 0, -10`); the second pass scores move `2` anew with
`-20` and is then abandoned; the order is still `2, 3, 1` and `bestmove 2` is emitted. -/
theorem C9_stop_after_completed_pass_witness :
    afterFirstPass.rootMoves = [ScoredMove.mk 2 5, ScoredMove.mk 3 0, ScoredMove.mk 1 (-10)] ∧
    ∃ s2, iteration rootEnv 10 1 2 afterFirstPass = Res.timeout s2 ∧
      s2.rootMoves = [ScoredMove.mk 2 (-20), ScoredMove.mk 3 0, ScoredMove.mk 1 (-10)] ∧
      deepen rootEnv 10 1 128 1 (rootInit rootEnv 1 [] [5] (midState 4)) = Res.timeout s2 ∧
      (endsearch s2).out.getLast? = some (Output.bestmove (some 2)) := by
  have hfirst : afterFirstPass.rootMoves =
      [ScoredMove.mk 2 5, ScoredMove.mk 3 0, ScoredMove.mk 1 (-10)] := by decide!
  have hisok : (iteration rootEnv 10 1 1 (rootInit rootEnv 1 [] [5] (midState 4))).isOk
      = true := by decide!
  have hprev : iteration rootEnv 10 1 1 (rootInit rootEnv 1 [] [5] (midState 4)) =
      Res.ok () afterFirstPass := Res.eq_ok_of_isOk (midState 4) hisok
  have hist : (iteration rootEnv 10 1 2 afterFirstPass).isTimeout = true := by decide!
  obtain ⟨s2, hstop, hfin⟩ := Res.exists_of_isTimeout hist
  have hrm : (iteration rootEnv 10 1 2 afterFirstPass).finalState?.map (fun s => s.rootMoves)
      = some [ScoredMove.mk 2 (-20), ScoredMove.mk 3 0, ScoredMove.mk 1 (-10)] := by decide!
  rw [hfin] at hrm
  simp only [Option.map_some', Option.some.injEq] at hrm
  have h := C9_stop_after_completed_pass rootEnv 10 1 126 1
    (rootInit rootEnv 1 [] [5] (midState 4)) afterFirstPass s2 hprev hstop
  have hbest := h.2.1
  rw [hfirst] at hbest
  exact ⟨hfirst, s2, hstop, hrm, h.1, hbest⟩

/-- Claim C10. Stop predicate without `infiniteSearch`: with `infiniteSearch = false`, for a
clock that reads the elapsed time `t` and for every node count, `shouldStop()` is false
when `ponder` is set, and otherwise it is true if and only if `t > moveTime` or
`t > maxTime` or `nodes > maxNodes`. -/
theorem C10_shouldStop_without_infiniteSearch (w : Ambient) (s : State TT) (t : Int)
    (hclock : ∀ n, w.now n = t) (hinf : s.settings.infiniteSearch = false) :
    (s.settings.ponder = true → (shouldStop w s).1 = false) ∧
    (s.settings.ponder = false →
      ((shouldStop w s).1 = true ↔
        (t > s.moveTime ∨ t > s.settings.maxTime ∨ s.nodes > s.settings.maxNodes))) := by
  constructor
  · intro hp
    simp [shouldStop, hp]
  · intro hp
    unfold shouldStop elapsed
    simp only [hp, hinf, hclock]
    by_cases h1 : t > s.moveTime <;> by_cases h2 : t > s.settings.maxTime <;>
      by_cases h3 : s.nodes > s.settings.maxNodes <;> simp [h1, h2, h3]

/-- A use of C10: the engine state `busyState` (8 nodes searched, `maxNodes = 7`) under the
clock of `cancelEnv`, which reads `0`: the predicate is true. -/
theorem C10_shouldStop_without_infiniteSearch_witness :
    busyState.settings.infiniteSearch = false ∧ busyState.settings.ponder = false ∧
      (shouldStop cancelEnv.toAmbient busyState).1 = true :=
  ⟨rfl, rfl, ((C10_shouldStop_without_infiniteSearch cancelEnv.toAmbient busyState 0
    (fun _ => rfl) rfl).2 rfl).mpr (Or.inr (Or.inr (by decide)))⟩

/-- Claim C11, as stated, fails. With `infiniteSearch = true`, `ponder = false`, no node
searched (`nodes = 0 <= maxNodes = 1000`), `maxTime = 100` and an elapsed time of `200`,
`shouldStop()` is true: the last disjunct `elapsed() > settings.maxTime` of the return
statement is outside the `infiniteSearch` guard. -/
theorem C11_infinite_search_stops_on_maxTime :
    infiniteState.settings.infiniteSearch = true ∧ infiniteState.settings.ponder = false ∧
    ¬ (infiniteState.nodes > infiniteState.settings.maxNodes) ∧
    (shouldStop lateClock infiniteState).1 = true := by
  decide

/-- Claim C11, amended. Stop predicate with `infiniteSearch`: with `infiniteSearch = true`
and `ponder = false` the comparison with `moveTime` is forced to false, and for a clock
that reads the elapsed time `t`, `shouldStop()` is true if and only if
`nodes > maxNodes` or `t > maxTime`, for every `moveTime`. -/
theorem C11_shouldStop_with_infiniteSearch (w : Ambient) (s : State TT) (t : Int)
    (hclock : ∀ n, w.now n = t) (hinf : s.settings.infiniteSearch = true)
    (hp : s.settings.ponder = false) :
    (shouldStop w s).1 = true ↔ (s.nodes > s.settings.maxNodes ∨ t > s.settings.maxTime) := by
  unfold shouldStop elapsed
  simp only [hp, hinf, hclock]
  by_cases h2 : t > s.settings.maxTime <;>
    by_cases h3 : s.nodes > s.settings.maxNodes <;> simp [h2, h3]

/-- Two uses of the amended C11 on `infiniteState`: under a clock that reads `200` the
predicate is true, under the clock of `cancelEnv`, which reads `0`, it is false. -/
theorem C11_shouldStop_with_infiniteSearch_witness :
    (shouldStop lateClock infiniteState).1 = true ∧
    ¬ (shouldStop cancelEnv.toAmbient infiniteState).1 = true :=
  ⟨(C11_shouldStop_with_infiniteSearch lateClock infiniteState 200 (fun _ => rfl) rfl rfl).mpr
      (Or.inr (by decide)),
    fun h => absurd ((C11_shouldStop_with_infiniteSearch cancelEnv.toAmbient infiniteState 0
      (fun _ => rfl) rfl rfl).mp h) (by decide)⟩

/-- Claim C12, as stated, fails. With `2^62` milliseconds on White's clock, no moves to go
and 30 positions played (`moveNumber = 16`), `rootSearch` sets `moveTime` to
`461168601842738816`, the `double` product `0.1 * mytime` of engine.cpp 189, a multiple of
`64`; one tenth of `mytime`, truncated to whole milliseconds, is `461168601842738790`. -/
theorem C12_double_rounding_at_large_clock :
    (rootInit rootEnv 1 [] (List.replicate 30 5) bigClockState).moveTime
      = 461168601842738816 ∧
    truncQ (((2 ^ 62 : Int) : ℚ) / 10) = 461168601842738790 ∧
    (rootInit rootEnv 1 [] (List.replicate 30 5) bigClockState).moveTime
      ≠ truncQ (((2 ^ 62 : Int) : ℚ) / 10) := by
  have h1 : (rootInit rootEnv 1 [] (List.replicate 30 5) bigClockState).moveTime
      = 461168601842738816 := by decide!
  have h2 : truncQ (((2 ^ 62 : Int) : ℚ) / 10) = 461168601842738790 := by
    have := truncQ_div (2 ^ 62) 10 (by norm_num)
    rw [show ((10 : ℚ)) = (((10 : Int)) : ℚ) by norm_num, this]
    decide
  refine ⟨h1, h2, ?_⟩
  rw [h1, h2]
  decide

/-- Claim C12, amended. Move-time budget: with `mytime` and `myinc` the clock and
increment, in whole milliseconds, of the side to move, `N = movestogo` and
`moveNumber = (positionHistory.size + 2) / 2`, and for `mytime` and `myinc` of absolute
value at most `2^40` milliseconds, `rootSearch` sets `moveTime` to `mytime / 40` when `N` is
the max sentinel or `0` and `moveNumber < 12`, to one tenth of `mytime` when `N` is the max
sentinel or `0` and `moveNumber >= 12`, and, when `N` is neither and at most `1024`, to
`0.95 * mytime / N + myinc / 3`, each truncated to whole milliseconds (`myinc / 3` is the
quotient of whole milliseconds, as in the code); the formulas are those of exact
arithmetic, which the `double` arithmetic of the code meets in this range; `N` divides
only in the last case, where `N` is not `0`. -/
theorem C12_move_time_budget (env : Env Pos TT MO) (b : Pos) (moveHist : List Move)
    (posHist : List Nat) (s : State TT) :
    let mytime := if env.isWhiteToPlay b then s.settings.wmsec else s.settings.bmsec
    let myinc := if env.isWhiteToPlay b then s.settings.winc else s.settings.binc
    let moveNumber := (posHist.length + 2) / 2
    |mytime| ≤ 2 ^ 40 → |myinc| ≤ 2 ^ 40 →
    ((s.settings.movestogo = 2 ^ 64 - 1 ∨ s.settings.movestogo = 0) → moveNumber < 12 →
      (rootInit env b moveHist posHist s).moveTime = truncQ ((mytime : ℚ) / 40)) ∧
    ((s.settings.movestogo = 2 ^ 64 - 1 ∨ s.settings.movestogo = 0) → 12 ≤ moveNumber →
      (rootInit env b moveHist posHist s).moveTime = truncQ ((mytime : ℚ) / 10)) ∧
    (s.settings.movestogo ≠ 2 ^ 64 - 1 → s.settings.movestogo ≠ 0 →
      s.settings.movestogo ≤ 1024 →
      (rootInit env b moveHist posHist s).moveTime =
        truncQ ((95 / 100 : ℚ) * (mytime : ℚ) / (s.settings.movestogo : ℚ) +
          ((truncQ ((myinc : ℚ) / 3) : Int) : ℚ))) := by
  intro mytime myinc moveNumber hm hi
  have hrt : (rootInit env b moveHist posHist s).moveTime
      = moveTimeBudget s.settings (env.isWhiteToPlay b) posHist.length := rfl
  refine ⟨?_, ?_, ?_⟩
  · intro hN hmn
    rw [hrt]
    unfold moveTimeBudget
    dsimp only
    rw [if_pos hN, if_pos hmn]
    exact budget_fortieth mytime hm
  · intro hN hmn
    rw [hrt]
    unfold moveTimeBudget
    dsimp only
    rw [if_pos hN, if_neg (by omega)]
    exact budget_tenth mytime hm
  · intro h1 h2 h3
    have hk : truncQ ((myinc : ℚ) / 3) = myinc.tdiv 3 := by
      have := truncQ_div myinc 3 (by norm_num)
      rw [← this]
      norm_num
    have hk3 : 3 * |myinc.tdiv 3| ≤ 2 ^ 40 := by
      have := abs_tdiv_le myinc 3 (by norm_num)
      push_cast at this
      omega
    rw [hrt, hk]
    unfold moveTimeBudget
    dsimp only
    rw [if_neg (by
      intro h
      rcases h with h | h
      · exact h1 h
      · exact h2 h)]
    exact budget_movestogo mytime (myinc.tdiv 3) s.settings.movestogo hm hk3 h2 h3

/-- Three uses of C12 on the root position of `rootEnv` (White to move): without moves to
go, early in the game (`60000 / 40 = 1500`) and after 30 positions (`60000 / 10 = 6000`);
and with 30 moves to go (`0.95 * 1000 / 30 + 100 / 3`, which is `64`). -/
theorem C12_move_time_budget_witness :
    ((rootInit rootEnv 1 [] [5] (midState 4)).moveTime = truncQ ((60000 : ℚ) / 40) ∧
      (rootInit rootEnv 1 [] [5] (midState 4)).moveTime = 1500) ∧
    ((rootInit rootEnv 1 [] (List.replicate 30 5) (midState 4)).moveTime
        = truncQ ((60000 : ℚ) / 10) ∧
      (rootInit rootEnv 1 [] (List.replicate 30 5) (midState 4)).moveTime = 6000) ∧
    ((rootInit rootEnv 1 [] [5] movesToGoState).moveTime =
        truncQ ((95 / 100 : ℚ) * (1000 : ℚ) / (30 : ℚ) +
          ((truncQ ((100 : ℚ) / 3) : Int) : ℚ)) ∧
      (rootInit rootEnv 1 [] [5] movesToGoState).moveTime = 64) := by
  refine ⟨⟨?_, by decide⟩, ⟨?_, by decide!⟩, ⟨?_, by decide!⟩⟩
  · have h := (C12_move_time_budget rootEnv 1 [] [5] (midState 4) (by decide) (by decide)).1
      (Or.inl (by decide)) (by decide)
    simpa using h
  · have h := (C12_move_time_budget rootEnv 1 [] (List.replicate 30 5) (midState 4)
      (by decide) (by decide)).2.1 (Or.inl (by decide)) (by decide)
    simpa using h
  · have h := (C12_move_time_budget rootEnv 1 [] [5] movesToGoState (by decide)
      (by decide)).2.2 (by decide) (by decide) (by decide)
    simpa using h

/-- Claim C13 fails on the code. With no table set, `rootSearch` does start with the
running hash `0`, but the search is not table-free: the hash delta of every move and of
the null move is computed by a call through the table pointer, without a test of the
pointer. In the model the call through the null pointer ends the run: `rootSearch` on
`rootEnv` at its first root move (engine.cpp 224), `alphaBetaSearch` at the first move of
its loop (523) and at its null move (481), `quiesceSearch` at its first capture (385). -/
theorem C13_null_table_is_dereferenced :
    noTableState.tt = none ∧
    (rootInit rootEnv 1 [] [5] noTableState).hash = 0 ∧
    (deepen rootEnv 10 1 128 1 (rootInit rootEnv 1 [] [5] noTableState)).isNullTT = true ∧
    (rootSearch rootEnv 10 1 [] [5] noTableState).isNone = true ∧
    (alphaBetaSearch cancelEnv 10 1 [] (-10) 10 1 false noTableState).isNullTT = true ∧
    (alphaBetaSearch stalemateEnv 10 1 [] (-10) 10 2 false noTableState).isNullTT = true ∧
    (quiesceSearch cancelEnv 10 11 (-10) 10 0 noTableState).isNullTT = true := by
  decide

/-- Claim C14. Root ordering after a completed iteration: when a pass entered in state `s`
completes in state `s1`, the moves of `rootMoves` are a permutation of those of `s` (so of
the generated root moves, which is what `rootSearch` starts with), the scores are in
non-increasing order, the entries of any one score stand in the order they had before the
sort, which is the order of the moves of `s`, and the reported `eval`, member and `info`
line, equals `rootMoves[0].score`, the largest score of the pass. -/
theorem C14_root_ordering_after_pass (env : Env Pos TT MO) (fuel : Nat) (b : Pos) (k : Nat)
    (s s1 : State TT) (h : iteration env fuel b k s = Res.ok () s1) :
    (s1.rootMoves.map (fun y => y.m)).Perm (s.rootMoves.map (fun y => y.m)) ∧
    ((s.rootMoves.map (fun y => y.m)).Perm (env.genMoves b) →
      (s1.rootMoves.map (fun y => y.m)).Perm (env.genMoves b)) ∧
    (∀ (mh : List Move) (ph : List Nat) (t : State TT),
      (rootInit env b mh ph t).rootMoves.map (fun y => y.m) = env.genMoves b) ∧
    List.Pairwise (fun x y => x.score ≥ y.score) s1.rootMoves ∧
    (∃ s0 : State TT, s1.rootMoves = stableSortDesc s0.rootMoves ∧
      s0.rootMoves.map (fun y => y.m) = s.rootMoves.map (fun y => y.m) ∧
      ∀ v : Int, s1.rootMoves.filter (fun x => decide (x.score = v)) =
        s0.rootMoves.filter (fun x => decide (x.score = v))) ∧
    (∀ y, s1.rootMoves.head? = some y →
      s1.eval = y.score ∧ (∀ x ∈ s1.rootMoves, x.score ≤ y.score) ∧
      ∃ d t n p pv, s1.out.getLast? = some (Output.info d y.score t n p pv)) := by
  obtain ⟨s0, rfl, hm⟩ := iteration_ok_elim env fuel b k s s1 h
  have hperm : ((endIteration env s0).rootMoves.map (fun y => y.m)).Perm
      (s.rootMoves.map (fun y => y.m)) := by
    rw [endIteration_rootMoves, ← hm]
    exact (stableSortDesc_perm _).map _
  refine ⟨hperm, fun hg => hperm.trans hg, ?_, stableSortDesc_sorted _,
    ⟨s0, rfl, hm, fun v => stableSortDesc_stable _ v⟩, ?_⟩
  · intro mh ph t
    simp [rootInit, List.map_map, Function.comp_def]
  · intro y hy
    rw [endIteration_rootMoves] at hy
    have he : (endIteration env s0).eval = y.score := by
      rw [endIteration_eval, hy]; rfl
    refine ⟨he, ?_, ?_⟩
    · intro x hx
      exact stableSortDesc_head_max _ y hy x hx
    · obtain ⟨t, n, p, ho⟩ := endIteration_out env s0
      rw [he] at ho
      exact ⟨s0.currIDdepth, t, n, p, s0.MainPV, by rw [ho]; simp⟩

/-- A run of C14: the first pass of `rootSearch` on `tieEnv` scores the root moves
`1, 2, 3` with `0, 5, 0`; it ends with the order `2, 1, 3` (move `1` still before move
`3`) and reports the evaluation `5`. -/
theorem C14_root_ordering_after_pass_witness :
    ∃ s1, iteration tieEnv 10 1 1 (rootInit tieEnv 1 [] [5] (midState 100)) = Res.ok () s1 ∧
      s1.rootMoves = [ScoredMove.mk 2 5, ScoredMove.mk 1 0, ScoredMove.mk 3 0] ∧
      s1.eval = 5 ∧
      (s1.rootMoves.map (fun y => y.m)).Perm (tieEnv.genMoves 1) := by
  have hisok : (iteration tieEnv 10 1 1 (rootInit tieEnv 1 [] [5] (midState 100))).isOk
      = true := by decide!
  obtain ⟨u, s1, h, hfin, -⟩ := Res.exists_of_isOk hisok
  have hrm : (iteration tieEnv 10 1 1 (rootInit tieEnv 1 [] [5] (midState 100))).finalState?.map
      (fun s => s.rootMoves) = some [ScoredMove.mk 2 5, ScoredMove.mk 1 0, ScoredMove.mk 3 0] := by
    decide!
  rw [hfin] at hrm
  simp only [Option.map_some', Option.some.injEq] at hrm
  have hc := C14_root_ordering_after_pass tieEnv 10 1 1 _ s1 h
  have he := (hc.2.2.2.2.2 (ScoredMove.mk 2 5) (by rw [hrm]; rfl)).1
  exact ⟨s1, h, hrm, he, hc.2.1 (by
    rw [hc.2.2.1 [] [5] (midState 100)])⟩

/-- Claim C15. Move wire format: `move2uciFormat` returns "0000" for the null move on
every board; for a non-null move whose squares have 0-based ranks `r <= 7` it returns the
from-file letter, the from-rank digit, the to-file letter and the to-rank digit, followed
by the promotion character if and only if the move carries a promotion piece, where rank
`r` is rendered as `r + 1` when White is to move and as `8 - r` when Black is to move; so
each rank digit is in `1..8` and the string has length 4, or 5 with a promotion. -/
theorem C15_move_wire_format (w : WireEnv Pos) (b : Pos) (m : Move) :
    move2uciFormat w b 0 = "0000" ∧
    (m ≠ 0 → w.rank (w.fromSquare m) ≤ 7 → w.rank (w.toSquare m) ≤ 7 →
      (move2uciFormat w b m).data =
        [w.file2char (w.file (w.fromSquare m)),
          Nat.digitChar (shownRank (w.isWhiteToPlay b) (w.rank (w.fromSquare m))),
          w.file2char (w.file (w.toSquare m)),
          Nat.digitChar (shownRank (w.isWhiteToPlay b) (w.rank (w.toSquare m)))] ++
        (if w.hasPromoPiece m then [w.promoFlag2char m] else []) ∧
      (1 ≤ shownRank (w.isWhiteToPlay b) (w.rank (w.fromSquare m)) ∧
        shownRank (w.isWhiteToPlay b) (w.rank (w.fromSquare m)) ≤ 8) ∧
      (1 ≤ shownRank (w.isWhiteToPlay b) (w.rank (w.toSquare m)) ∧
        shownRank (w.isWhiteToPlay b) (w.rank (w.toSquare m)) ≤ 8) ∧
      (move2uciFormat w b m).length = (if w.hasPromoPiece m then 5 else 4)) := by
  constructor
  · simp [move2uciFormat]
  · intro hm h1 h2
    have hd : (move2uciFormat w b m).data =
        [w.file2char (w.file (w.fromSquare m)),
          Nat.digitChar (shownRank (w.isWhiteToPlay b) (w.rank (w.fromSquare m))),
          w.file2char (w.file (w.toSquare m)),
          Nat.digitChar (shownRank (w.isWhiteToPlay b) (w.rank (w.toSquare m)))] ++
        (if w.hasPromoPiece m then [w.promoFlag2char m] else []) := by
      unfold move2uciFormat
      rw [if_neg hm]
      simp only [toString_shownRank _ _ h1, toString_shownRank _ _ h2]
      split <;> simp [String.singleton]
    refine ⟨hd, shownRank_range _ _ h1, shownRank_range _ _ h2, ?_⟩
    rw [String.length, hd]
    split <;> simp


/-- Uses of C15 with the collaborators `wireEnv`: the move from square 12 to square 28 with
Black to move is written `e7e5`, and the promotion from square 52 to square 60 with White
to move has five characters, the last one `q`. -/
theorem C15_move_wire_format_witness :
    move2uciFormat wireEnv 1 0 = "0000" ∧
    (move2uciFormat wireEnv 1 (12 + 64 * 28)).data = ['e', '7', 'e', '5'] ∧
    (move2uciFormat wireEnv 0 (52 + 64 * 60 + 4096 * 4)).data = ['e', '7', 'e', '8', 'q'] ∧
    (move2uciFormat wireEnv 0 (52 + 64 * 60 + 4096 * 4)).length = 5 :=
  ⟨(C15_move_wire_format wireEnv 1 0).1,
    ((C15_move_wire_format wireEnv 1 (12 + 64 * 28)).2 (by decide) (by decide)
      (by decide)).1,
    ((C15_move_wire_format wireEnv 0 (52 + 64 * 60 + 4096 * 4)).2 (by decide) (by decide)
      (by decide)).1,
    ((C15_move_wire_format wireEnv 0 (52 + 64 * 60 + 4096 * 4)).2 (by decide) (by decide)
      (by decide)).2.2.2⟩

/-- Claim C16. TT cutoff in quiescence: in `quiesceSearch` with a table present and no draw
condition, if the slot of the running hash has `key == hash` and `slot.depth > depth`, the
node returns `slot.eval` at once (a budget of one frame suffices) when the kind is PV,
when the kind is ALL and `slot.eval < alpha`, or when the kind is CUT and
`slot.eval > beta`; in every other case (key mismatch, `slot.depth <= depth`, bound
condition false) the node goes on with the code after the probe, which starts with the
generation of the captures. -/
theorem C16_quiescence_table_cutoff (env : Env Pos TT MO) (fuel : Nat) (b : Pos)
    (alpha beta depth : Int) (s : State TT) (tbl : TT)
    (htt : s.tt = some tbl) (h50 : env.get50 b ≠ 50)
    (hrep : sameSideOccurrences (s.prevPos ++ [s.hash]) s.hash < 3) :
    (((env.slot tbl s.hash).key = s.hash ∧ (env.slot tbl s.hash).depth > depth ∧
        ((env.slot tbl s.hash).nodeType = NodeType.PV ∨
          ((env.slot tbl s.hash).nodeType = NodeType.ALL ∧ (env.slot tbl s.hash).eval < alpha) ∨
          ((env.slot tbl s.hash).nodeType = NodeType.CUT ∧
            (env.slot tbl s.hash).eval > beta))) →
      quiesceSearch env (fuel + 1) b alpha beta depth s =
        Res.ok (env.slot tbl s.hash).eval
          (popPos (incNodes (pollStop env.toAmbient (pushPos s))))) ∧
    (¬ ((env.slot tbl s.hash).key = s.hash ∧ (env.slot tbl s.hash).depth > depth ∧
        ((env.slot tbl s.hash).nodeType = NodeType.PV ∨
          ((env.slot tbl s.hash).nodeType = NodeType.ALL ∧ (env.slot tbl s.hash).eval < alpha) ∨
          ((env.slot tbl s.hash).nodeType = NodeType.CUT ∧
            (env.slot tbl s.hash).eval > beta))) →
      quiesceSearch env (fuel + 1) b alpha beta depth s =
        scopePos (quiesceMoves env fuel b alpha beta depth
          (incNodes (pollStop env.toAmbient (pushPos s))))) := by
  have hr : threeFoldRep (pushPos s).prevPos = false := by
    rw [pushPos_prevPos]
    exact threeFoldRep_false_of_lt _ s.hash (by simp) hrep
  have htt2 : (incNodes (pollStop env.toAmbient (pushPos s))).tt = some tbl := by simpa using htt
  have hh : (incNodes (pollStop env.toAmbient (pushPos s))).hash = s.hash := by simp
  constructor
  · intro hc
    rw [quiesceSearch_unfold, hr, if_neg (by simp), if_neg h50,
      ttProbeQ_some env _ tbl alpha beta depth htt2 (by rw [hh]; exact hc), hh]
    rfl
  · intro hc
    rw [quiesceSearch_unfold, hr, if_neg (by simp), if_neg h50,
      ttProbeQ_none env _ tbl alpha beta depth htt2 (by rw [hh]; exact hc)]


/-- Uses of C16 on position `11` of `cancelEnv`: with the entry of kind PV and depth `3`
the node returns `42` with a budget of one frame; with the entry of kind ALL and
evaluation `-42`, which is not below `alpha = -50`, and with a slot of another key, the
node goes on to its moves. -/
theorem C16_quiescence_table_cutoff_witness :
    quiesceSearch cancelEnv 1 11 (-10) 10 0 pvEntryState =
      Res.ok 42 (popPos (incNodes (pollStop cancelEnv.toAmbient (pushPos pvEntryState)))) ∧
    quiesceSearch cancelEnv 5 11 (-50) 10 0 allEntryState =
      scopePos (quiesceMoves cancelEnv 4 11 (-50) 10 0
        (incNodes (pollStop cancelEnv.toAmbient (pushPos allEntryState)))) ∧
    quiesceSearch cancelEnv 5 11 (-10) 10 0 (midState 100) =
      scopePos (quiesceMoves cancelEnv 4 11 (-10) 10 0
        (incNodes (pollStop cancelEnv.toAmbient (pushPos (midState 100))))) :=
  ⟨(C16_quiescence_table_cutoff cancelEnv 0 11 (-10) 10 0 pvEntryState _ rfl (by decide)
      (by decide)).1 (by decide),
    (C16_quiescence_table_cutoff cancelEnv 4 11 (-50) 10 0 allEntryState _ rfl (by decide)
      (by decide)).2 (by decide),
    (C16_quiescence_table_cutoff cancelEnv 4 11 (-10) 10 0 (midState 100) _ rfl (by decide)
      (by decide)).2 (by decide)⟩

/-- Claim C17, as stated, fails on the header template. The template of `engine.hpp`
writes kind `0` for a node that raised alpha (the PV kind), `1` otherwise and `2` at a
cutoff. With a slot of kind `0`, key equal to the running hash `5` and depth `3`, its
`alphaBetaSearch<.., ABSearch>` at depth `2` returns the stored evaluation at once, with a
budget of one frame: `42` with White to move and `-42` with Black to move. -/
theorem C17_header_returns_on_exact_entry :
    (hppExactEnv.slot
      { key := 5, depth := 3, eval := 42, bestMove := 0, nodeType := NodeType.PV, age := 0 }
      5).nodeType = 0 ∧
    pvEntryState.hash = 5 ∧ hppExactEnv.ply50 1 = 0 ∧
    (Hpp.alphaBetaSearch hppExactEnv 1 true Hpp.SearchType.ABSearch false (-100) 100 2 1
      pvEntryState).value? = some 42 ∧
    (Hpp.alphaBetaSearch hppExactEnv 1 false Hpp.SearchType.ABSearch false (-100) 100 2 1
      pvEntryState).value? = some (-42) := by
  decide

/-- Claim C17, amended. TT cutoff in the main search of `engine.cpp`: in `alphaBetaSearch`
with `depth >= 1`, a table present and no draw condition, the node returns early from the
table if and only if the slot has `key == hash`, `slot.depth > depth` and either kind ALL
and `slot.eval < alpha` or kind CUT and `slot.eval > beta`, and it then returns
`slot.eval`; otherwise, and for every entry of kind PV, it goes on with the code after the
probe. The older template of `engine.hpp` does return early on its exact kind `0`, with
`slot.eval` for White and `-slot.eval` for Black. -/
theorem C17_main_search_table_cutoff (env : Env Pos TT MO) (henv : Hpp.Env Pos TT)
    (fuel : Nat) (b : Pos) (pv : List Move) (alpha beta depth : Int)
    (nullBranch wToMove prevMoveNull : Bool) (s : State TT) (tbl : TT)
    (hd : 1 ≤ depth) (htt : s.tt = some tbl) (h50 : env.get50 b ≠ 50)
    (hrep : sameSideOccurrences (s.prevPos ++ [s.hash]) s.hash < 3)
    (hh50 : henv.ply50 b ≠ 50) :
    (((env.slot tbl s.hash).key = s.hash ∧ (env.slot tbl s.hash).depth > depth ∧
        (((env.slot tbl s.hash).nodeType = NodeType.ALL ∧ (env.slot tbl s.hash).eval < alpha) ∨
          ((env.slot tbl s.hash).nodeType = NodeType.CUT ∧
            (env.slot tbl s.hash).eval > beta))) →
      alphaBetaSearch env (fuel + 1) b pv alpha beta depth nullBranch s =
        Res.ok ((env.slot tbl s.hash).eval, pv)
          (popPos (incNodes (pushPos (uciUpdate env.toAmbient (pollStop env.toAmbient s)))))) ∧
    (¬ ((env.slot tbl s.hash).key = s.hash ∧ (env.slot tbl s.hash).depth > depth ∧
        (((env.slot tbl s.hash).nodeType = NodeType.ALL ∧ (env.slot tbl s.hash).eval < alpha) ∨
          ((env.slot tbl s.hash).nodeType = NodeType.CUT ∧
            (env.slot tbl s.hash).eval > beta))) →
      alphaBetaSearch env (fuel + 1) b pv alpha beta depth nullBranch s =
        scopePos (abMoves env fuel b pv alpha beta depth nullBranch
          (incNodes (pushPos (uciUpdate env.toAmbient (pollStop env.toAmbient s)))))) ∧
    ((env.slot tbl s.hash).nodeType = NodeType.PV →
      alphaBetaSearch env (fuel + 1) b pv alpha beta depth nullBranch s =
        scopePos (abMoves env fuel b pv alpha beta depth nullBranch
          (incNodes (pushPos (uciUpdate env.toAmbient (pollStop env.toAmbient s)))))) ∧
    ((henv.slot tbl s.hash).key = s.hash → (henv.slot tbl s.hash).depth > depth →
      (henv.slot tbl s.hash).nodeType = 0 →
      Hpp.alphaBetaSearch henv (fuel + 1) wToMove Hpp.SearchType.ABSearch prevMoveNull alpha
        beta depth b s =
        Res.ok (if wToMove then (henv.slot tbl s.hash).eval
          else -1 * (henv.slot tbl s.hash).eval) (b, pollStop henv.toAmbient (incNodes s))) := by
  have hr : threeFoldRep (pushPos (uciUpdate env.toAmbient
      (pollStop env.toAmbient s))).prevPos = false := by
    simp only [pushPos_prevPos, uciUpdate_prevPos, pollStop_prevPos, uciUpdate_hash,
      pollStop_hash]
    exact threeFoldRep_false_of_lt _ s.hash (by simp) hrep
  have htt2 : (incNodes (pushPos (uciUpdate env.toAmbient (pollStop env.toAmbient s)))).tt
      = some tbl := by simpa using htt
  have hh : (incNodes (pushPos (uciUpdate env.toAmbient (pollStop env.toAmbient s)))).hash
      = s.hash := by simp
  have hcont : ∀ hc : ¬ ((env.slot tbl s.hash).key = s.hash ∧
      (env.slot tbl s.hash).depth > depth ∧
        (((env.slot tbl s.hash).nodeType = NodeType.ALL ∧ (env.slot tbl s.hash).eval < alpha) ∨
          ((env.slot tbl s.hash).nodeType = NodeType.CUT ∧
            (env.slot tbl s.hash).eval > beta))),
      alphaBetaSearch env (fuel + 1) b pv alpha beta depth nullBranch s =
        scopePos (abMoves env fuel b pv alpha beta depth nullBranch
          (incNodes (pushPos (uciUpdate env.toAmbient (pollStop env.toAmbient s))))) := by
    intro hc
    rw [alphaBetaSearch_unfold env fuel b pv alpha beta depth nullBranch s hd, if_neg h50, hr,
      if_neg (by simp),
      ttProbeAB_none env _ tbl alpha beta depth htt2 (by rw [hh]; exact hc)]
  refine ⟨?_, hcont, ?_, ?_⟩
  · intro hc
    rw [alphaBetaSearch_unfold env fuel b pv alpha beta depth nullBranch s hd, if_neg h50, hr,
      if_neg (by simp),
      ttProbeAB_some env _ tbl alpha beta depth htt2 (by rw [hh]; exact hc), hh]
    rfl
  · intro hpv
    apply hcont
    rintro ⟨-, -, ⟨h1, -⟩ | ⟨h1, -⟩⟩ <;> rw [hpv] at h1 <;> exact absurd h1 (by decide)
  · intro hk hdp hn
    exact Hpp.exact_entry_returns henv fuel wToMove prevMoveNull alpha beta depth b s tbl hd
      hh50 htt hk hdp hn

/-- Uses of the amended C17 on position `1` of `cancelEnv` at depth `2`: with the entry of
kind ALL, evaluation `-42` and `alpha = -10` the node returns `-42` with a budget of one
frame; with the entry of kind PV it goes on to its moves; the header template returns
`42` on its exact entry. -/
theorem C17_main_search_table_cutoff_witness :
    alphaBetaSearch cancelEnv 1 1 [] (-10) 10 2 false allEntryState =
      Res.ok (-42, []) (popPos (incNodes (pushPos (uciUpdate cancelEnv.toAmbient
        (pollStop cancelEnv.toAmbient allEntryState))))) ∧
    alphaBetaSearch cancelEnv 5 1 [] (-10) 10 2 false pvEntryState =
      scopePos (abMoves cancelEnv 4 1 [] (-10) 10 2 false
        (incNodes (pushPos (uciUpdate cancelEnv.toAmbient
          (pollStop cancelEnv.toAmbient pvEntryState))))) ∧
    Hpp.alphaBetaSearch hppExactEnv 1 true Hpp.SearchType.ABSearch false (-100) 100 2 1
      pvEntryState = Res.ok 42 (1, pollStop hppExactEnv.toAmbient (incNodes pvEntryState)) :=
  ⟨(C17_main_search_table_cutoff cancelEnv hppExactEnv 0 1 [] (-10) 10 2 false true false
      allEntryState _ (by decide) rfl (by decide) (by decide) (by decide)).1 (by decide),
    (C17_main_search_table_cutoff cancelEnv hppExactEnv 4 1 [] (-10) 10 2 false true false
      pvEntryState _ (by decide) rfl (by decide) (by decide) (by decide)).2.2.1 rfl,
    (C17_main_search_table_cutoff cancelEnv hppExactEnv 0 1 [] (-100) 100 2 false true false
      pvEntryState _ (by decide) rfl (by decide) (by decide) (by decide)).2.2.2 rfl
      (by decide) rfl⟩

/-- Claim C18. Threefold-repetition test: for every non-empty position-hash stack,
`threeFoldRep()` is true if and only if at least three indices `i` with `size - 1 - i`
even hold the value of the top entry (the top entry counts as one occurrence); an entry at
odd distance from the top never contributes: whatever value replaces it, the result is
the same. -/
theorem C18_threeFoldRep_counts_same_side (xs : List Nat) (hne : xs ≠ []) :
    (threeFoldRep xs = true ↔ 3 ≤ sameSideOccurrences xs (xs.getLast hne)) ∧
    (∀ i v, (xs.length - 1 - i) % 2 = 1 → threeFoldRep (xs.set i v) = threeFoldRep xs) := by
  have hl : xs.getLast? = some (xs.getLast hne) := List.getLast?_eq_getLast xs hne
  refine ⟨threeFoldRep_iff xs _ hl, ?_⟩
  intro i v hodd
  have hl2 : (xs.set i v).getLast? = some (xs.getLast hne) := by
    rw [getLast?_set_odd xs i v hodd, hl]
  have h1 := threeFoldRep_iff (xs.set i v) _ hl2
  have h2 := threeFoldRep_iff xs _ hl
  rw [sameSideOccurrences_set_odd xs _ i v hodd] at h1
  rw [Bool.eq_iff_iff, h1, h2]

/-- Uses of C18: the stack `5, 9, 5, 9, 5` repeats its top three times at even distance,
also when the entries at odd distance are replaced by the top value or anything else;
the stack `5, 5, 9, 5` holds its top three times but only twice at even distance. -/
theorem C18_threeFoldRep_counts_same_side_witness :
    threeFoldRep [5, 9, 5, 9, 5] = true ∧
    threeFoldRep ([5, 9, 5, 9, 5].set 3 5) = threeFoldRep [5, 9, 5, 9, 5] ∧
    ¬ threeFoldRep [5, 5, 9, 5] = true :=
  ⟨(C18_threeFoldRep_counts_same_side [5, 9, 5, 9, 5] (by decide)).1.mpr (by decide),
    (C18_threeFoldRep_counts_same_side [5, 9, 5, 9, 5] (by decide)).2 3 5 (by decide),
    fun h => absurd ((C18_threeFoldRep_counts_same_side [5, 5, 9, 5] (by decide)).1.mp h)
      (by decide)⟩

/-- Claim C19. Result and TT write of a completed node. Take a node of `alphaBetaSearch`
with `depth >= 1` that passes the draw tests and the table probe and gets to its main
loop in state `s`, and let the loop search the moves of `log` in order (each entry is a
move yielded by the `MoveOrder`, the negation of the value its child search returned and
the alpha in force at that search), none with a negated result below `negInf`, none
followed by a cutoff, until `moves.next` yields no move in loop state `Lk`. When `log` is
not empty, the node returns the maximum of the negated child results of `log` (which is
the running maximum `besteval`) with the `pv` of `Lk`, and its final state is that of `Lk`
after one write `ttStoreEnd` and the pop of `prevPos`. The hash and `initialPos` of that
write are those of the node entry. If some entry of `log` has a result at or above the
alpha in force, the kind is PV, `topMove` is the move of an entry whose result is the
returned value, and the write is `store`; otherwise the write is `tryStore` with kind ALL
and the null move token `0`. No pass of the loop touches the table between two child
searches: it hands the table to the child as it stands and takes it back as the child
left it. -/
theorem C19_completed_node (env : Env Pos TT MO) (fuel : Nat) (b : Pos) (pv : List Move)
    (alpha beta depth : Int) (nullBranch : Bool) (s0 s : State TT)
    (log : List Searched) (g : Nat) (Lk : LoopState TT MO)
    (hd : 1 ≤ depth) (h50 : env.get50 b ≠ 50)
    (hrep : sameSideOccurrences (s0.prevPos ++ [s0.hash]) s0.hash < 3)
    (hprobe : ttProbeAB env s0 alpha beta depth = none)
    (hentry : loopEntry env fuel b beta depth nullBranch
      (incNodes (pushPos (uciUpdate env.toAmbient (pollStop env.toAmbient s0)))) = some s)
    (hT : abTrace env b depth nullBranch beta fuel (loopStart env b alpha pv s) =
      (log, g + 1, Lk))
    (hlog : log ≠ [])
    (hend : env.moNext Lk.moves Lk.s.tt b = none)
    (hscore : ∀ x ∈ log, negInf ≤ x.currEval) :
    alphaBetaSearch env (fuel + 1) b pv alpha beta depth nullBranch s0 =
        Res.ok (runningMax log, Lk.pv)
          (popPos (ttStoreEnd env depth (runningMax log) Lk.topMove Lk.nodeType Lk.s)) ∧
      (∀ x ∈ log, x.currEval ≤ runningMax log) ∧
      (∃ x ∈ log, x.currEval = runningMax log) ∧
      Lk.s.hash = s0.hash ∧ Lk.s.initialPos = s0.initialPos ∧
      ((∃ x ∈ log, x.alpha ≤ x.currEval) →
        Lk.nodeType = NodeType.PV ∧
        (∃ x ∈ log, x.m = Lk.topMove ∧ x.currEval = runningMax log) ∧
        ∀ t, Lk.s.tt = some t →
          (ttStoreEnd env depth (runningMax log) Lk.topMove Lk.nodeType Lk.s).tt =
            some (env.store t s0.hash depth (runningMax log) Lk.topMove NodeType.PV
              s0.initialPos)) ∧
      ((¬ ∃ x ∈ log, x.alpha ≤ x.currEval) →
        Lk.nodeType = NodeType.ALL ∧ Lk.topMove = 0 ∧
        ∀ t, Lk.s.tt = some t →
          (ttStoreEnd env depth (runningMax log) Lk.topMove Lk.nodeType Lk.s).tt =
            some (env.tryStore t s0.hash depth (runningMax log) 0 NodeType.ALL
              s0.initialPos)) ∧
      (∀ (g1 : Nat) (L L1 : LoopState TT MO) (m : Move) (e : Int),
        abStep env g1 b depth nullBranch beta L = StepRes.next m e L1 →
        ∃ tbl r s3, L.s.tt = some tbl ∧ (childEntry env b m tbl L.s).tt = L.s.tt ∧
          alphaBetaSearch env g1 (env.makeMove b m) L.pvChild (-beta) (-L.alpha) (depth - 1)
            nullBranch (childEntry env b m tbl L.s) = Res.ok r s3 ∧
          e = -r.1 ∧ L1.s.tt = s3.tt) := by
  obtain ⟨hnode, hh, hfx⟩ := alphaBetaSearch_loop env fuel b pv alpha beta depth nullBranch s0 s
    hd h50 hrep hprobe hentry
  have hinv := abTrace_inv env b depth nullBranch beta s fuel [] _
    (LoopInv_start env b alpha beta pv s)
  have hrun := abTrace_run env b depth nullBranch beta fuel (loopStart env b alpha pv s)
  rw [hT] at hinv hrun
  simp only [List.nil_append] at hinv
  obtain ⟨ibe, ii, -, -, ih, ifx, -, ipv⟩ := hinv
  obtain ⟨ipv1, ipv2⟩ := ipv hscore
  have hi : Lk.i ≠ 0 := by
    rw [ii]
    exact fun h => hlog (List.length_eq_zero.mp h)
  have hloop : abLoopAt env (g + 1) b depth nullBranch beta Lk =
      Res.ok (Lk.besteval, Lk.pv) (ttStoreEnd env depth Lk.besteval Lk.topMove Lk.nodeType
        Lk.s) := by
    rw [abLoopAt_step]
    unfold abStep
    rw [hend]
    dsimp only
    rw [if_neg hi]
  have hhash : Lk.s.hash = s0.hash := by rw [ih, hh]
  have hip : Lk.s.initialPos = s0.initialPos := by
    rw [initialPos_of_fixedOf ifx, initialPos_of_fixedOf hfx]
  refine ⟨?_, (le_runningMax log).2, runningMax_mem log hlog hscore, hhash, hip, ?_, ?_, ?_⟩
  · rw [hnode, hrun, hloop, ← ibe]
    rfl
  · intro hex
    obtain ⟨hnt, -, x, hx, hxm, hxe⟩ := ipv1 hex
    refine ⟨hnt, ⟨x, hx, hxm, by rw [hxe, ibe]⟩, fun t ht => ?_⟩
    rw [hnt, ttStoreEnd_tt_PV env depth _ _ Lk.s t ht, hhash, hip]
  · intro hno
    obtain ⟨hnt, htm, -⟩ := ipv2 hno
    refine ⟨hnt, htm, fun t ht => ?_⟩
    rw [hnt, htm, ttStoreEnd_tt_ALL env depth _ _ Lk.s t ht, hhash, hip]
  · intro g1 L L1 m e h
    exact abStep_next_table env g1 b depth nullBranch beta L L1 m e h



/-- Two uses of C19 on position `1` of `loopEnv` at depth `1`, where the three moves have
the negated child results `10`, `-5` and `30`. With the window `(-100, 100)` the first
and the third move raise alpha: the node returns `30` with the line `[3]` and the table
holds the entry stored with kind PV and move `3`. With the window `(50, 100)` no move
reaches alpha: the node returns `30` and the table holds the entry of kind ALL with move
`0`. -/
theorem C19_completed_node_witness :
    (loopRun (-100) 100).1 =
      [Searched.mk 1 10 (-100), Searched.mk 2 (-5) 10, Searched.mk 3 30 10] ∧
    (alphaBetaSearch loopEnv 6 1 [] (-100) 100 1 true (midState 100)).value? =
      some (30, [3]) ∧
    (alphaBetaSearch loopEnv 6 1 [] (-100) 100 1 true (midState 100)).table? =
      some { key := 5, depth := 1, eval := 30, bestMove := 3, nodeType := NodeType.PV,
             age := 1 } ∧
    (alphaBetaSearch loopEnv 6 1 [] 50 100 1 true (midState 100)).value? = some (30, []) ∧
    (alphaBetaSearch loopEnv 6 1 [] 50 100 1 true (midState 100)).table? =
      some { key := 5, depth := 1, eval := 30, bestMove := 0, nodeType := NodeType.ALL,
             age := 1 } := by
  have h1 := C19_completed_node loopEnv 5 1 [] (-100) 100 1 true (midState 100) loopState0
    (loopRun (-100) 100).1 1 (loopRun (-100) 100).2.2 (by decide) (by decide) (by decide)
    (by decide) rfl (triple_eta (loopRun (-100) 100) (1 + 1) (by decide)) (by decide) (by decide)
    (by decide)
  have h2 := C19_completed_node loopEnv 5 1 [] 50 100 1 true (midState 100) loopState0
    (loopRun 50 100).1 1 (loopRun 50 100).2.2 (by decide) (by decide) (by decide)
    (by decide) rfl (triple_eta (loopRun 50 100) (1 + 1) (by decide)) (by decide) (by decide)
    (by decide)
  refine ⟨by decide, ?_, ?_, ?_, ?_⟩
  · exact (congrArg Res.value? h1.1).trans (by decide)
  · exact (congrArg Res.table? h1.1).trans (by decide)
  · exact (congrArg Res.value? h2.1).trans (by decide)
  · exact (congrArg Res.table? h2.1).trans (by decide)

/-- Claim C20. Beta cutoff. Take a node of `alphaBetaSearch` with `depth >= 1` that passes
the draw tests and the table probe and gets to its main loop in state `s`; let the loop
search the moves of `log` and go on after each of them, and let the next pass, in loop
state `Lk`, search the move `m` that `moves.next` yields, the child returning `r`, so that
the running maximum `max (runningMax log) (-r.1)` is at or above `beta`. Then the node
returns that running maximum with the `pv` of `Lk`, whatever moves the `MoveOrder` has
left and with no further budget; no negated child result so far exceeds it, and it is one
of them when none of them is below `negInf`, the value `besteval` starts from; the running
maximum was below `beta` after every earlier move; and the final state is the one the child left, after the reset of the hash, the one
write `tryStore(hash at node entry, depth, the maximum, m, CUT, initialPos)`, and the pops
of the move and of `prevPos`. No earlier pass of the loop touches the table between two
child searches. -/
theorem C20_beta_cutoff (env : Env Pos TT MO) (fuel : Nat) (b : Pos) (pv : List Move)
    (alpha beta depth : Int) (nullBranch : Bool) (s0 s : State TT)
    (log : List Searched) (g : Nat) (Lk : LoopState TT MO)
    (m : Move) (mo : MO) (tbl : TT) (r : Int × List Move) (s3 : State TT)
    (hd : 1 ≤ depth) (h50 : env.get50 b ≠ 50)
    (hrep : sameSideOccurrences (s0.prevPos ++ [s0.hash]) s0.hash < 3)
    (hprobe : ttProbeAB env s0 alpha beta depth = none)
    (hentry : loopEntry env fuel b beta depth nullBranch
      (incNodes (pushPos (uciUpdate env.toAmbient (pollStop env.toAmbient s0)))) = some s)
    (hT : abTrace env b depth nullBranch beta fuel (loopStart env b alpha pv s) =
      (log, g + 1, Lk))
    (hnext : env.moNext Lk.moves Lk.s.tt b = some (m, mo))
    (hflag : (testSearching env.toAmbient Lk.s).1 = true)
    (htbl : Lk.s.tt = some tbl)
    (hchild : alphaBetaSearch env g (env.makeMove b m) Lk.pvChild (-beta) (-Lk.alpha)
      (depth - 1) nullBranch (childEntry env b m tbl Lk.s) = Res.ok r s3)
    (hcut : beta ≤ max (runningMax log) (-r.1)) :
    alphaBetaSearch env (fuel + 1) b pv alpha beta depth nullBranch s0 =
        Res.ok (runningMax (log ++ [Searched.mk m (-r.1) Lk.alpha]), Lk.pv)
          (popPos (popMove (ttStoreCut env depth
            (runningMax (log ++ [Searched.mk m (-r.1) Lk.alpha])) m (setHash s0.hash s3)))) ∧
      beta ≤ runningMax (log ++ [Searched.mk m (-r.1) Lk.alpha]) ∧
      runningMax (log ++ [Searched.mk m (-r.1) Lk.alpha]) = max (runningMax log) (-r.1) ∧
      (∀ x ∈ log ++ [Searched.mk m (-r.1) Lk.alpha],
        x.currEval ≤ runningMax (log ++ [Searched.mk m (-r.1) Lk.alpha])) ∧
      ((∀ x ∈ log ++ [Searched.mk m (-r.1) Lk.alpha], negInf ≤ x.currEval) →
        ∃ x ∈ log ++ [Searched.mk m (-r.1) Lk.alpha],
          x.currEval = runningMax (log ++ [Searched.mk m (-r.1) Lk.alpha])) ∧
      (∀ j, 0 < j → j ≤ log.length → runningMax (log.take j) < beta) ∧
      (∀ t, s3.tt = some t →
        (ttStoreCut env depth (runningMax (log ++ [Searched.mk m (-r.1) Lk.alpha])) m
            (setHash s0.hash s3)).tt =
          some (env.tryStore t s0.hash depth
            (runningMax (log ++ [Searched.mk m (-r.1) Lk.alpha])) m NodeType.CUT
            s0.initialPos)) ∧
      (childEntry env b m tbl Lk.s).tt = Lk.s.tt ∧
      (∀ (g1 : Nat) (L L1 : LoopState TT MO) (m1 : Move) (e : Int),
        abStep env g1 b depth nullBranch beta L = StepRes.next m1 e L1 →
        ∃ tbl1 r1 s4, L.s.tt = some tbl1 ∧ (childEntry env b m1 tbl1 L.s).tt = L.s.tt ∧
          alphaBetaSearch env g1 (env.makeMove b m1) L.pvChild (-beta) (-L.alpha) (depth - 1)
            nullBranch (childEntry env b m1 tbl1 L.s) = Res.ok r1 s4 ∧
          e = -r1.1 ∧ L1.s.tt = s4.tt) := by
  obtain ⟨hnode, hh, hfx⟩ := alphaBetaSearch_loop env fuel b pv alpha beta depth nullBranch s0 s
    hd h50 hrep hprobe hentry
  have hinv := abTrace_inv env b depth nullBranch beta s fuel [] _
    (LoopInv_start env b alpha beta pv s)
  have hrun := abTrace_run env b depth nullBranch beta fuel (loopStart env b alpha pv s)
  rw [hT] at hinv hrun
  simp only [List.nil_append] at hinv
  obtain ⟨ibe, -, -, -, ih, ifx, ipre, -⟩ := hinv
  have hmax : runningMax (log ++ [Searched.mk m (-r.1) Lk.alpha]) =
      max (runningMax log) (-r.1) := runningMax_snoc log _
  have hhash : Lk.s.hash = s0.hash := by rw [ih, hh]
  obtain ⟨-, -, -, cfx⟩ := Framed.ok_elim ((alphaBeta_framed env g).1 _ _ _ _ _ _ _) hchild
  have hip : s3.initialPos = s0.initialPos := by
    rw [initialPos_of_fixedOf cfx]
    have : fixedOf (childEntry env b m tbl Lk.s) = fixedOf Lk.s := by simp [childEntry]
    rw [initialPos_of_fixedOf this, initialPos_of_fixedOf ifx, initialPos_of_fixedOf hfx]
  have hloop : abLoopAt env (g + 1) b depth nullBranch beta Lk =
      Res.ok (max Lk.besteval (-r.1), Lk.pv)
        (popMove (ttStoreCut env depth (max Lk.besteval (-r.1)) m (setHash Lk.s.hash s3))) := by
    rw [abLoopAt_step]
    unfold abStep
    rw [hnext]
    dsimp only
    rw [if_neg (by rw [hflag]; simp)]
    have ht : (pushMove m (testSearching env.toAmbient Lk.s).2).tt = some tbl := by
      simpa using htbl
    rw [ht]
    dsimp only
    rw [hchild]
    dsimp only
    rw [if_pos (by rw [ibe]; exact hcut)]
    simp
  refine ⟨?_, by rw [hmax]; exact hcut, hmax, (le_runningMax _).2,
    runningMax_mem _ (by simp), ipre, fun t ht => ?_, by simp [childEntry], ?_⟩
  · rw [hnode, hrun, hloop, hmax, ibe, hhash]
    rfl
  · rw [ttStoreCut_tt env depth _ m (setHash s0.hash s3) t (by simpa using ht)]
    have h1 : (setHash s0.hash s3).initialPos = s0.initialPos := hip
    have h2 : (setHash s0.hash s3).hash = s0.hash := rfl
    rw [h1, h2]
  · intro g1 L L1 m1 e h
    exact abStep_next_table env g1 b depth nullBranch beta L L1 m1 e h



/-- A use of C20 on position `1` of `loopEnv` at depth `1` with the window `(-100, 20)`:
the moves `1` and `2` have the negated child results `10` and `-5`, the third move has
`30`, which is at or above `beta = 20`. The node returns `30` with the line `[1]` of the
first move, and the table holds the entry written by `tryStore` with kind CUT and
move `3`. -/
theorem C20_beta_cutoff_witness :
    (loopRun (-100) 20).1 = [Searched.mk 1 10 (-100), Searched.mk 2 (-5) 10] ∧
    (alphaBetaSearch loopEnv 6 1 [] (-100) 20 1 true (midState 100)).value? =
      some (30, [1]) ∧
    (alphaBetaSearch loopEnv 6 1 [] (-100) 20 1 true (midState 100)).table? =
      some { key := 5, depth := 1, eval := 30, bestMove := 3, nodeType := NodeType.CUT,
             age := 1 } := by
  obtain ⟨r, s3, hr, hfin, hv⟩ := Res.exists_of_isOk
    (x := alphaBetaSearch loopEnv 2 (loopEnv.makeMove 1 3) (loopRun (-100) 20).2.2.pvChild
      (-20) (-(loopRun (-100) 20).2.2.alpha) (1 - 1) true
      (childEntry loopEnv 1 3 emptyEntry (loopRun (-100) 20).2.2.s)) (by decide)
  have hval : (alphaBetaSearch loopEnv 2 (loopEnv.makeMove 1 3) (loopRun (-100) 20).2.2.pvChild
      (-20) (-(loopRun (-100) 20).2.2.alpha) (1 - 1) true
      (childEntry loopEnv 1 3 emptyEntry (loopRun (-100) 20).2.2.s)).value?.map Prod.fst =
        some (-30) := by decide
  have htab : (alphaBetaSearch loopEnv 2 (loopEnv.makeMove 1 3)
      (loopRun (-100) 20).2.2.pvChild (-20) (-(loopRun (-100) 20).2.2.alpha) (1 - 1) true
      (childEntry loopEnv 1 3 emptyEntry (loopRun (-100) 20).2.2.s)).finalState?.map
        (fun s => s.tt) = some (some emptyEntry) := by decide
  rw [hv] at hval
  rw [hfin] at htab
  simp only [Option.map_some', Option.some.injEq] at hval htab
  have h := C20_beta_cutoff loopEnv 5 1 [] (-100) 20 1 true (midState 100) loopState0
    (loopRun (-100) 20).1 2 (loopRun (-100) 20).2.2 3 [] emptyEntry r s3 (by decide)
    (by decide) (by decide) (by decide) rfl (triple_eta (loopRun (-100) 20) (2 + 1) (by decide))
    (by decide) (by decide) (by decide) hr (by rw [hval]; decide)
  obtain ⟨h1, -, -, -, -, -, h5, -, -⟩ := h
  rw [hval] at h1 h5
  refine ⟨by decide, ?_, ?_⟩
  · rw [h1]
    simp only [Res.value?]
    decide
  rw [h1]
  show (popPos (popMove _)).tt = _
  rw [popPos_tt, popMove_tt, h5 emptyEntry htab]
  decide

/-- Claim C21. Null-move cutoff: take a node of `alphaBetaSearch` with `depth >= 1`,
`nullBranch = false`, not in check, that passes the draw tests and the table probe, and
let the search of the null-moved position with the window `(-beta, -beta + 1)`, depth
`depth - 3` and `nullBranch = true` return `r`, so that `v = -r.1`. If `v >= beta`, the
node returns `v` with the caller's `pv` as it was, in the state the null-move search
left, after the reset of the hash and the two pops: the table is the one the child left
and no flag test of the main loop was made. If `v < beta`, the node is the run of the
main loop from its first move with `alpha` and `beta` as they were, `besteval = negInf`,
kind ALL, `topMove = 0`, the caller's `pv` and an empty child PV. -/
theorem C21_null_move_cutoff (env : Env Pos TT MO) (fuel : Nat) (b : Pos) (pv : List Move)
    (alpha beta depth : Int) (s0 : State TT) (tbl : TT) (r : Int × List Move) (s6 : State TT)
    (hd : 1 ≤ depth) (h50 : env.get50 b ≠ 50)
    (hrep : sameSideOccurrences (s0.prevPos ++ [s0.hash]) s0.hash < 3)
    (hprobe : ttProbeAB env s0 alpha beta depth = none)
    (hcheck : env.isInCheck b = false) (htbl : s0.tt = some tbl)
    (hnull : alphaBetaSearch env fuel (env.doNullMove b) [] (-beta) (-beta + 1) (depth - 3)
      true (nullMoveEntry env b tbl s0) = Res.ok r s6) :
    (-r.1 ≥ beta →
      alphaBetaSearch env (fuel + 1) b pv alpha beta depth false s0 =
          Res.ok (-r.1, pv) (popPos (popMove (setHash s0.hash s6))) ∧
        (popPos (popMove (setHash s0.hash s6))).tt = s6.tt ∧
        (popPos (popMove (setHash s0.hash s6))).tick = s6.tick ∧
        (popPos (popMove (setHash s0.hash s6))).nodes = s6.nodes) ∧
    (-r.1 < beta →
      alphaBetaSearch env (fuel + 1) b pv alpha beta depth false s0 =
        scopePos (abLoop env fuel b depth false beta
          (env.moInit s6.tt b s0.hash) 0 alpha negInf NodeType.ALL 0 pv []
          (popMove (setHash s0.hash s6)))) := by
  have hr : threeFoldRep (pushPos (uciUpdate env.toAmbient
      (pollStop env.toAmbient s0))).prevPos = false := by
    simp only [pushPos_prevPos, uciUpdate_prevPos, pollStop_prevPos, uciUpdate_hash,
      pollStop_hash]
    exact threeFoldRep_false_of_lt _ s0.hash (by simp) hrep
  have hp : ttProbeAB env (incNodes (pushPos (uciUpdate env.toAmbient
      (pollStop env.toAmbient s0)))) alpha beta depth = none := by
    rw [ttProbeAB_congr env alpha beta depth (s := s0) (by simp) (by simp)]
    exact hprobe
  have htt3 : (incNodes (pushPos (uciUpdate env.toAmbient (pollStop env.toAmbient s0)))).tt
      = some tbl := by simpa using htbl
  have hh3 : (incNodes (pushPos (uciUpdate env.toAmbient (pollStop env.toAmbient s0)))).hash
      = s0.hash := by simp
  have hnode : alphaBetaSearch env (fuel + 1) b pv alpha beta depth false s0 =
      scopePos (if -r.1 ≥ beta then Res.ok (-r.1, pv) (popMove (setHash s0.hash s6))
        else abLoop env fuel b depth false beta (env.moInit s6.tt b s0.hash) 0 alpha negInf
          NodeType.ALL 0 pv [] (popMove (setHash s0.hash s6))) := by
    rw [alphaBetaSearch_unfold env fuel b pv alpha beta depth false s0 hd, if_neg h50, hr,
      if_neg (by simp), hp]
    dsimp only
    unfold abMoves
    rw [if_pos (by simp [hcheck]), htt3]
    dsimp only
    unfold nullMoveEntry at hnull
    rw [hnull, hh3]
    rfl
  constructor
  · intro hv
    rw [hnode, if_pos hv]
    exact ⟨rfl, rfl, rfl, rfl⟩
  · intro hv
    rw [hnode, if_neg (not_le.mpr hv)]



/-- Two uses of C21 on position `1` of `loopEnv` at depth `1`, where the null-move search
returns `0`. With `beta = -5` the node returns `0` with the caller's line `[7]` after
two nodes (its own and the null-move child). With `beta = 100` the node is the run of its
main loop with `alpha = -100`, `beta = 100` and an empty child PV, which returns `30` with
the line `[3]`. -/
theorem C21_null_move_cutoff_witness :
    (alphaBetaSearch loopEnv 6 1 [7] (-100) (-5) 1 false (midState 100)).value? =
      some (0, [7]) ∧
    (alphaBetaSearch loopEnv 6 1 [7] (-100) (-5) 1 false (midState 100)).finalState?.map
      (fun s => s.nodes) = some 2 ∧
    (∃ s6, alphaBetaSearch loopEnv 6 1 [] (-100) 100 1 false (midState 100) =
      scopePos (abLoop loopEnv 5 1 1 false 100 (loopEnv.moInit s6.tt 1 (midState 100).hash) 0
        (-100) negInf NodeType.ALL 0 [] [] (popMove (setHash (midState 100).hash s6)))) ∧
    (alphaBetaSearch loopEnv 6 1 [] (-100) 100 1 false (midState 100)).value? =
      some (30, [3]) := by
  obtain ⟨r, s6, hr, hfin, hv⟩ := Res.exists_of_isOk
    (x := alphaBetaSearch loopEnv 5 (loopEnv.doNullMove 1) [] (- -5) (- -5 + 1) (1 - 3) true
      (nullMoveEntry loopEnv 1 emptyEntry (midState 100))) (by decide)
  have hval : (alphaBetaSearch loopEnv 5 (loopEnv.doNullMove 1) [] (- -5) (- -5 + 1) (1 - 3)
      true (nullMoveEntry loopEnv 1 emptyEntry (midState 100))).value?.map Prod.fst =
        some 0 := by decide
  have hnodes : (alphaBetaSearch loopEnv 5 (loopEnv.doNullMove 1) [] (- -5) (- -5 + 1) (1 - 3)
      true (nullMoveEntry loopEnv 1 emptyEntry (midState 100))).finalState?.map
        (fun s => s.nodes) = some 2 := by decide
  rw [hv] at hval
  rw [hfin] at hnodes
  simp only [Option.map_some', Option.some.injEq] at hval hnodes
  have h1 := (C21_null_move_cutoff loopEnv 5 1 [7] (-100) (-5) 1 (midState 100) emptyEntry r s6
    (by decide) (by decide) (by decide) (by decide) rfl rfl hr).1 (by rw [hval]; decide)
  obtain ⟨r2, t6, hr2, -, hv2⟩ := Res.exists_of_isOk
    (x := alphaBetaSearch loopEnv 5 (loopEnv.doNullMove 1) [] (-100) (-100 + 1) (1 - 3) true
      (nullMoveEntry loopEnv 1 emptyEntry (midState 100))) (by decide)
  have hval2 : (alphaBetaSearch loopEnv 5 (loopEnv.doNullMove 1) [] (-100) (-100 + 1) (1 - 3)
      true (nullMoveEntry loopEnv 1 emptyEntry (midState 100))).value?.map Prod.fst =
        some 0 := by decide
  rw [hv2] at hval2
  simp only [Option.map_some', Option.some.injEq] at hval2
  have h2 := (C21_null_move_cutoff loopEnv 5 1 [] (-100) 100 1 (midState 100) emptyEntry r2 t6
    (by decide) (by decide) (by decide) (by decide) rfl rfl hr2).2 (by rw [hval2]; decide)
  refine ⟨?_, ?_, ⟨t6, h2⟩, by decide⟩
  · rw [h1.1, hval]
    rfl
  · rw [h1.1]
    show some (popPos (popMove (setHash (midState 100).hash s6))).nodes = some 2
    rw [h1.2.2.2, hnodes]

/-- Claim C22 fails on the code. Position `1` of `seeEnv (-8)` is in check and has one
move, a capture with negative MVV/LVA score and negative static exchange evaluation, and
no quiet move. `quiesceSearch` skips the capture (engine.cpp 367-378; the skip is not
limited to positions out of check, as the delta pruning of 363 is), generates the quiet
moves, of which there are none, and returns `currEval = standpat = negInf`: it counted
one node, its own, and searched no child. With a static exchange evaluation of `0` the
same capture is searched (two nodes) and the value is `-300`. -/
theorem C22_check_with_losing_capture_returns_negInf :
    (seeEnv (-8)).isInCheck 1 = true ∧ (seeEnv (-8)).genCaptures 1 = [1] ∧
    (seeEnv (-8)).genQuiets 1 = [] ∧
    (quiesceSearch (seeEnv (-8)) 5 1 (-10) 10 0 (midState 100)).value? = some negInf ∧
    (quiesceSearch (seeEnv (-8)) 5 1 (-10) 10 0 (midState 100)).finalState?.map
      (fun s => s.nodes) = some 1 ∧
    (quiesceSearch (seeEnv 0) 5 1 (-10) 10 0 (midState 100)).value? = some (-300) ∧
    (quiesceSearch (seeEnv 0) 5 1 (-10) 10 0 (midState 100)).finalState?.map
      (fun s => s.nodes) = some 2 := by
  decide

/-- Claim C23. Best move agrees with the reported PV: when a pass of iterative deepening
completes in state `s1` and some root move has a score above `negInf`, the first move of
`MainPV` is `rootMoves[0].m`, the move that `endsearch` writes as `bestmove`. In the
state `s0` in which the loop over the root moves ended, before the sort, there is a root
move `x` at an index `j` whose score is the final `worstCase`: no root move has a larger
score, every root move before `j` has a smaller one, `MainPV` starts with the move of
`x`, and the stable descending sort puts `x` first. -/
theorem C23_bestmove_heads_MainPV (env : Env Pos TT MO) (fuel : Nat) (b : Pos) (k : Nat)
    (s s1 : State TT) (h : iteration env fuel b k s = Res.ok () s1)
    (hscore : ∃ x ∈ s1.rootMoves, negInf < x.score) :
    s1.MainPV.head? = s1.rootMoves.head?.map (fun x => x.m) ∧
    (endsearch s1).out.getLast? = some (Output.bestmove s1.MainPV.head?) ∧
    ∃ (r : Int × List Move) (s0 : State TT) (j : Nat) (x : ScoredMove),
      rootLoop env fuel b k s.rootMoves.length 0 negInf []
        ({ s with currIDdepth := k } : State TT) = Res.ok r s0 ∧
      s1 = endIteration env s0 ∧ s0.rootMoves[j]? = some x ∧ x.score = r.1 ∧
      negInf < x.score ∧
      (∀ y ∈ s0.rootMoves, y.score ≤ x.score) ∧
      (∀ j1 < j, ∀ y, s0.rootMoves[j1]? = some y → y.score < x.score) ∧
      s0.MainPV.head? = some x.m ∧ s1.MainPV = s0.MainPV ∧
      s1.rootMoves = stableSortDesc s0.rootMoves ∧ s1.rootMoves.head? = some x := by
  obtain ⟨r, s0, hl, hs1⟩ := iteration_ok_rootLoop env fuel b k s s1 h
  obtain ⟨-, h2, h3⟩ := rootLoop_inv env fuel b k _ 0 negInf [] _ s0 r (RootInv_start _)
    (by show s.rootMoves.length ≤ 0 + s.rootMoves.length; omega) hl
  have hrm : s1.rootMoves = stableSortDesc s0.rootMoves := by rw [hs1]; rfl
  have hpv : s1.MainPV = s0.MainPV := by rw [hs1]; rfl
  have hle : ∀ y ∈ s0.rootMoves, y.score ≤ r.1 := by
    intro y hy
    obtain ⟨n, hn⟩ := List.mem_iff_getElem?.mp hy
    have hnl : n < s0.rootMoves.length := by
      by_contra hc
      rw [List.getElem?_eq_none (not_lt.mp hc)] at hn
      cases hn
    exact h2 n hnl y hn
  obtain ⟨x1, hx1, hx1s⟩ := hscore
  have hx1m : x1 ∈ s0.rootMoves := by
    rw [hrm] at hx1
    exact (stableSortDesc_perm _).mem_iff.mp hx1
  have hw : negInf < r.1 := lt_of_lt_of_le hx1s (hle x1 hx1m)
  obtain ⟨j, x, -, hx, hxs, hlt, hm⟩ := h3 hw
  have hhead : s1.rootMoves.head? = some x := by
    rw [hrm]
    exact stableSortDesc_head_first _ j x hx (by rw [hxs]; exact hle) (by rw [hxs]; exact hlt)
  have hfirst : s1.MainPV.head? = s1.rootMoves.head?.map (fun x => x.m) := by
    rw [hhead, hpv, hm]
    rfl
  refine ⟨hfirst, ?_, r, s0, j, x, hl, hs1, hx, hxs, by rw [hxs]; exact hw,
    by rw [hxs]; exact hle, by rw [hxs]; exact hlt, hm, hpv, hrm, hhead⟩
  rw [endsearch_bestmove, hfirst, List.head?_map]

/-- A run of C23: the first pass of `rootSearch` on `tieEnv` scores the root moves
`1, 2, 3` with `0, 5, 0`; move `2` raised `worstCase` last, `MainPV` starts with `2` and
`rootMoves[0].m` is `2`. -/
theorem C23_bestmove_heads_MainPV_witness :
    ∃ s1, iteration tieEnv 10 1 1 (rootInit tieEnv 1 [] [5] (midState 100)) = Res.ok () s1 ∧
      s1.MainPV.head? = some 2 ∧ s1.rootMoves.head?.map (fun x => x.m) = some 2 := by
  have hisok : (iteration tieEnv 10 1 1 (rootInit tieEnv 1 [] [5] (midState 100))).isOk
      = true := by decide!
  obtain ⟨u, s1, h, hfin, -⟩ := Res.exists_of_isOk hisok
  have hrm : (iteration tieEnv 10 1 1 (rootInit tieEnv 1 [] [5] (midState 100))).finalState?.map
      (fun s => s.rootMoves) = some [ScoredMove.mk 2 5, ScoredMove.mk 1 0, ScoredMove.mk 3 0] := by
    decide!
  rw [hfin] at hrm
  simp only [Option.map_some', Option.some.injEq] at hrm
  have hc := C23_bestmove_heads_MainPV tieEnv 10 1 1 _ s1 h
    ⟨ScoredMove.mk 2 5, by rw [hrm]; simp, by decide⟩
  have h2 : s1.rootMoves.head?.map (fun x => x.m) = some 2 := by rw [hrm]; rfl
  exact ⟨s1, h, by rw [hc.1, h2], h2⟩

/-- Claim C24. Null moves never nest. `alphaBetaCalls` is `alphaBetaSearch` with the
recursive calls of `alphaBetaSearch` recorded at their call sites, and its outcome is that
of `alphaBetaSearch`. For a search started with `nullBranch = false`, every recorded call
is made by a node with `depth >= 1` and has a strictly smaller depth than its caller: it is
the null-move call, made by a node with `nullBranch = false`, with `depth - 3` and
`nullBranch = true`, or the call for a move, with `depth - 1` and the `nullBranch` of the
caller. The path from the starting node to the called node holds at most one null move,
every call on a path with a null move has `nullBranch = true`, and the depth of the call
is the starting depth less one for every move and three for every null move of its path.
A node with `depth <= 0` makes no call of `alphaBetaSearch`: it is the call of
`quiesceSearch`. -/
theorem C24_null_moves_never_nest (env : Env Pos TT MO) (fuel : Nat) (b : Pos)
    (pv : List Move) (alpha beta depth : Int) (s : State TT) :
    (alphaBetaCalls env fuel [] b pv alpha beta depth false s).1 =
      alphaBetaSearch env fuel b pv alpha beta depth false s ∧
    (∀ c ∈ (alphaBetaCalls env fuel [] b pv alpha beta depth false s).2,
      1 ≤ c.callerDepth ∧ c.depth < c.callerDepth ∧
      ((c.path.getLast? = some none ∧ c.depth = c.callerDepth - 3 ∧ c.callerNull = false ∧
          c.nullBranch = true) ∨
        (∃ m, c.path.getLast? = some (some m) ∧ c.depth = c.callerDepth - 1 ∧
          c.nullBranch = c.callerNull)) ∧
      nullMoves c.path ≤ 1 ∧ (none ∈ c.path → c.nullBranch = true) ∧
      c.depth + (c.path.length : Int) + 2 * (nullMoves c.path : Int) = depth) ∧
    (∀ (nullBranch : Bool) (path : List (Option Move)), depth ≤ 0 →
      alphaBetaSearch env (fuel + 1) b pv alpha beta depth nullBranch s =
        withPV pv (quiesceSearch env fuel b alpha beta depth s) ∧
      (alphaBetaCalls env (fuel + 1) path b pv alpha beta depth nullBranch s).2 = []) := by
  refine ⟨(calls_erase env fuel).1 _ _ _ _ _ _ _ _, fun c hc => ?_, fun nb path hd => ?_⟩
  · obtain ⟨h1, h2, h3, h4, h5⟩ :=
      (calls_inv env fuel).1 [] b pv alpha beta depth false s (by simp [nullMoves])
        (fun _ => by simp [nullMoves]) c hc
    refine ⟨h1, ?_, h2, h3, fun hin => ?_, ?_⟩
    · rcases h2 with ⟨-, hdep, -, -⟩ | ⟨m, -, hdep, -⟩
      · omega
      · omega
    · cases hnb : c.nullBranch with
      | true => rfl
      | false =>
        have h0 := h4 hnb
        have hpos : 0 < nullMoves c.path := List.count_pos_iff.mpr hin
        omega
    · rw [h5]
      simp [nullMoves]
  · constructor
    · rw [alphaBetaSearch, if_pos hd]
    · rw [alphaBetaCalls, if_pos hd]

/-- A run of C24 on `nestEnv` from position `1` with depth `4`: the null-move call has
depth `1` and `nullBranch = true` and makes one call for a move, with depth `0`; the call
for move `1` has depth `3` and `nullBranch = false` and makes one null-move call, with
depth `0`. The recorded outcome is that of `alphaBetaSearch`, the value `0` with the
line `[1]`. -/
theorem C24_null_moves_never_nest_witness :
    (alphaBetaCalls nestEnv 8 [] 1 [] (-100) 100 4 false (midState 100)).2 =
      [Call.mk [none] 4 false 1 true, Call.mk [none, some 2] 1 true 0 true,
        Call.mk [some 1] 4 false 3 false, Call.mk [some 1, none] 3 false 0 true] ∧
    (alphaBetaCalls nestEnv 8 [] 1 [] (-100) 100 4 false (midState 100)).1.value? =
      (alphaBetaSearch nestEnv 8 1 [] (-100) 100 4 false (midState 100)).value? ∧
    (alphaBetaSearch nestEnv 8 1 [] (-100) 100 4 false (midState 100)).value? =
      some (0, [1]) :=
  ⟨by decide,
    congrArg Res.value?
      (C24_null_moves_never_nest nestEnv 8 1 [] (-100) 100 4 (midState 100)).1,
    by decide⟩

end Captain
